import Mathlib

/-!
# The 8-queens genetic algorithm of `_8_queens_problem.cpp`

A shallow embedding of the algorithmic part of the program (rendering is left out)
and the properties proved about it.

Modelling conventions.

* A C array is a `List`; a read or a write outside the array has no result
  (`none`), so a function that returns `some _` performed only in-bounds accesses.
* `int` values are integers.  `same_diagonal`, which `computeFit` applies to whatever
  chromosome it is given, computes `i - placements[i]` and `i + placements[i]` in
  32-bit two's complement (`wrapInt32`).  Scores, sums of scores and counters are
  kept exact: in every run scores lie in `[0, 28]` and their sums in `[0, 1400]`.
  Array indices and loop counters, which the program only ever counts upwards from
  `0`, are natural numbers.
* A `float` value is the exact fraction it stands for (`Frac`).  The conversion of an
  `int` to `float` and the product of two `float` values round to the nearest `float`
  (`Binary32.round`: a significand of 24 bits, ties to even); comparisons are exact.
* The program's sources of randomness (`generator` with its distributions, and
  `rand()`) and `std::sort` are library code.  They are the fields of `Lib`; what
  the C++ standard guarantees of them is `Lib.Valid`.  A generator state `g : G`
  is threaded through every function that draws.
* Global variables are the fields of `State`.
* A `while` loop whose exit depends on the random draws takes a `fuel` bound and
  has no result when the bound is exhausted.
-/

namespace EightQueens

/-! ## Constants -/

/-- Number of genes of a chromosome (`constexpr int chromosome_length = 8`). -/
def chromosome_length : Nat := 8

/-- Population size (`constexpr int popSize = 50`). -/
def popSize : Nat := 50

/-- Number of stuck generations allowed (`int max_stuck = 700`). -/
def max_stuck : Int := 700

/-! ## Values of type `float` -/

/-- The value `num / den` of a `float`, kept as an exact fraction (`den > 0`). -/
structure Frac where
  num : Int
  den : Nat
deriving DecidableEq, Repr

namespace Binary32

/-- The position `⌊log₂ n⌋` of the leading bit of `n > 0`, found by halving; a `fuel` of `n`
is enough. -/
def log2 : Nat → Nat → Nat
  | 0, _ => 0
  | fuel + 1, n => if n < 2 then 0 else log2 fuel (n / 2) + 1

/-- The fraction `(n / d) / 2 ^ e`, as numerator and denominator. -/
def scale (n d : Nat) (e : Int) : Nat × Nat :=
  if 0 ≤ e then (n, d * 2 ^ e.toNat) else (n * 2 ^ (-e).toNat, d)

/-- The binary exponent `⌊log₂ (n / d)⌋` of a positive fraction. -/
def floorLog (n d : Nat) : Int :=
  let c : Int := (log2 n n : Int) - (log2 d d : Int)
  if (scale n d c).2 ≤ (scale n d c).1 then c else c - 1

/-- The exponent of the last place of the `float` nearest to `n / d`: the significand has
24 bits, and the exponent of the last place is at least `-149` (subnormal values). -/
def exponent (n d : Nat) : Int := max (floorLog n d - 23) (-149)

/-- The integer nearest to `a / b`, a tie going to the even one. -/
def nearestEven (a b : Nat) : Nat :=
  let f := a / b
  let r := a % b
  if 2 * r < b then f else if b < 2 * r then f + 1 else if f % 2 = 0 then f else f + 1

/-- The `float` nearest to a fraction (round to nearest, ties to even), the rounding of
every conversion to `float` and of every `float` operation.  The exponent is not bounded
above: the operands here are an `int` and a value of the unit interval, far below the
largest `float`. -/
def round (a : Frac) : Frac :=
  if a.num = 0 ∨ a.den = 0 then ⟨0, 1⟩
  else
    let e := exponent a.num.natAbs a.den
    let x := scale a.num.natAbs a.den e
    let m : Int := (nearestEven x.1 x.2 : Nat)
    let m := if a.num < 0 then -m else m
    if 0 ≤ e then ⟨m * 2 ^ e.toNat, 1⟩ else ⟨m, 2 ^ (-e).toNat⟩

/-- A value a `float` can hold: a significand below `2 ^ 24` times a power of two with an
exponent of at least `-149`. -/
def Rep (F : ℚ) : Prop :=
  ∃ (M : Nat) (E : Int), M < 2 ^ 24 ∧ -149 ≤ E ∧ F = (M : ℚ) * (2 : ℚ) ^ E

end Binary32

namespace Frac

/-- Conversion `static_cast<float>(n)` of an `int`. -/
def ofInt (n : Int) : Frac := Binary32.round ⟨n, 1⟩

/-- Product `a * b` of two `float` values. -/
def mul (a b : Frac) : Frac := Binary32.round ⟨a.num * b.num, a.den * b.den⟩

/-- Comparison `a < b` (cross-multiplied, for positive denominators). -/
def lt (a b : Frac) : Bool := decide (a.num * (b.den : Int) < b.num * (a.den : Int))

/-- The rational number a `Frac` stands for. -/
def toRat (a : Frac) : ℚ := (a.num : ℚ) / (a.den : ℚ)

/-- A value of the half-open unit interval `[0, 1)`. -/
def InUnit (a : Frac) : Prop := 0 ≤ a.num ∧ a.num < (a.den : Int)

instance (a : Frac) : Decidable a.InUnit := by
  unfold InUnit; infer_instance

end Frac

/-- Mutation rate (`constexpr float mu_rate = 0.2`).  The constant holds the `float` nearest
to `1/5`, which is `13421773 / 2 ^ 26`; no `float` lies from `1/5` up to it, so a `float` is
below the constant exactly when it is below `1/5` (`mu_rate_on_floats`). -/
def mu_rate : Frac := ⟨1, 5⟩

/-! ## Chromosomes and populations -/

/-- Range of a gene: a row index of the board. -/
def GeneRange (ch : List Int) : Prop := ∀ x ∈ ch, 0 ≤ x ∧ x ≤ 7

instance (ch : List Int) : Decidable (GeneRange ch) := by
  unfold GeneRange; infer_instance

/-- A population of `n` chromosomes of `chromosome_length` genes each. -/
def IsPopulation (n : Nat) (pop : List (List Int)) : Prop :=
  pop.length = n ∧ ∀ ch ∈ pop, ch.length = chromosome_length

instance (n : Nat) (pop : List (List Int)) : Decidable (IsPopulation n pop) := by
  unfold IsPopulation; infer_instance

/-! ## Library operations -/

/-- The library operations the program calls, over a generator state `G`. -/
structure Lib (G : Type) where
  /-- Draw of `std::uniform_real_distribution(0.0, 1.0)` from `generator`, as the value of
  the `float` variable the program stores it in (`rndT`, `rand_value`). -/
  floatDist : G → Frac × G
  /-- Draw of `std::uniform_int_distribution(0, 7)` from `generator`. -/
  intDist : G → Int × G
  /-- Call of `rand()`: a value in `[0, RAND_MAX]`. -/
  rand : G → Nat × G
  /-- Call of `std::sort` with the comparator `a.first > b.first`. -/
  std_sort : List (Int × Nat) → List (Int × Nat)
  /-- Content of the uninitialised local array `int new_pop[popSize/2][chromosome_length]`
  of `reproduce` at its declaration. -/
  uninit : G → List (List Int)

/-- What the C++ standard guarantees of the library operations, and the shape its
declaration gives the uninitialised array (its content is arbitrary). -/
structure Lib.Valid {G : Type} (L : Lib G) : Prop where
  floatDist_unit : ∀ g, (L.floatDist g).1.InUnit
  intDist_range : ∀ g, 0 ≤ (L.intDist g).1 ∧ (L.intDist g).1 ≤ 7
  sort_perm : ∀ l, (L.std_sort l).Perm l
  sort_sorted : ∀ l, (L.std_sort l).Pairwise (fun a b => b.1 ≤ a.1)
  uninit_shape : ∀ g, IsPopulation (popSize / 2) (L.uninit g)

/-! ## Arrays and loops -/

/-- Bounds-checked array write `xs[i] = v`. -/
def writeAt {α : Type} (xs : List α) (i : Nat) (v : α) : Option (List α) :=
  if i < xs.length then some (xs.set i v) else none

/-- The loop `for (i = start; i < start + n; i++) body`, over a loop state `σ`. -/
def forLoop {σ : Type} (body : Nat → σ → Option σ) : Nat → Nat → σ → Option σ
  | 0, _, s => some s
  | n + 1, i, s => (body i s).bind (forLoop body n (i + 1))

/-! ## Global variables -/

/-- The global variables of the program. -/
structure State where
  /-- Index of the local-best chromosome. -/
  best_ : Nat
  /-- Number of generations elapsed so far. -/
  gen : Int
  /-- Number of consecutive iterations without a new global best. -/
  stuck : Int
  /-- Fitness of the global-best chromosome. -/
  fit_best_ : Int
  /-- Crossover point used by `crossover`. -/
  xover_point : Nat
  /-- Best chromosome evolved so far (`int best_ind[chromosome_length]`). -/
  best_ind : List Int
  /-- The population (`int chromosomes[popSize][chromosome_length]`). -/
  chromosomes : List (List Int)
  /-- Fitness table of the population (`std::pair<int, int> fitness[popSize]`). -/
  fitness : List (Int × Nat)
  /-- Fitness table of the offspring (`std::pair<int, int> fitness_off[popSize/2]`). -/
  fitness_off : List (Int × Nat)
deriving DecidableEq, Repr

/-- The globals at program start: `gen = 0`, `stuck = 0`, everything else zero-initialised. -/
def State.start : State where
  best_ := 0
  gen := 0
  stuck := 0
  fit_best_ := 0
  xover_point := 0
  best_ind := List.replicate chromosome_length 0
  chromosomes := List.replicate popSize (List.replicate chromosome_length 0)
  fitness := List.replicate popSize (0, 0)
  fitness_off := List.replicate (popSize / 2) (0, 0)

/-! ## Fitness -/

/-- The value a 32-bit `int` holds after an addition or subtraction whose exact result is
`x`: the result is reduced modulo `2 ^ 32` into `[-2 ^ 31, 2 ^ 31)` (two's complement). -/
def wrapInt32 (x : Int) : Int := (x + 2147483648) % 4294967296 - 2147483648

/-- Diagonal test of `same_diagonal(placements, i, j)`, its four `int` variables computed in
32-bit arithmetic. -/
def same_diagonal (placements : List Int) (i j : Nat) : Bool :=
  let abs_diff_a := wrapInt32 ((i : Int) - placements.getD i 0)
  let abs_diff_b := wrapInt32 ((j : Int) - placements.getD j 0)
  let sum_a := wrapInt32 ((i : Int) + placements.getD i 0)
  let sum_b := wrapInt32 ((j : Int) + placements.getD j 0)
  if abs_diff_a = abs_diff_b ∨ sum_a = sum_b then true else false

/-- Fitness `computeFit(placements)`: 28 minus the number of attacking pairs found by
the two nested loops `for i in 0..7`, `for j in i+1..7`. -/
def computeFit (placements : List Int) : Int :=
  let no_of_pairs : Int := 28
  let no_attack_pairs : Int :=
    (List.range 8).foldl (fun acc i =>
      (List.range' (i + 1) (7 - i)).foldl (fun acc j =>
        if placements.getD i 0 = placements.getD j 0 ∨ same_diagonal placements i j = true
        then acc + 1 else acc) acc) 0
  no_of_pairs - no_attack_pairs

/-! ## Roulette-wheel selection -/

/-- First loop of `rws_select`: the sum of the scores, index `first` skipped. -/
def rws_select.sumLoop (fitness : List (Int × Nat)) (first : Nat) : Option Int :=
  forLoop (fun i sum_fitness =>
    if i = first then some sum_fitness
    else (fitness[i]?).map (fun e => sum_fitness + e.1)) popSize 0 0

/-- The `while` loop of `rws_select`; `n` bounds the number of iterations, which the
bounds check on `fitness[select_i]` keeps below the table length. -/
def rws_select.walk (fitness : List (Int × Nat)) (first : Nat) (cut_off : Frac) :
    Nat → Nat → Int → Option Nat
  | 0, _, _ => none
  | n + 1, select_i, accumulation =>
    if (Frac.ofInt accumulation).lt cut_off then
      let select_i := select_i + 1
      let select_i := if select_i = first then select_i + 1 else select_i
      match fitness[select_i]? with
      | none => none
      | some e => rws_select.walk fitness first cut_off n select_i (accumulation + e.1)
    else some select_i

/-- Selection `rws_select(first)` on the global table `fitness`; `first = popSize` is the
default argument (no index excluded). -/
def rws_select {G : Type} (L : Lib G) (fitness : List (Int × Nat)) (first : Nat) (g : G) :
    Option (Nat × G) := do
  let sum_fitness ← rws_select.sumLoop fitness first
  let select_i := if first = 0 then 1 else 0
  let e ← fitness[select_i]?
  let accumulation := e.1
  let (rndT, g) := L.floatDist g
  let cut_off := rndT.mul (Frac.ofInt sum_fitness)
  let select_i ← rws_select.walk fitness first cut_off (fitness.length + 1) select_i accumulation
  some (select_i, g)

/-! ## Mutation -/

/-- The loop `while (new_val == chromosome[i]) new_val = intDist(generator)`, with at most
`fuel` redraws. -/
def mutate.resample {G : Type} (L : Lib G) (cur : Int) : Nat → Int → G → Option (Int × G)
  | 0, new_val, g => if new_val = cur then none else some (new_val, g)
  | fuel + 1, new_val, g =>
    if new_val = cur then mutate.resample L cur fuel (L.intDist g).1 (L.intDist g).2
    else some (new_val, g)

/-- Body of the loop of `mutate` at position `i`. -/
def mutate.gene {G : Type} (L : Lib G) (fuel : Nat) (i : Nat) (st : List Int × G) :
    Option (List Int × G) :=
  let chromosome := st.1
  let rand_value := (L.floatDist st.2).1
  let g := (L.floatDist st.2).2
  if rand_value.lt mu_rate then
    (chromosome[i]?).bind fun cur =>
    (mutate.resample L cur fuel (L.intDist g).1 (L.intDist g).2).bind fun r =>
    (writeAt chromosome i r.1).bind fun chromosome =>
    some (chromosome, r.2)
  else some (chromosome, g)

/-- Mutation `mutate(chromosome)`. -/
def mutate {G : Type} (L : Lib G) (fuel : Nat) (chromosome : List Int) (g : G) :
    Option (List Int × G) :=
  forLoop (mutate.gene L fuel) chromosome_length 0 (chromosome, g)

/-! ## Crossover -/

/-- Single-point crossover `crossover(p1, p2)` at the global `xover_point`. -/
def crossover (xover_point : Nat) (p1 p2 : List Int) : Option (List Int × List Int) :=
  let offspring : List Int × List Int :=
    (List.replicate chromosome_length 0, List.replicate chromosome_length 0)
  (forLoop (fun i (o : List Int × List Int) =>
      (p1[i]?).bind fun a => (p2[i]?).bind fun b =>
      (writeAt o.1 i a).bind fun o0 => (writeAt o.2 i b).bind fun o1 => some (o0, o1))
    xover_point 0 offspring).bind fun offspring =>
  forLoop (fun i (o : List Int × List Int) =>
      (p2[i]?).bind fun a => (p1[i]?).bind fun b =>
      (writeAt o.1 i a).bind fun o0 => (writeAt o.2 i b).bind fun o1 => some (o0, o1))
    (chromosome_length - xover_point) xover_point offspring

/-! ## Sorting and evaluation -/

/-- Utility `sort(arr, size)`: the first `size` entries in descending score order. -/
def sort {G : Type} (L : Lib G) (arr : List (Int × Nat)) (size : Nat) : List (Int × Nat) :=
  L.std_sort (arr.take size) ++ arr.drop size

/-- Offspring evaluation `EvaluatePop2(chromosomes)` into `fitness_off`. -/
def EvaluatePop2 (chromosomes : List (List Int)) (s : State) : Option State :=
  forLoop (fun i (s : State) =>
      (chromosomes[i]?).bind fun c =>
      (writeAt s.fitness_off i (computeFit c, i)).bind fun fo =>
      some { s with fitness_off := fo })
    (popSize / 2) 0 s

/-- Initial evaluation `EvaluatePop(chromosomes)`; the loop state carries the local `_fit`. -/
def EvaluatePop (chromosomes : List (List Int)) (s : State) : Option State :=
  (forLoop (fun i (p : State × Int) =>
      (chromosomes[i]?).bind fun c =>
      (writeAt p.1.fitness i (computeFit c, i)).bind fun ft =>
      if computeFit c > p.2 then
        some ({ p.1 with fitness := ft, fit_best_ := computeFit c, best_ := i }, computeFit c)
      else some ({ p.1 with fitness := ft }, p.2))
    popSize 0 (s, -1)).map Prod.fst

/-! ## Merging -/

/-- Loop state of the merge: the globals and the pointers `old_p`, `new_p`. -/
structure MergeState where
  s : State
  old_p : Nat
  new_p : Nat
deriving DecidableEq, Repr

/-- The test `new_p > popSize/2 - 1 || fitness_copy[old_p].first >= fitness_off[new_p].first`,
with the short-circuit of the disjunction. -/
def merge_population.takeOld (fitness_copy : List (Int × Nat)) (m : MergeState) : Option Bool :=
  if m.new_p > popSize / 2 - 1 then some true
  else
    (fitness_copy[m.old_p]?).bind fun o =>
    (m.s.fitness_off[m.new_p]?).bind fun n =>
    some (decide (o.1 ≥ n.1))

/-- Body of the merge loop for slot `i`. -/
def merge_population.slot (new_pop chromosomes_copy : List (List Int))
    (fitness_copy : List (Int × Nat)) (i : Nat) (m : MergeState) : Option MergeState :=
  (merge_population.takeOld fitness_copy m).bind fun old =>
  (if old then
      (fitness_copy[m.old_p]?).bind fun o =>
      (chromosomes_copy[o.2]?).bind fun c =>
      (writeAt m.s.chromosomes i c).bind fun cs =>
      (m.s.fitness[i]?).bind fun e =>
      (writeAt m.s.fitness i (o.1, e.2)).bind fun ft =>
      some ({ m with s := { m.s with chromosomes := cs, fitness := ft }, old_p := m.old_p + 1 }
        : MergeState)
    else
      (m.s.fitness_off[m.new_p]?).bind fun n =>
      (new_pop[n.2]?).bind fun c =>
      (writeAt m.s.chromosomes i c).bind fun cs =>
      (m.s.fitness[i]?).bind fun e =>
      (writeAt m.s.fitness i (n.1, e.2)).bind fun ft =>
      some ({ m with s := { m.s with chromosomes := cs, fitness := ft }, new_p := m.new_p + 1 }
        : MergeState)).bind fun m =>
  (if i = 0 then
      (m.s.chromosomes[i]?).bind fun c =>
      (m.s.fitness[i]?).bind fun e =>
      some ({ m with s := { m.s with
                best_ := i, best_ind := c,
                stuck := if m.s.fit_best_ = e.1 then m.s.stuck + 1 else 0,
                fit_best_ := e.1 } } : MergeState)
    else some m).bind fun m =>
  (m.s.fitness[i]?).bind fun e =>
  (writeAt m.s.fitness i (e.1, i)).bind fun ft =>
  some { m with s := { m.s with fitness := ft } }

/-- The sorting part of `merge_population`: `if (gen == 1) sort(fitness, popSize);` and
`sort(fitness_off, popSize/2);`. -/
def merge_population.sortTables {G : Type} (L : Lib G) (s : State) : State :=
  let s := if s.gen = 1 then { s with fitness := sort L s.fitness popSize } else s
  { s with fitness_off := sort L s.fitness_off (popSize / 2) }

/-- The copies `chromosomes_copy`, `fitness_copy` and the merge loop of `merge_population`.
The copy loop copies all `popSize` rows of both tables, so the copies are the tables as they
are when the merge loop starts. -/
def merge_population.fill (new_pop : List (List Int)) (s : State) : Option State :=
  let chromosomes_copy := s.chromosomes
  let fitness_copy := s.fitness
  (forLoop (merge_population.slot new_pop chromosomes_copy fitness_copy) popSize 0
    ⟨s, 0, 0⟩).map MergeState.s

/-- Elitist merge `merge_population(new_pop)`. -/
def merge_population {G : Type} (L : Lib G) (new_pop : List (List Int)) (s : State) :
    Option State :=
  (EvaluatePop2 new_pop s).bind fun s =>
  merge_population.fill new_pop (merge_population.sortTables L s)

/-! ## One generation -/

/-- Loop state of the spawning loop of `reproduce`. -/
structure SpawnState (G : Type) where
  new_pop : List (List Int)
  reproduce_count : Nat
  s : State
  g : G

/-- The crossover point `1 + rand() % (chromosome_length - 2)` drawn in `reproduce`. -/
def reproduce.xover_point (rv : Nat) : Nat := 1 + rv % (chromosome_length - 2)

/-- The step `std::copy(child, new_pop[reproduce_count++]); mutate(new_pop[reproduce_count - 1])`. -/
def reproduce.place {G : Type} (L : Lib G) (fuel : Nat) (child : List Int) (t : SpawnState G) :
    Option (SpawnState G) :=
  (writeAt t.new_pop t.reproduce_count child).bind fun np =>
  let reproduce_count := t.reproduce_count + 1
  (np[reproduce_count - 1]?).bind fun row =>
  (mutate L fuel row t.g).bind fun r =>
  (writeAt np (reproduce_count - 1) r.1).bind fun np =>
  some { t with new_pop := np, reproduce_count := reproduce_count, g := r.2 }

/-- The loop `while (reproduce_count < popSize / 2)` of `reproduce`, with its `break`;
`n` bounds the number of rounds. -/
def reproduce.spawn {G : Type} (L : Lib G) (fuel : Nat) : Nat → SpawnState G → Option (SpawnState G)
  | 0, t => if t.reproduce_count < popSize / 2 then none else some t
  | n + 1, t =>
    if t.reproduce_count < popSize / 2 then
      (rws_select L t.s.fitness popSize t.g).bind fun r1 =>
      let first := r1.1
      (rws_select L t.s.fitness first r1.2).bind fun r2 =>
      let second := r2.1
      let rv := L.rand r2.2
      let s := { t.s with xover_point := reproduce.xover_point rv.1 }
      (s.chromosomes[first]?).bind fun p1 =>
      (s.chromosomes[second]?).bind fun p2 =>
      (crossover s.xover_point p1 p2).bind fun offsprings =>
      (reproduce.place L fuel offsprings.1 { t with s := s, g := rv.2 }).bind fun t =>
      if t.reproduce_count = popSize / 2 then some t
      else
        (reproduce.place L fuel offsprings.2 t).bind fun t =>
        reproduce.spawn L fuel n t
    else some t

/-- The offspring buffer `new_pop` that `reproduce` hands to `merge_population`: the
uninitialised array after the spawning loop. -/
def reproduce.offspring {G : Type} (L : Lib G) (fuel : Nat) (s : State) (g : G) :
    Option (SpawnState G) :=
  reproduce.spawn L fuel (popSize / 2) ⟨L.uninit g, 0, s, g⟩

/-- One generation `reproduce()`. -/
def reproduce {G : Type} (L : Lib G) (fuel : Nat) (s : State) (g : G) : Option (State × G) :=
  (reproduce.offspring L fuel s g).bind fun t =>
  (merge_population L t.new_pop t.s).bind fun s =>
  some ({ s with gen := s.gen + 1 }, t.g)

/-! ## Initialisation and the driver loop of `main` -/

/-- The random fill `chromosomes[i][j] = dist(generator)` of `main`. -/
def main.fill {G : Type} (L : Lib G) (s : State) (g : G) : Option (State × G) :=
  forLoop (fun i (p : State × G) =>
      forLoop (fun j (p : State × G) =>
          (p.1.chromosomes[i]?).bind fun row =>
          (writeAt row j (L.intDist p.2).1).bind fun row =>
          (writeAt p.1.chromosomes i row).bind fun cs =>
          some ({ p.1 with chromosomes := cs }, (L.intDist p.2).2))
        chromosome_length 0 p)
    popSize 0 (s, g)

/-- What `main` does after the fill: `EvaluatePop`, the copy of the best chromosome into
`best_ind`, and `gen++`. -/
def main.evaluate (s : State) : Option State :=
  (EvaluatePop s.chromosomes s).bind fun s =>
  (s.chromosomes[s.best_]?).bind fun c =>
  some { s with best_ind := c, gen := s.gen + 1 }

/-- The state after the initialisation part of `main`, on the initial population `pop`. -/
def initialState (pop : List (List Int)) : Option State :=
  main.evaluate { State.start with chromosomes := pop }

/-- The initialisation part of `main`. -/
def main.init {G : Type} (L : Lib G) (g : G) : Option (State × G) :=
  (main.fill L State.start g).bind fun p =>
  (main.evaluate p.1).map fun s => (s, p.2)

/-- The guard `number_of_conflicts > 0 && stuck < max_stuck` of the driver loop. -/
def main.guard (s : State) : Bool :=
  let number_of_conflicts := 28 - s.fit_best_
  decide (number_of_conflicts > 0 ∧ s.stuck < max_stuck)

/-- One pass of the driver loop of `main`. -/
def main.iter {G : Type} (L : Lib G) (fuel : Nat) (p : State × G) : Option (State × G) :=
  if main.guard p.1 then reproduce L fuel p.1 p.2 else some p

/-- The first `frames` passes of the driver loop of `main`. -/
def main.loop {G : Type} (L : Lib G) (fuel : Nat) : Nat → State × G → Option (State × G)
  | 0, p => some p
  | frames + 1, p => (main.iter L fuel p).bind (main.loop L fuel frames)


/-! ## Specification-side definitions -/

/-- Attack rule in the words of the specification: columns `i` and `j` share a row
(`c[i] = c[j]`) or a diagonal (`|i - j| = |c[i] - c[j]|`). -/
def spec_attack (c : List Int) (i j : Nat) : Prop :=
  c.getD i 0 = c.getD j 0 ∨ |(i : Int) - (j : Int)| = |c.getD i 0 - c.getD j 0|

instance (c : List Int) (i j : Nat) : Decidable (spec_attack c i j) := by
  unfold spec_attack; infer_instance

/-- Number of index pairs `(i, j)` with `0 ≤ i < j ≤ 7` that attack each other, in the
words of the specification. -/
def spec_attackingPairs (c : List Int) : Nat :=
  ((Finset.range 8 ×ˢ Finset.range 8).filter
    (fun p => p.1 < p.2 ∧ spec_attack c p.1 p.2)).card

/-- Number of pairs `i < j ≤ 7` satisfying `P`, enumerated as the loops of `computeFit` do. -/
def pairCount (P : Nat → Nat → Prop) [∀ i j, Decidable (P i j)] : Nat :=
  ((List.range 8).map
    (fun i => (List.range' (i + 1) (7 - i)).countP (fun j => decide (P i j)))).sum

/-- Sum of the scores at the indices `< n` other than `k`, in the words of the
specification ("sum of fitness over all individuals except `excludeIndex`"). -/
def eligibleSum (fitness : List (Int × Nat)) (k n : Nat) : Int :=
  (((List.range n).filter (fun j => j ≠ k)).map (fun j => (fitness.getD j (0, 0)).1)).sum

/-- Number of `reproduce` steps taken during the first `frames` passes of the driver loop. -/
def main.steps {G : Type} (L : Lib G) (fuel : Nat) : Nat → State × G → Nat
  | 0, _ => 0
  | frames + 1, p =>
    (if main.guard p.1 then 1 else 0) +
      match main.iter L fuel p with
      | none => 0
      | some q => main.steps L fuel frames q

/-! ## Well-formed and reachable states -/

/-- Invariant of a run: the shape of the tables, the range of the scores and of the
indices kept with them, and the relation of `fit_best_` to the fitness table. -/
structure State.Inv (s : State) : Prop where
  chromosomes_length : s.chromosomes.length = popSize
  rows : ∀ row ∈ s.chromosomes, row.length = chromosome_length
  fitness_length : s.fitness.length = popSize
  fitness_off_length : s.fitness_off.length = popSize / 2
  scores : ∀ e ∈ s.fitness, (0 ≤ e.1 ∧ e.1 ≤ 28) ∧ e.2 < popSize
  gen_pos : 1 ≤ s.gen
  best_in_table : ∃ e ∈ s.fitness, e.1 = s.fit_best_
  best_at_head : s.gen ≠ 1 → ∃ e, s.fitness[0]? = some e ∧ e.1 = s.fit_best_
  stuck_nonneg : 0 ≤ s.stuck

/-- The states of a run from the initial population `pop`: the state after the
initialisation of `main`, and every state a `reproduce` step yields from such a state,
whatever the generator state `g` (the outcome of the random draws) and the bound `fuel`
on the redraws of a mutation. -/
inductive Reachable {G : Type} (L : Lib G) (pop : List (List Int)) : State → Prop
  | init (s : State) : initialState pop = some s → Reachable L pop s
  | step (fuel : Nat) (s : State) (g : G) (s' : State) (g' : G) :
      Reachable L pop s → reproduce L fuel s g = some (s', g') → Reachable L pop s'

/-! ## A concrete library -/

/-- Insertion into a list in descending score order. -/
def insertDesc (a : Int × Nat) : List (Int × Nat) → List (Int × Nat)
  | [] => [a]
  | b :: l => if b.1 ≤ a.1 then a :: b :: l else b :: insertDesc a l

/-- Insertion sort in descending score order. -/
def insertionSort : List (Int × Nat) → List (Int × Nat)
  | [] => []
  | a :: l => insertDesc a (insertionSort l)

/-- A library instance whose generator state is a counter `g`: the real draw is
`(g mod 10) / 10`, the integer draw `g mod 8`, `rand()` returns `g`, and uninitialised
storage holds the value `-1 - g`. -/
def counterLib : Lib Nat where
  floatDist g := (⟨(g % 10 : Nat), 10⟩, g + 1)
  intDist g := (((g % 8 : Nat) : Int), g + 1)
  rand g := (g, g + 1)
  std_sort := insertionSort
  uninit g := List.replicate (popSize / 2) (List.replicate chromosome_length (-1 - (g : Int)))

/-! ## Worked example -/

/-- An initial population: chromosome `i` has all its queens in row `i mod 8`. -/
def examplePop : List (List Int) :=
  (List.range 50).map (fun i => List.replicate 8 ((i % 8 : Nat) : Int))

/-- The state after the initialisation of `main` on `examplePop`: every score is 0. -/
def exampleStart : State where
  best_ := 0
  gen := 1
  stuck := 0
  fit_best_ := 0
  xover_point := 0
  best_ind := List.replicate 8 0
  chromosomes := examplePop
  fitness := (List.range 50).map (fun i => (0, i))
  fitness_off := List.replicate 25 (0, 0)

/-- The state, and the generator state, after one generation from `exampleStart` with the
library `counterLib`, generator state `0` and at most 8 redraws a mutation. -/
def exampleNext : State × Nat := (reproduce counterLib 8 exampleStart 0).getD (State.start, 0)

/-! ## Further definitions: the closed unit interval and a library drawing `1` -/

/-- A value of the closed unit interval `[0, 1]`. -/
def Frac.InClosedUnit (a : Frac) : Prop := 0 ≤ a.num ∧ a.num ≤ (a.den : Int) ∧ 0 < a.den

instance (a : Frac) : Decidable a.InClosedUnit := by
  unfold Frac.InClosedUnit; infer_instance

/-- The library `counterLib` with the real draw replaced by the constant `1`, the upper end
of the closed unit interval. -/
def oneLib : Lib Nat :=
  { counterLib with floatDist := fun g => (⟨1, 1⟩, g + 1) }

/-! ## Specification-side description of the spawning loop -/

/-- One round in the words of the specification: select two parents, pick a crossover
point, crossover, append the mutated first child and, when `both` is true, the mutated
second child after it. -/
def spec_round {G : Type} (L : Lib G) (fuel : Nat) (both : Bool) (t : SpawnState G) :
    Option (SpawnState G) :=
  (rws_select L t.s.fitness popSize t.g).bind fun r1 =>
  (rws_select L t.s.fitness r1.1 r1.2).bind fun r2 =>
  let rv := L.rand r2.2
  let s := { t.s with xover_point := reproduce.xover_point rv.1 }
  (s.chromosomes[r1.1]?).bind fun p1 =>
  (s.chromosomes[r2.1]?).bind fun p2 =>
  (crossover s.xover_point p1 p2).bind fun offsprings =>
  (reproduce.place L fuel offsprings.1 { t with s := s, g := rv.2 }).bind fun t =>
  if both then reproduce.place L fuel offsprings.2 t else some t

/-- The first `n` rounds, each contributing both children. -/
def spec_rounds {G : Type} (L : Lib G) (fuel : Nat) : Nat → SpawnState G → Option (SpawnState G)
  | 0, t => some t
  | n + 1, t => (spec_round L fuel true t).bind (spec_rounds L fuel n)

/-- The offspring buffer in the words of the specification: 12 rounds contributing both
children, then a 13th round contributing only its first child. -/
def spec_offspring {G : Type} (L : Lib G) (fuel : Nat) (s : State) (g : G) :
    Option (SpawnState G) :=
  (spec_rounds L fuel 12 ⟨L.uninit g, 0, s, g⟩).bind (spec_round L fuel false)

/-! ## Specification-side description of the merge -/

/-- The elitist interleave in the words of the specification: repeatedly take from
whichever of the two heads has the higher score, ties favouring the old individual
(`old ≥ offspring`). -/
def spec_interleave (old off : List Int) : List Int :=
  List.merge old off (fun a b => decide (b ≤ a))

/-- The scores of the next generation in the words of the specification: the first
`popSize` scores of the interleave of the old scores and the offspring scores. -/
def spec_nextScores (old off : List Int) : List Int :=
  (spec_interleave old off).take popSize

/-- The merge with the old table re-sorted on every call, whatever `gen` is. -/
def spec_merge_resorting {G : Type} (L : Lib G) (new_pop : List (List Int)) (s : State) :
    Option State :=
  (EvaluatePop2 new_pop s).bind fun s =>
  merge_population.fill new_pop
    { s with fitness := sort L s.fitness popSize,
             fitness_off := sort L s.fitness_off (popSize / 2) }

/-- The state of the merge loop on entry to slot `i`. -/
def merge_population.atSlot (new_pop : List (List Int)) (s : State) (i : Nat) :
    Option MergeState :=
  forLoop (merge_population.slot new_pop s.chromosomes s.fitness) i 0 ⟨s, 0, 0⟩

/-- Coherence of the tables: row `i` of the fitness table holds the score of chromosome `i`
and the index `i`; once `gen ≠ 1` the table is in non-increasing score order. -/
structure State.Coherent (s : State) : Prop where
  entries : ∀ i : Nat, i < popSize →
    ∃ ch, s.chromosomes[i]? = some ch ∧ s.fitness[i]? = some (computeFit ch, i)
  sorted : s.gen ≠ 1 → s.fitness.Pairwise (fun a b => b.1 ≤ a.1)


/-! ## Storage held during a step -/

/-- Number of chromosome rows held while the loop of `reproduce` runs: the global
`chromosomes[popSize]`, the local buffer `new_pop[popSize/2]` and the two rows of the local
`offsprings`. -/
def reproduce.rowsHeld {G : Type} (t : SpawnState G) : Nat :=
  t.s.chromosomes.length + t.new_pop.length + 2

/-- Number of chromosome rows held while the merge loop of `merge_population` runs: the
global `chromosomes[popSize]`, the buffer `new_pop[popSize/2]` of the caller and the local
scratch copy `chromosomes_copy[popSize]`. -/
def merge_population.rowsHeld (new_pop chromosomes_copy : List (List Int)) (m : MergeState) :
    Nat :=
  m.s.chromosomes.length + new_pop.length + chromosomes_copy.length

/-! ## A library whose sort reorders equal scores -/

/-- Insertion into a list in descending score order, after the entries of equal score. -/
def insertAfterTies (a : Int × Nat) : List (Int × Nat) → List (Int × Nat)
  | [] => [a]
  | b :: l => if b.1 < a.1 then a :: b :: l else b :: insertAfterTies a l

/-- Insertion sort in descending score order that reverses the order of equal scores: like
`std::sort`, it keeps no promise on the order of entries that compare equal. -/
def tieReversingSort : List (Int × Nat) → List (Int × Nat)
  | [] => []
  | a :: l => insertAfterTies a (tieReversingSort l)

/-- The library `counterLib` with the sort replaced by `tieReversingSort`. -/
def tieLib : Lib Nat :=
  { counterLib with std_sort := tieReversingSort }


/-! ## A worked example with the tie-reordering sort -/

/-- The state after one generation from `exampleStart` with the library `tieLib`, generator
state `0` and at most 8 redraws a mutation; the generator state is then `252`. -/
def tieFirst : State where
  best_ := 0
  gen := 2
  stuck := 0
  fit_best_ := 17
  xover_point := 3
  best_ind := [0, 0, 0, 1, 1, 1, 1, 3]
  chromosomes := [[0, 0, 0, 1, 1, 1, 1, 3], [0, 0, 0, 1, 1, 1, 1, 7], [0, 0, 0, 1, 1, 1, 1, 3],
    [0, 0, 0, 1, 1, 1, 1, 7], [0, 0, 0, 1, 1, 1, 1, 3], [0, 0, 0, 0, 0, 1, 1, 7],
    [0, 0, 0, 0, 0, 1, 1, 7], [1, 1, 1, 1, 1, 0, 0, 0], [0, 0, 0, 0, 0, 1, 1, 3],
    [1, 1, 1, 0, 0, 0, 0, 0], [1, 1, 1, 1, 1, 0, 0, 0], [1, 1, 1, 0, 0, 0, 0, 0],
    [1, 1, 1, 1, 1, 0, 0, 0], [0, 0, 0, 0, 0, 1, 1, 3], [1, 1, 1, 0, 0, 0, 0, 0],
    [1, 1, 1, 1, 1, 0, 0, 0], [1, 1, 1, 0, 0, 0, 0, 0], [0, 1, 1, 1, 1, 1, 1, 3],
    [0, 1, 1, 1, 1, 1, 1, 3], [0, 1, 1, 1, 1, 1, 1, 7], [0, 1, 1, 1, 1, 1, 1, 7],
    [1, 0, 0, 0, 0, 0, 0, 0], [1, 0, 0, 0, 0, 0, 0, 0], [1, 0, 0, 0, 0, 0, 0, 0],
    [1, 0, 0, 0, 0, 0, 0, 0], [1, 1, 1, 1, 1, 1, 1, 1], [0, 0, 0, 0, 0, 0, 0, 0],
    [7, 7, 7, 7, 7, 7, 7, 7], [6, 6, 6, 6, 6, 6, 6, 6], [5, 5, 5, 5, 5, 5, 5, 5],
    [4, 4, 4, 4, 4, 4, 4, 4], [3, 3, 3, 3, 3, 3, 3, 3], [2, 2, 2, 2, 2, 2, 2, 2],
    [1, 1, 1, 1, 1, 1, 1, 1], [0, 0, 0, 0, 0, 0, 0, 0], [7, 7, 7, 7, 7, 7, 7, 7],
    [6, 6, 6, 6, 6, 6, 6, 6], [5, 5, 5, 5, 5, 5, 5, 5], [4, 4, 4, 4, 4, 4, 4, 4],
    [3, 3, 3, 3, 3, 3, 3, 3], [2, 2, 2, 2, 2, 2, 2, 2], [1, 1, 1, 1, 1, 1, 1, 1],
    [0, 0, 0, 0, 0, 0, 0, 0], [7, 7, 7, 7, 7, 7, 7, 7], [6, 6, 6, 6, 6, 6, 6, 6],
    [5, 5, 5, 5, 5, 5, 5, 5], [4, 4, 4, 4, 4, 4, 4, 4], [3, 3, 3, 3, 3, 3, 3, 3],
    [2, 2, 2, 2, 2, 2, 2, 2], [1, 1, 1, 1, 1, 1, 1, 1]]
  fitness := [(17, 0), (17, 1), (17, 2), (17, 3), (17, 4), (15, 5), (15, 6), (14, 7), (14, 8),
    (14, 9), (14, 10), (14, 11), (14, 12), (14, 13), (14, 14), (14, 15), (14, 16), (11, 17),
    (11, 18), (10, 19), (10, 20), (6, 21), (6, 22), (6, 23), (6, 24), (0, 25), (0, 26), (0, 27),
    (0, 28), (0, 29), (0, 30), (0, 31), (0, 32), (0, 33), (0, 34), (0, 35), (0, 36), (0, 37),
    (0, 38), (0, 39), (0, 40), (0, 41), (0, 42), (0, 43), (0, 44), (0, 45), (0, 46), (0, 47),
    (0, 48), (0, 49)]
  fitness_off := [(17, 24), (17, 18), (17, 12), (17, 6), (17, 0), (15, 14), (15, 2), (14, 21),
    (14, 20), (14, 19), (14, 15), (14, 13), (14, 9), (14, 8), (14, 7), (14, 3), (14, 1), (11, 16),
    (11, 4), (10, 22), (10, 10), (6, 23), (6, 17), (6, 11), (6, 5)]

/-- The state after a second generation, from `tieFirst` and the generator state `252`; the
generator state is then `510`. -/
def tieSecond : State where
  best_ := 0
  gen := 3
  stuck := 0
  fit_best_ := 20
  xover_point := 4
  best_ind := [3, 0, 0, 1, 1, 1, 1, 7]
  chromosomes := [[3, 0, 0, 1, 1, 1, 1, 7], [3, 0, 0, 1, 1, 1, 1, 7], [1, 1, 1, 1, 7, 0, 0, 0],
    [0, 0, 0, 1, 1, 1, 7, 7], [7, 0, 0, 1, 1, 1, 1, 7], [7, 0, 0, 1, 1, 1, 1, 7],
    [1, 1, 1, 5, 1, 0, 0, 0], [0, 0, 0, 1, 1, 1, 1, 3], [0, 0, 0, 1, 1, 1, 1, 7],
    [0, 0, 0, 1, 1, 1, 1, 3], [0, 0, 0, 1, 1, 1, 1, 7], [0, 0, 0, 1, 1, 1, 1, 3],
    [0, 0, 0, 0, 1, 1, 1, 3], [3, 0, 1, 1, 1, 1, 1, 7], [0, 7, 1, 1, 0, 0, 0, 0],
    [1, 1, 2, 1, 1, 0, 0, 0], [0, 0, 0, 0, 0, 3, 1, 7], [0, 0, 0, 0, 0, 1, 1, 7],
    [0, 0, 0, 0, 0, 1, 1, 7], [7, 0, 1, 1, 1, 1, 1, 7], [1, 1, 3, 1, 1, 0, 0, 0],
    [0, 0, 0, 0, 0, 5, 1, 7], [1, 1, 1, 1, 1, 0, 0, 0], [0, 0, 0, 0, 0, 1, 1, 3],
    [1, 1, 1, 0, 0, 0, 0, 0], [1, 1, 1, 1, 1, 0, 0, 0], [1, 1, 1, 0, 0, 0, 0, 0],
    [1, 1, 1, 1, 1, 0, 0, 0], [0, 0, 0, 0, 0, 1, 1, 3], [1, 1, 1, 0, 0, 0, 0, 0],
    [1, 1, 1, 1, 1, 0, 0, 0], [1, 1, 1, 0, 0, 0, 0, 0], [5, 1, 1, 0, 1, 1, 1, 3],
    [0, 1, 0, 1, 1, 1, 1, 3], [0, 1, 0, 1, 1, 1, 1, 3], [0, 1, 1, 1, 1, 1, 1, 3],
    [0, 1, 1, 1, 1, 1, 1, 3], [0, 1, 1, 1, 1, 1, 1, 3], [0, 1, 1, 1, 1, 1, 1, 3],
    [0, 1, 1, 1, 1, 1, 1, 3], [0, 1, 1, 1, 1, 1, 1, 3], [0, 1, 1, 1, 1, 1, 1, 3],
    [2, 1, 1, 1, 1, 1, 1, 7], [0, 1, 1, 1, 1, 1, 1, 7], [0, 1, 1, 1, 1, 1, 1, 7],
    [3, 1, 1, 1, 1, 1, 1, 3], [1, 0, 0, 0, 0, 0, 0, 0], [1, 0, 0, 0, 0, 0, 0, 0],
    [1, 0, 0, 0, 0, 0, 0, 0], [1, 0, 0, 0, 0, 0, 0, 0]]
  fitness := [(20, 0), (20, 1), (19, 2), (19, 3), (18, 4), (18, 5), (18, 6), (17, 7), (17, 8),
    (17, 9), (17, 10), (17, 11), (17, 12), (16, 13), (16, 14), (16, 15), (16, 16), (15, 17),
    (15, 18), (15, 19), (15, 20), (15, 21), (14, 22), (14, 23), (14, 24), (14, 25), (14, 26),
    (14, 27), (14, 28), (14, 29), (14, 30), (14, 31), (14, 32), (13, 33), (13, 34), (11, 35),
    (11, 36), (11, 37), (11, 38), (11, 39), (11, 40), (11, 41), (11, 42), (10, 43), (10, 44),
    (10, 45), (6, 46), (6, 47), (6, 48), (6, 49)]
  fitness_off := [(20, 19), (20, 15), (19, 5), (19, 1), (18, 21), (18, 13), (18, 4), (17, 2),
    (16, 23), (16, 9), (16, 6), (16, 3), (15, 17), (15, 7), (15, 0), (14, 8), (13, 22), (13, 16),
    (11, 24), (11, 20), (11, 18), (11, 14), (11, 12), (11, 10), (10, 11)]

/-- The offspring buffer of the third generation, spawned from `tieSecond` and the generator
state `510`. -/
def tieBuffer : List (List Int) :=
  [[3, 0, 0, 1, 1, 1, 1, 1], [7, 0, 0, 1, 1, 1, 1, 7], [3, 0, 0, 1, 1, 1, 1, 5],
    [7, 0, 0, 1, 1, 1, 1, 7], [3, 0, 0, 1, 1, 1, 1, 1], [7, 0, 0, 1, 1, 1, 1, 7],
    [3, 0, 0, 1, 1, 1, 1, 5], [7, 0, 0, 1, 1, 1, 1, 7], [3, 0, 0, 1, 1, 1, 1, 1],
    [7, 0, 0, 1, 1, 1, 1, 7], [3, 0, 0, 1, 1, 1, 1, 5], [7, 0, 0, 1, 1, 1, 1, 7],
    [3, 0, 0, 1, 1, 1, 1, 1], [7, 0, 0, 1, 1, 1, 1, 7], [3, 0, 0, 1, 1, 1, 1, 5],
    [7, 0, 0, 1, 1, 1, 1, 7], [3, 0, 0, 1, 1, 1, 1, 1], [7, 0, 0, 1, 1, 1, 1, 7],
    [3, 0, 0, 1, 1, 1, 1, 5], [7, 0, 0, 1, 1, 1, 1, 7], [3, 0, 0, 1, 1, 1, 1, 1],
    [7, 0, 0, 1, 1, 1, 1, 7], [3, 0, 0, 1, 1, 1, 1, 5], [7, 0, 0, 1, 1, 1, 1, 7],
    [3, 0, 0, 1, 1, 1, 1, 1]]

/-- The spawning loop of the third generation when it hands over to `merge_population`. -/
def tieSpawn : SpawnState Nat :=
  ⟨tieBuffer, 25, { tieSecond with xover_point := 3 }, 762⟩

/-! ## Inputs at which the 32-bit arithmetic shows -/

/-- A chromosome of 8 `int` values whose first two genes are the least and the greatest
`int`: in column 1 the sum `1 + placements[1]` leaves the range of `int`. -/
def overflowBoard : List Int := [-2147483648, 2147483647, 10, 20, 40, 80, 160, 320]

theorem foldl_cond_succ (p : Nat → Prop) [DecidablePred p] (l : List Nat) (a : Int) :
    l.foldl (fun acc j => if p j then acc + 1 else acc) a
      = a + (l.countP (fun j => decide (p j)) : Nat) := by
  induction l generalizing a with
  | nil => simp
  | cons x xs ih =>
    simp only [List.foldl_cons, ih, List.countP_cons]
    by_cases h : p x <;> simp [h]
    ring

theorem foldl_add_count (f : Nat → Nat) (l : List Nat) (a : Int) :
    l.foldl (fun (acc : Int) i => acc + (f i : Nat)) a = a + ((l.map f).sum : Nat) := by
  induction l generalizing a with
  | nil => simp
  | cons x xs ih =>
    simp only [List.foldl_cons, ih, List.map_cons, List.sum_cons]
    push_cast; ring

theorem computeFit_eq_pairCount (c : List Int) :
    computeFit c = 28 - (pairCount (fun i j =>
      c.getD i 0 = c.getD j 0 ∨ same_diagonal c i j = true) : Nat) := by
  unfold computeFit pairCount
  simp only [foldl_cond_succ]
  rw [foldl_add_count]
  simp


theorem pairCount_eq_card (P : Nat → Nat → Prop) [∀ i j, Decidable (P i j)] :
    pairCount P
      = ((Finset.range 8 ×ˢ Finset.range 8).filter (fun p => p.1 < p.2 ∧ P p.1 p.2)).card := by
  rw [Finset.card_filter, Finset.sum_product]
  simp only [pairCount]
  simp only [Finset.sum_range_succ, Finset.sum_range_zero, List.range_succ, List.range_zero,
    List.range', List.countP_cons, List.countP_nil, List.map_cons, List.map_nil, List.sum_cons,
    List.sum_nil, List.nil_append, List.cons_append, List.map_append, List.sum_append]
  simp
  ring

theorem pairCount_le (P : Nat → Nat → Prop) [∀ i j, Decidable (P i j)] : pairCount P ≤ 28 := by
  rw [pairCount_eq_card]
  calc _ ≤ ((Finset.range 8 ×ˢ Finset.range 8).filter (fun p => p.1 < p.2)).card := by
        apply Finset.card_le_card
        intro p hp
        simp only [Finset.mem_filter] at hp ⊢
        exact ⟨hp.1, hp.2.1⟩
    _ = 28 := by decide

theorem computeFit_bounds (c : List Int) : 0 ≤ computeFit c ∧ computeFit c ≤ 28 := by
  have h := pairCount_le (fun i j => c.getD i 0 = c.getD j 0 ∨ same_diagonal c i j = true)
  rw [computeFit_eq_pairCount]
  omega

/-- A result inside the range of `int` is held as it is. -/
theorem wrapInt32_eq (x : Int) (h1 : -2147483648 ≤ x) (h2 : x < 2147483648) :
    wrapInt32 x = x := by
  unfold wrapInt32
  omega

theorem getD_bounds (ch : List Int) (lo hi : Int) (hlo : lo ≤ 0) (hhi : 0 ≤ hi)
    (hb : ∀ x ∈ ch, lo ≤ x ∧ x ≤ hi) (i : Nat) : lo ≤ ch.getD i 0 ∧ ch.getD i 0 ≤ hi := by
  rw [List.getD_eq_getElem?_getD]
  cases h : ch[i]? with
  | none => exact ⟨hlo, hhi⟩
  | some x => exact hb x (List.getElem?_mem h)

/-- Where none of the four results leaves the range of `int`, `same_diagonal` compares the
exact differences and sums. -/
theorem same_diagonal_exact (c : List Int)
    (hb : ∀ x ∈ c, -2147483640 ≤ x ∧ x ≤ 2147483640) (i j : Nat) (hi : i < 8) (hj : j < 8) :
    same_diagonal c i j = true ↔
      ((i : Int) - c.getD i 0 = (j : Int) - c.getD j 0 ∨
        (i : Int) + c.getD i 0 = (j : Int) + c.getD j 0) := by
  obtain ⟨a1, a2⟩ := getD_bounds c _ _ (by norm_num) (by norm_num) hb i
  obtain ⟨b1, b2⟩ := getD_bounds c _ _ (by norm_num) (by norm_num) hb j
  unfold same_diagonal
  simp only [ite_eq_left_iff, Bool.false_eq_true, imp_false, not_not]
  rw [wrapInt32_eq _ (by omega) (by omega), wrapInt32_eq _ (by omega) (by omega),
    wrapInt32_eq _ (by omega) (by omega), wrapInt32_eq _ (by omega) (by omega)]

theorem same_diagonal_iff (c : List Int)
    (hb : ∀ x ∈ c, -2147483640 ≤ x ∧ x ≤ 2147483640) (i j : Nat) (hi : i < 8) (hj : j < 8) :
    same_diagonal c i j = true ↔ |(i : Int) - (j : Int)| = |c.getD i 0 - c.getD j 0| := by
  rw [same_diagonal_exact c hb i j hi hj, abs_eq_abs]
  constructor <;> intro h <;> omega

theorem code_attack_iff (c : List Int)
    (hb : ∀ x ∈ c, -2147483640 ≤ x ∧ x ≤ 2147483640) (i j : Nat) (hi : i < 8) (hj : j < 8) :
    (c.getD i 0 = c.getD j 0 ∨ same_diagonal c i j = true) ↔ spec_attack c i j := by
  rw [same_diagonal_iff c hb i j hi hj]; rfl

theorem spec_attack_symm (c : List Int) (i j : Nat) (h : spec_attack c i j) :
    spec_attack c j i := by
  unfold spec_attack at *
  rcases h with h | h
  · exact Or.inl h.symm
  · right
    rw [abs_sub_comm, h, abs_sub_comm]

theorem computeFit_eq_spec (c : List Int)
    (hb : ∀ x ∈ c, -2147483640 ≤ x ∧ x ≤ 2147483640) :
    computeFit c = 28 - (spec_attackingPairs c : Int) := by
  rw [computeFit_eq_pairCount, pairCount_eq_card]
  unfold spec_attackingPairs
  congr 3
  apply Finset.filter_congr
  intro p hp
  simp only [Finset.mem_product, Finset.mem_range] at hp
  rw [code_attack_iff c hb p.1 p.2 hp.1 hp.2]

theorem spec_attackingPairs_eq_zero (c : List Int) :
    spec_attackingPairs c = 0 ↔ ∀ i j, i < 8 → j < 8 → i ≠ j → ¬ spec_attack c i j := by
  unfold spec_attackingPairs
  rw [Finset.card_eq_zero, Finset.filter_eq_empty_iff]
  constructor
  · intro h i j hi hj hij hatt
    rcases Nat.lt_or_gt_of_ne hij with hlt | hgt
    · exact h (x := (i, j)) (by simp [hi, hj]) ⟨hlt, hatt⟩
    · exact h (x := (j, i)) (by simp [hi, hj]) ⟨hgt, spec_attack_symm c i j hatt⟩
  · intro h p hp hpa
    simp only [Finset.mem_product, Finset.mem_range] at hp
    exact h p.1 p.2 hp.1 hp.2 (Nat.ne_of_lt hpa.1) hpa.2

/-- Claim C1 fails as stated: `overflowBoard` is a chromosome of 8 `int` values in which no
two distinct columns share a row or a diagonal, yet `computeFit` returns 27, because
`1 + placements[1]` leaves the range of `int` and comes back as `0 + placements[0]`. -/
theorem computeFit_overflow :
    overflowBoard.length = 8 ∧
    (∀ x ∈ overflowBoard, -2147483648 ≤ x ∧ x ≤ 2147483647) ∧
    computeFit overflowBoard = 27 ∧
    (∀ i j, i < 8 → j < 8 → i ≠ j →
      ¬ (overflowBoard.getD i 0 = overflowBoard.getD j 0 ∨
        |(i : Int) - (j : Int)| = |overflowBoard.getD i 0 - overflowBoard.getD j 0|)) ∧
    same_diagonal overflowBoard 0 1 = true := by
  refine ⟨by decide, by decide, by decide, ?_, by decide⟩
  have h := (spec_attackingPairs_eq_zero overflowBoard).mp (by decide)
  unfold spec_attack at h
  exact h

/-- Claim C1, as amended. For every chromosome `c` of 8 integers, `computeFit c` lies in
`[0, 28]`; and when every gene lies in `[-2147483640, 2147483640]` (so that neither
`i - c[i]` nor `i + c[i]` leaves the range of a 32-bit `int`), it is 28 exactly when no two
distinct columns `i ≠ j` share a row (`c[i] = c[j]`) or a diagonal
(`|i - j| = |c[i] - c[j]|`); in particular `computeFit [0,4,7,5,2,6,1,3] = 28`. -/
theorem computeFit_range_and_optimum (c : List Int) (_hc : c.length = 8) :
    (0 ≤ computeFit c ∧ computeFit c ≤ 28) ∧
    ((∀ x ∈ c, -2147483640 ≤ x ∧ x ≤ 2147483640) →
      (computeFit c = 28 ↔
        ∀ i j, i < 8 → j < 8 → i ≠ j →
          ¬ (c.getD i 0 = c.getD j 0 ∨
            |(i : Int) - (j : Int)| = |c.getD i 0 - c.getD j 0|))) ∧
    computeFit [0, 4, 7, 5, 2, 6, 1, 3] = 28 := by
  refine ⟨computeFit_bounds c, fun hb => ?_, by decide⟩
  have h := spec_attackingPairs_eq_zero c
  unfold spec_attack at h
  rw [← h, computeFit_eq_spec c hb]
  omega

theorem computeFit_range_and_optimum_witness :
    ([0, 4, 7, 5, 2, 6, 1, 4] : List Int).length = 8 ∧
    (0 ≤ computeFit [0, 4, 7, 5, 2, 6, 1, 4] ∧ computeFit [0, 4, 7, 5, 2, 6, 1, 4] ≤ 28) ∧
    computeFit [0, 4, 7, 5, 2, 6, 1, 4] = 26 ∧
    (computeFit [0, 4, 7, 5, 2, 6, 1, 4] = 28 ↔
      ∀ i j, i < 8 → j < 8 → i ≠ j →
        ¬ (([0, 4, 7, 5, 2, 6, 1, 4] : List Int).getD i 0
            = ([0, 4, 7, 5, 2, 6, 1, 4] : List Int).getD j 0 ∨
          |(i : Int) - (j : Int)| = |([0, 4, 7, 5, 2, 6, 1, 4] : List Int).getD i 0
            - ([0, 4, 7, 5, 2, 6, 1, 4] : List Int).getD j 0|)) :=
  ⟨by decide, (computeFit_range_and_optimum [0, 4, 7, 5, 2, 6, 1, 4] (by decide)).1, by decide,
    (computeFit_range_and_optimum [0, 4, 7, 5, 2, 6, 1, 4] (by decide)).2.1 (by decide)⟩

/-- Claim C2. For every chromosome `c` of 8 integers with genes in `[0, 7]`, `computeFit c` is 28
minus the number of index pairs `(i, j)`, `0 ≤ i < j ≤ 7`, with `c[i] = c[j]` or
`|i - j| = |c[i] - c[j]|`; and the test of `same_diagonal` (`i - c[i] = j - c[j]` or
`i + c[i] = j + c[j]`) coincides with the absolute-difference diagonal rule. -/
theorem computeFit_refines_spec (c : List Int) (_hc : c.length = 8)
    (_hg : ∀ x ∈ c, 0 ≤ x ∧ x ≤ 7) :
    computeFit c = 28 - (spec_attackingPairs c : Int) ∧
    ∀ i j, i < 8 → j < 8 →
      (same_diagonal c i j = true ↔
        ((i : Int) - c.getD i 0 = (j : Int) - c.getD j 0 ∨
          (i : Int) + c.getD i 0 = (j : Int) + c.getD j 0)) ∧
      (same_diagonal c i j = true ↔ |(i : Int) - (j : Int)| = |c.getD i 0 - c.getD j 0|) := by
  have hb : ∀ x ∈ c, -2147483640 ≤ x ∧ x ≤ 2147483640 := by
    intro x hx
    have := _hg x hx
    omega
  exact ⟨computeFit_eq_spec c hb, fun i j hi hj =>
    ⟨same_diagonal_exact c hb i j hi hj, same_diagonal_iff c hb i j hi hj⟩⟩

theorem computeFit_refines_spec_witness :
    (([0, 4, 7, 5, 2, 6, 1, 4] : List Int).length = 8 ∧
      ∀ x ∈ ([0, 4, 7, 5, 2, 6, 1, 4] : List Int), 0 ≤ x ∧ x ≤ 7) ∧
    computeFit [0, 4, 7, 5, 2, 6, 1, 4]
      = 28 - (spec_attackingPairs [0, 4, 7, 5, 2, 6, 1, 4] : Int) ∧
    spec_attackingPairs [0, 4, 7, 5, 2, 6, 1, 4] = 2 :=
  ⟨by decide, (computeFit_refines_spec [0, 4, 7, 5, 2, 6, 1, 4] (by decide) (by decide)).1,
    by decide⟩

/-! ## Arrays and loops: proofs -/

theorem writeAt_eq_some {α : Type} {xs ys : List α} {i : Nat} {v : α} :
    writeAt xs i v = some ys ↔ i < xs.length ∧ ys = xs.set i v := by
  unfold writeAt
  split <;> simp_all [eq_comm]

theorem forLoop_succ {σ : Type} (body : Nat → σ → Option σ) (n i : Nat) (s : σ) :
    forLoop body (n + 1) i s = (body i s).bind (forLoop body n (i + 1)) := rfl

theorem forLoop_add {σ : Type} (body : Nat → σ → Option σ) (a b i : Nat) (s : σ) :
    forLoop body (a + b) i s = (forLoop body a i s).bind (forLoop body b (i + a)) := by
  induction a generalizing i s with
  | zero => simp [forLoop]
  | succ a ih =>
    rw [Nat.add_right_comm, forLoop_succ, forLoop_succ]
    cases h : body i s with
    | none => simp
    | some t =>
      simp only [Option.some_bind, ih]
      congr 2
      funext x
      congr 1
      omega

/-- Invariant rule for `forLoop`: an invariant that every successful pass of the body
preserves holds of the result. -/
theorem forLoop_inv {σ : Type} (body : Nat → σ → Option σ) (Inv : Nat → σ → Prop)
    (n i : Nat) (s s' : σ) (h0 : Inv i s)
    (hstep : ∀ k t t', i ≤ k → k < i + n → Inv k t → body k t = some t' → Inv (k + 1) t')
    (h : forLoop body n i s = some s') : Inv (i + n) s' := by
  induction n generalizing i s with
  | zero =>
    simp only [forLoop, Option.some.injEq] at h
    subst h; exact h0
  | succ n ih =>
    rw [forLoop_succ] at h
    cases hb : body i s with
    | none => simp [hb] at h
    | some t =>
      simp only [hb, Option.some_bind] at h
      have := ih (i + 1) t (hstep i s t (le_refl _) (by omega) h0 hb)
        (fun k u u' hk hk' => hstep k u u' (by omega) (by omega)) h
      rwa [Nat.add_assoc, Nat.add_comm 1 n] at this

/-- Totality rule for `forLoop`: when the body succeeds on every state satisfying the
invariant, the loop has a result, and the invariant holds of it. -/
theorem forLoop_total {σ : Type} (body : Nat → σ → Option σ) (Inv : Nat → σ → Prop)
    (n i : Nat) (s : σ) (h0 : Inv i s)
    (hstep : ∀ k t, i ≤ k → k < i + n → Inv k t → ∃ t', body k t = some t' ∧ Inv (k + 1) t') :
    ∃ s', forLoop body n i s = some s' ∧ Inv (i + n) s' := by
  induction n generalizing i s with
  | zero => exact ⟨s, rfl, h0⟩
  | succ n ih =>
    obtain ⟨t, hb, ht⟩ := hstep i s (le_refl _) (by omega) h0
    obtain ⟨s', hs', hI⟩ := ih (i + 1) t ht (fun k u hk hk' => hstep k u (by omega) (by omega))
    refine ⟨s', ?_, ?_⟩
    · rw [forLoop_succ, hb]; exact hs'
    · rwa [Nat.add_assoc, Nat.add_comm 1 n] at hI


/-! ## Crossover: proofs -/

theorem length_eq_eight {l : List Int} (h : l.length = 8) :
    ∃ a b c d e f g k, l = [a, b, c, d, e, f, g, k] := by
  match l, h with
  | [a, b, c, d, e, f, g, k], _ => exact ⟨a, b, c, d, e, f, g, k, rfl⟩

theorem crossover_eq (xover_point : Nat) (p1 p2 : List Int) (h1 : p1.length = 8)
    (h2 : p2.length = 8) (hx : xover_point ≤ 8) :
    crossover xover_point p1 p2
      = some (p1.take xover_point ++ p2.drop xover_point,
              p2.take xover_point ++ p1.drop xover_point) := by
  obtain ⟨a1, a2, a3, a4, a5, a6, a7, a8, rfl⟩ := length_eq_eight h1
  obtain ⟨b1, b2, b3, b4, b5, b6, b7, b8, rfl⟩ := length_eq_eight h2
  interval_cases xover_point <;> rfl


/-! ## Values of type `float`: proofs -/

theorem Frac.lt_iff_toRat (a b : Frac) (ha : 0 < a.den) (hb : 0 < b.den) :
    a.lt b = true ↔ a.toRat < b.toRat := by
  unfold Frac.lt Frac.toRat
  have ha' : (0 : ℚ) < (a.den : ℚ) := by exact_mod_cast ha
  have hb' : (0 : ℚ) < (b.den : ℚ) := by exact_mod_cast hb
  rw [decide_eq_true_iff, div_lt_div_iff₀ ha' hb']
  constructor
  · intro h; exact_mod_cast h
  · intro h; exact_mod_cast h

theorem Frac.InUnit.den_pos {a : Frac} (h : a.InUnit) : 0 < a.den := by
  unfold Frac.InUnit at h; omega

theorem Frac.InUnit.toRat_nonneg {a : Frac} (h : a.InUnit) : 0 ≤ a.toRat := by
  unfold Frac.toRat
  have : (0 : ℚ) ≤ (a.num : ℚ) := by exact_mod_cast h.1
  positivity

theorem Frac.InUnit.toRat_lt_one {a : Frac} (h : a.InUnit) : a.toRat < 1 := by
  unfold Frac.toRat
  have hd : (0 : ℚ) < (a.den : ℚ) := by exact_mod_cast h.den_pos
  rw [div_lt_one hd]
  exact_mod_cast h.2

theorem mu_rate_toRat : mu_rate.toRat = 1 / 5 := by
  simp [mu_rate, Frac.toRat]

namespace Binary32

theorem log2_spec (fuel n : Nat) (hn : n ≠ 0) (hf : n < 2 ^ fuel) :
    2 ^ log2 fuel n ≤ n ∧ n < 2 ^ (log2 fuel n + 1) := by
  induction fuel generalizing n with
  | zero =>
    simp only [pow_zero] at hf
    omega
  | succ fuel ih =>
    unfold log2
    by_cases h2 : n < 2
    · rw [if_pos h2]
      simp only [pow_zero, zero_add, pow_one]
      omega
    · rw [if_neg h2]
      have hf' : n / 2 < 2 ^ fuel := by
        rw [pow_succ] at hf
        omega
      obtain ⟨a, b⟩ := ih (n / 2) (by omega) hf'
      rw [pow_succ] at b ⊢
      rw [pow_succ (2 : Nat) (log2 fuel (n / 2) + 1), pow_succ]
      constructor <;> omega

theorem log2_self_spec (n : Nat) (hn : n ≠ 0) :
    2 ^ log2 n n ≤ n ∧ n < 2 ^ (log2 n n + 1) :=
  log2_spec n n hn (Nat.lt_two_pow n)

theorem scale_spec (n d : Nat) (e : Int) (hd : 0 < d) :
    0 < (scale n d e).2 ∧
    ((scale n d e).1 : ℚ) / ((scale n d e).2 : ℚ) = (n : ℚ) / (d : ℚ) / (2 : ℚ) ^ e := by
  have hd' : (d : ℚ) ≠ 0 := by exact_mod_cast hd.ne'
  unfold scale
  by_cases he : 0 ≤ e
  · rw [if_pos he]
    obtain ⟨k, rfl⟩ := Int.eq_ofNat_of_zero_le he
    simp only [Int.toNat_ofNat, zpow_natCast]
    refine ⟨by positivity, ?_⟩
    push_cast
    rw [div_div]
  · rw [if_neg he]
    obtain ⟨k, hk⟩ : ∃ k : Nat, e = -(k : Int) := ⟨(-e).toNat, by omega⟩
    subst hk
    simp only [neg_neg, Int.toNat_ofNat, zpow_neg, zpow_natCast]
    refine ⟨hd, ?_⟩
    push_cast
    field_simp

theorem floorLog_spec (n d : Nat) (hn : 0 < n) (hd : 0 < d) :
    (2 : ℚ) ^ floorLog n d ≤ (n : ℚ) / (d : ℚ) ∧
    (n : ℚ) / (d : ℚ) < (2 : ℚ) ^ (floorLog n d + 1) := by
  obtain ⟨n1, n2⟩ := log2_self_spec n hn.ne'
  obtain ⟨d1, d2⟩ := log2_self_spec d hd.ne'
  have hdq : (0 : ℚ) < (d : ℚ) := by exact_mod_cast hd
  have two : (0 : ℚ) < 2 := by norm_num
  have n1q : (2 : ℚ) ^ ((log2 n n : Nat) : Int) ≤ (n : ℚ) := by
    rw [zpow_natCast]; exact_mod_cast n1
  have n2q : (n : ℚ) < (2 : ℚ) ^ (((log2 n n : Nat) : Int) + 1) := by
    rw [zpow_add₀ two.ne', zpow_natCast, zpow_one]
    have : (n : ℚ) < ((2 ^ (log2 n n + 1) : Nat) : ℚ) := by exact_mod_cast n2
    rw [pow_succ] at this
    exact_mod_cast this
  have d1q : (2 : ℚ) ^ ((log2 d d : Nat) : Int) ≤ (d : ℚ) := by
    rw [zpow_natCast]; exact_mod_cast d1
  have d2q : (d : ℚ) < (2 : ℚ) ^ (((log2 d d : Nat) : Int) + 1) := by
    rw [zpow_add₀ two.ne', zpow_natCast, zpow_one]
    have : (d : ℚ) < ((2 ^ (log2 d d + 1) : Nat) : ℚ) := by exact_mod_cast d2
    rw [pow_succ] at this
    exact_mod_cast this
  -- the quotient lies strictly between `2 ^ (c - 1)` and `2 ^ (c + 1)`
  have hup : (n : ℚ) / (d : ℚ)
      < (2 : ℚ) ^ (((log2 n n : Nat) : Int) - ((log2 d d : Nat) : Int) + 1) := by
    rw [div_lt_iff₀ hdq]
    calc (n : ℚ) < (2 : ℚ) ^ (((log2 n n : Nat) : Int) + 1) := n2q
      _ = (2 : ℚ) ^ (((log2 n n : Nat) : Int) - ((log2 d d : Nat) : Int) + 1)
            * (2 : ℚ) ^ ((log2 d d : Nat) : Int) := by
          rw [← zpow_add₀ two.ne']; congr 1; ring
      _ ≤ _ := by
          apply mul_le_mul_of_nonneg_left d1q
          positivity
  have hlo : (2 : ℚ) ^ (((log2 n n : Nat) : Int) - ((log2 d d : Nat) : Int) - 1)
      ≤ (n : ℚ) / (d : ℚ) := by
    rw [le_div_iff₀ hdq]
    calc (2 : ℚ) ^ (((log2 n n : Nat) : Int) - ((log2 d d : Nat) : Int) - 1) * (d : ℚ)
        ≤ (2 : ℚ) ^ (((log2 n n : Nat) : Int) - ((log2 d d : Nat) : Int) - 1)
            * (2 : ℚ) ^ (((log2 d d : Nat) : Int) + 1) := by
          apply mul_le_mul_of_nonneg_left d2q.le
          positivity
      _ = (2 : ℚ) ^ ((log2 n n : Nat) : Int) := by
          rw [← zpow_add₀ two.ne']; congr 1; ring
      _ ≤ _ := n1q
  obtain ⟨hs, hv⟩ := scale_spec n d (((log2 n n : Nat) : Int) - ((log2 d d : Nat) : Int)) hd
  have hsq : (0 : ℚ) < ((scale n d (((log2 n n : Nat) : Int)
      - ((log2 d d : Nat) : Int))).2 : ℚ) := by exact_mod_cast hs
  have hpow : (0 : ℚ) < (2 : ℚ) ^ (((log2 n n : Nat) : Int) - ((log2 d d : Nat) : Int)) := by
    positivity
  unfold floorLog
  simp only
  by_cases ht : (scale n d (((log2 n n : Nat) : Int) - ((log2 d d : Nat) : Int))).2
      ≤ (scale n d (((log2 n n : Nat) : Int) - ((log2 d d : Nat) : Int))).1
  · rw [if_pos ht]
    refine ⟨?_, hup⟩
    have h1 : (1 : ℚ) ≤ ((scale n d (((log2 n n : Nat) : Int)
        - ((log2 d d : Nat) : Int))).1 : ℚ) / ((scale n d (((log2 n n : Nat) : Int)
        - ((log2 d d : Nat) : Int))).2 : ℚ) := by
      rw [le_div_iff₀ hsq, one_mul]
      exact_mod_cast ht
    rw [hv, le_div_iff₀ hpow, one_mul] at h1
    exact h1
  · rw [if_neg ht]
    refine ⟨hlo, ?_⟩
    have h1 : ((scale n d (((log2 n n : Nat) : Int)
        - ((log2 d d : Nat) : Int))).1 : ℚ) / ((scale n d (((log2 n n : Nat) : Int)
        - ((log2 d d : Nat) : Int))).2 : ℚ) < 1 := by
      rw [div_lt_iff₀ hsq, one_mul]
      exact_mod_cast (not_le.mp ht)
    rw [hv, div_lt_iff₀ hpow, one_mul] at h1
    rw [sub_add_cancel]
    exact h1

theorem exponent_spec (n d : Nat) (hn : 0 < n) (hd : 0 < d) :
    -149 ≤ exponent n d ∧
    (n : ℚ) / (d : ℚ) / (2 : ℚ) ^ exponent n d < (2 : ℚ) ^ (24 : Nat) ∧
    (-149 < exponent n d → (2 : ℚ) ^ (exponent n d + 23) ≤ (n : ℚ) / (d : ℚ)) := by
  obtain ⟨f1, f2⟩ := floorLog_spec n d hn hd
  have two : (0 : ℚ) < 2 := by norm_num
  have one2 : (1 : ℚ) ≤ 2 := by norm_num
  have hpow : (0 : ℚ) < (2 : ℚ) ^ exponent n d := by positivity
  refine ⟨le_max_right _ _, ?_, fun h => ?_⟩
  · rw [div_lt_iff₀ hpow]
    have hle : floorLog n d + 1 ≤ 24 + exponent n d := by
      have : floorLog n d - 23 ≤ exponent n d := le_max_left _ _
      omega
    calc (n : ℚ) / (d : ℚ) < (2 : ℚ) ^ (floorLog n d + 1) := f2
      _ ≤ (2 : ℚ) ^ (24 + exponent n d) := zpow_le_zpow_right₀ one2 hle
      _ = (2 : ℚ) ^ (24 : Nat) * (2 : ℚ) ^ exponent n d := by
          rw [zpow_add₀ two.ne']
          norm_cast
  · have he : exponent n d = floorLog n d - 23 := by
      unfold exponent at h ⊢
      omega
    rw [he, sub_add_cancel]
    exact f1

theorem nearestEven_le (a b N : Nat) (hb : 0 < b) (h : a ≤ N * b) : nearestEven a b ≤ N := by
  have hf : a / b ≤ N := by
    rw [Nat.div_le_iff_le_mul_add_pred hb]
    have : N * b = b * N := Nat.mul_comm _ _
    omega
  have hmod := Nat.mod_lt a hb
  have hdm := Nat.div_add_mod a b
  unfold nearestEven
  simp only
  by_cases hlt : a / b < N
  · split
    · omega
    · split
      · omega
      · split <;> omega
  · have hfe : a / b = N := by omega
    have hr : a % b = 0 := by
      rw [hfe] at hdm
      have : b * N = N * b := Nat.mul_comm _ _
      omega
    rw [hr]
    simp only [Nat.mul_zero]
    rw [if_pos hb, hfe]

theorem le_nearestEven (a b N : Nat) (hb : 0 < b) (h : N * b ≤ a) : N ≤ nearestEven a b := by
  have hf : N ≤ a / b := (Nat.le_div_iff_mul_le hb).mpr h
  unfold nearestEven
  simp only
  split
  · exact hf
  · split
    · omega
    · split <;> omega

/-- The value of `round` on a positive fraction. -/
theorem round_pos (a : Frac) (hn : 0 < a.num) (hd : 0 < a.den) :
    0 < (round a).den ∧ 0 ≤ (round a).num ∧
    (round a).toRat
      = (nearestEven (scale a.num.natAbs a.den (exponent a.num.natAbs a.den)).1
          (scale a.num.natAbs a.den (exponent a.num.natAbs a.den)).2 : ℚ)
        * (2 : ℚ) ^ exponent a.num.natAbs a.den := by
  have h1 : ¬ (a.num = 0 ∨ a.den = 0) := by omega
  have h2 : ¬ a.num < 0 := by omega
  unfold round
  simp only [if_neg h1, if_neg h2]
  by_cases he : 0 ≤ exponent a.num.natAbs a.den
  · rw [if_pos he]
    obtain ⟨k, hk⟩ := Int.eq_ofNat_of_zero_le he
    refine ⟨Nat.one_pos, by positivity, ?_⟩
    simp only [Frac.toRat]
    rw [hk]
    simp only [Int.toNat_ofNat, zpow_natCast]
    push_cast
    rw [div_one]
  · rw [if_neg he]
    obtain ⟨k, hk⟩ : ∃ k : Nat, exponent a.num.natAbs a.den = -(k : Int) :=
      ⟨(-exponent a.num.natAbs a.den).toNat, by omega⟩
    refine ⟨by positivity, by positivity, ?_⟩
    simp only [Frac.toRat]
    rw [hk]
    simp only [neg_neg, Int.toNat_ofNat, zpow_neg, zpow_natCast]
    push_cast
    rw [div_eq_mul_inv]

theorem round_den_pos (a : Frac) : 0 < (round a).den := by
  unfold round
  split
  · exact Nat.one_pos
  · simp only
    split
    · exact Nat.one_pos
    · positivity

theorem round_zero (a : Frac) (h : a.num = 0) : round a = ⟨0, 1⟩ := by
  unfold round
  rw [if_pos (Or.inl h)]

/-- A value a `float` can hold that is at least a positive fraction is a whole multiple of
the last place that fraction is rounded at. -/
theorem rep_multiple (n d : Nat) (hn : 0 < n) (hd : 0 < d) (F : ℚ) (hF : Rep F)
    (hle : (n : ℚ) / (d : ℚ) ≤ F) :
    ∃ N : Nat, F = (N : ℚ) * (2 : ℚ) ^ exponent n d := by
  obtain ⟨M, E, hM, hE, rfl⟩ := hF
  obtain ⟨e1, _, e3⟩ := exponent_spec n d hn hd
  have two : (0 : ℚ) < 2 := by norm_num
  have one2 : (1 : ℚ) < 2 := by norm_num
  have heE : exponent n d ≤ E := by
    by_cases hc : exponent n d = -149
    · omega
    · have h1 := e3 (by omega)
      have hM' : (M : ℚ) < (2 : ℚ) ^ (24 : Int) := by
        have : (M : ℚ) < ((2 ^ 24 : Nat) : ℚ) := by exact_mod_cast hM
        rw [show ((24 : Int)) = ((24 : Nat) : Int) from rfl, zpow_natCast]
        exact_mod_cast this
      have hpE : (0 : ℚ) < (2 : ℚ) ^ E := by positivity
      have h2 : (2 : ℚ) ^ (exponent n d + 23) < (2 : ℚ) ^ (24 + E) := by
        calc (2 : ℚ) ^ (exponent n d + 23) ≤ (n : ℚ) / (d : ℚ) := h1
          _ ≤ (M : ℚ) * (2 : ℚ) ^ E := hle
          _ < (2 : ℚ) ^ (24 : Int) * (2 : ℚ) ^ E := mul_lt_mul_of_pos_right hM' hpE
          _ = (2 : ℚ) ^ (24 + E) := by rw [zpow_add₀ two.ne']
      have h3 := (zpow_lt_zpow_iff_right₀ one2).mp h2
      omega
  obtain ⟨k, hk⟩ : ∃ k : Nat, E = exponent n d + (k : Int) :=
    ⟨(E - exponent n d).toNat, by omega⟩
  refine ⟨M * 2 ^ k, ?_⟩
  rw [hk, zpow_add₀ two.ne', zpow_natCast]
  push_cast
  ring

/-- Rounding does not step over a value a `float` can hold (from below). -/
theorem round_le_rep (a : Frac) (hn : 0 ≤ a.num) (hd : 0 < a.den) (F : ℚ) (hF : Rep F)
    (hle : a.toRat ≤ F) : (round a).toRat ≤ F := by
  have hF0 : 0 ≤ F := by
    obtain ⟨M, E, _, _, rfl⟩ := hF
    positivity
  by_cases h0 : a.num = 0
  · rw [round_zero a h0]
    simpa [Frac.toRat] using hF0
  have hpos : 0 < a.num := by omega
  have hnat : ((a.num.natAbs : Nat) : ℚ) = (a.num : ℚ) := by
    rw [← Int.cast_natCast a.num.natAbs, Int.natAbs_of_nonneg hn]
  have hq : ((a.num.natAbs : Nat) : ℚ) / (a.den : ℚ) = a.toRat := by
    rw [hnat]; rfl
  have hnpos : 0 < a.num.natAbs := by omega
  obtain ⟨N, hN⟩ := rep_multiple a.num.natAbs a.den hnpos hd F hF (by rw [hq]; exact hle)
  obtain ⟨hs, hv⟩ := scale_spec a.num.natAbs a.den (exponent a.num.natAbs a.den) hd
  obtain ⟨_, _, hval⟩ := round_pos a hpos hd
  have hpow : (0 : ℚ) < (2 : ℚ) ^ exponent a.num.natAbs a.den := by positivity
  have hsq : (0 : ℚ) < ((scale a.num.natAbs a.den (exponent a.num.natAbs a.den)).2 : ℚ) := by
    exact_mod_cast hs
  have hx : (scale a.num.natAbs a.den (exponent a.num.natAbs a.den)).1
      ≤ N * (scale a.num.natAbs a.den (exponent a.num.natAbs a.den)).2 := by
    have h1 : ((scale a.num.natAbs a.den (exponent a.num.natAbs a.den)).1 : ℚ)
        / ((scale a.num.natAbs a.den (exponent a.num.natAbs a.den)).2 : ℚ) ≤ (N : ℚ) := by
      rw [hv, hq, div_le_iff₀ hpow, ← hN]
      exact hle
    rw [div_le_iff₀ hsq] at h1
    exact_mod_cast h1
  have hne := nearestEven_le _ _ N hs hx
  rw [hval, hN]
  apply mul_le_mul_of_nonneg_right _ hpow.le
  exact_mod_cast hne

/-- Rounding does not step over a value a `float` can hold (from above), when that value is
at least the fraction rounded as well: a value a `float` can hold is rounded to itself. -/
theorem round_rep (a : Frac) (hn : 0 ≤ a.num) (hd : 0 < a.den) (hF : Rep a.toRat) :
    (round a).toRat = a.toRat := by
  apply le_antisymm (round_le_rep a hn hd _ hF (le_refl _))
  by_cases h0 : a.num = 0
  · rw [round_zero a h0]
    simp [Frac.toRat, h0]
  have hpos : 0 < a.num := by omega
  have hnat : ((a.num.natAbs : Nat) : ℚ) = (a.num : ℚ) := by
    rw [← Int.cast_natCast a.num.natAbs, Int.natAbs_of_nonneg hn]
  have hq : ((a.num.natAbs : Nat) : ℚ) / (a.den : ℚ) = a.toRat := by
    rw [hnat]; rfl
  have hnpos : 0 < a.num.natAbs := by omega
  obtain ⟨N, hN⟩ := rep_multiple a.num.natAbs a.den hnpos hd a.toRat hF (by rw [hq])
  obtain ⟨hs, hv⟩ := scale_spec a.num.natAbs a.den (exponent a.num.natAbs a.den) hd
  obtain ⟨_, _, hval⟩ := round_pos a hpos hd
  have hpow : (0 : ℚ) < (2 : ℚ) ^ exponent a.num.natAbs a.den := by positivity
  have hsq : (0 : ℚ) < ((scale a.num.natAbs a.den (exponent a.num.natAbs a.den)).2 : ℚ) := by
    exact_mod_cast hs
  have hx : N * (scale a.num.natAbs a.den (exponent a.num.natAbs a.den)).2
      ≤ (scale a.num.natAbs a.den (exponent a.num.natAbs a.den)).1 := by
    have h1 : (N : ℚ) ≤ ((scale a.num.natAbs a.den (exponent a.num.natAbs a.den)).1 : ℚ)
        / ((scale a.num.natAbs a.den (exponent a.num.natAbs a.den)).2 : ℚ) := by
      rw [hv, hq, le_div_iff₀ hpow, ← hN]
    rw [le_div_iff₀ hsq] at h1
    exact_mod_cast h1
  have hne := le_nearestEven _ _ N hs hx
  rw [hval]
  nth_rewrite 1 [hN]
  apply mul_le_mul_of_nonneg_right _ hpow.le
  exact_mod_cast hne

/-- The result of a rounding is a value a `float` can hold, and it is not negative when the
fraction rounded is not. -/
theorem rep_round (a : Frac) (hn : 0 ≤ a.num) (hd : 0 < a.den) :
    Rep (round a).toRat ∧ 0 ≤ (round a).num ∧ 0 ≤ (round a).toRat := by
  by_cases h0 : a.num = 0
  · rw [round_zero a h0]
    exact ⟨⟨0, 0, by norm_num, by norm_num, by simp [Frac.toRat]⟩, le_refl _,
      by simp [Frac.toRat]⟩
  have hpos : 0 < a.num := by omega
  have hnpos : 0 < a.num.natAbs := by omega
  obtain ⟨hs, hv⟩ := scale_spec a.num.natAbs a.den (exponent a.num.natAbs a.den) hd
  obtain ⟨_, hnum, hval⟩ := round_pos a hpos hd
  obtain ⟨e1, e2, _⟩ := exponent_spec a.num.natAbs a.den hnpos hd
  have two : (0 : ℚ) < 2 := by norm_num
  have hsq : (0 : ℚ) < ((scale a.num.natAbs a.den (exponent a.num.natAbs a.den)).2 : ℚ) := by
    exact_mod_cast hs
  have hx : (scale a.num.natAbs a.den (exponent a.num.natAbs a.den)).1
      ≤ 2 ^ 24 * (scale a.num.natAbs a.den (exponent a.num.natAbs a.den)).2 := by
    rw [← hv, div_lt_iff₀ hsq] at e2
    have := e2.le
    exact_mod_cast this
  have hne := nearestEven_le _ _ (2 ^ 24) hs hx
  refine ⟨?_, hnum, by rw [hval]; positivity⟩
  rw [hval]
  by_cases hlt : nearestEven (scale a.num.natAbs a.den (exponent a.num.natAbs a.den)).1
      (scale a.num.natAbs a.den (exponent a.num.natAbs a.den)).2 < 2 ^ 24
  · exact ⟨_, _, hlt, e1, rfl⟩
  · have heq : nearestEven (scale a.num.natAbs a.den (exponent a.num.natAbs a.den)).1
        (scale a.num.natAbs a.den (exponent a.num.natAbs a.den)).2 = 2 ^ 24 := by omega
    refine ⟨2 ^ 23, exponent a.num.natAbs a.den + 1, by norm_num, by omega, ?_⟩
    rw [heq, zpow_add₀ two.ne', zpow_one]
    push_cast
    ring

end Binary32

theorem Frac.ofInt_den_pos (n : Int) : 0 < (Frac.ofInt n).den :=
  Binary32.round_den_pos _

theorem Frac.mul_den_pos (a b : Frac) : 0 < (a.mul b).den :=
  Binary32.round_den_pos _

/-- The conversion of a non-negative `int` is a non-negative value a `float` can hold. -/
theorem Frac.ofInt_rep (n : Int) (hn : 0 ≤ n) :
    Binary32.Rep (Frac.ofInt n).toRat ∧ 0 ≤ (Frac.ofInt n).num ∧ 0 ≤ (Frac.ofInt n).toRat :=
  Binary32.rep_round ⟨n, 1⟩ hn Nat.one_pos

/-- The conversion of an `int` below `2 ^ 24` is exact. -/
theorem Frac.ofInt_exact (n : Int) (h0 : 0 ≤ n) (h : n < 2 ^ 24) :
    (Frac.ofInt n).toRat = (n : ℚ) := by
  have hrep : Binary32.Rep (⟨n, 1⟩ : Frac).toRat := by
    refine ⟨n.toNat, 0, by omega, by norm_num, ?_⟩
    have : ((n.toNat : Nat) : ℚ) = (n : ℚ) := by
      rw [← Int.cast_natCast n.toNat, Int.toNat_of_nonneg h0]
    simp [Frac.toRat, this]
  have := Binary32.round_rep ⟨n, 1⟩ h0 Nat.one_pos hrep
  unfold Frac.ofInt
  rw [this]
  simp [Frac.toRat]

theorem Frac.toRat_pre_mul (a b : Frac) :
    (⟨a.num * b.num, a.den * b.den⟩ : Frac).toRat = a.toRat * b.toRat := by
  simp only [Frac.toRat]
  push_cast
  rw [mul_div_mul_comm]

/-- The product of a value of the closed unit interval and a non-negative `float` is at most
that `float`: rounding does not lift the product over it. -/
theorem Frac.mul_le_right (r b : Frac) (hr0 : 0 ≤ r.num) (hr1 : r.num ≤ (r.den : Int))
    (hrd : 0 < r.den) (hb0 : 0 ≤ b.num) (hbd : 0 < b.den) (hrep : Binary32.Rep b.toRat) :
    (r.mul b).toRat ≤ b.toRat := by
  unfold Frac.mul
  apply Binary32.round_le_rep _ (Int.mul_nonneg hr0 hb0) (Nat.mul_pos hrd hbd) _ hrep
  rw [Frac.toRat_pre_mul]
  have h1 : r.toRat ≤ 1 := by
    unfold Frac.toRat
    have hd : (0 : ℚ) < (r.den : ℚ) := by exact_mod_cast hrd
    rw [div_le_one hd]
    exact_mod_cast hr1
  have h2 : 0 ≤ b.toRat := by
    unfold Frac.toRat
    have : (0 : ℚ) ≤ (b.num : ℚ) := by exact_mod_cast hb0
    positivity
  nlinarith

/-- A product whose exact value is the second factor, a `float`, is that `float`. -/
theorem Frac.mul_eq_right (r b : Frac) (hr0 : 0 ≤ r.num) (hrd : 0 < r.den) (hb0 : 0 ≤ b.num)
    (hbd : 0 < b.den) (hrep : Binary32.Rep b.toRat) (h : r.toRat * b.toRat = b.toRat) :
    (r.mul b).toRat = b.toRat := by
  unfold Frac.mul
  have := Binary32.round_rep ⟨r.num * b.num, r.den * b.den⟩ (Int.mul_nonneg hr0 hb0)
    (Nat.mul_pos hrd hbd) (by rw [Frac.toRat_pre_mul, h]; exact hrep)
  rw [this, Frac.toRat_pre_mul, h]

/-- No value a `float` can hold lies from `1/5` up to the value of the constant `mu_rate`
of the program, the `float` nearest to `1/5`: on a `float`, the test against the one is the
test against the other. -/
theorem mu_rate_on_floats (F : ℚ) (hF : Binary32.Rep F) :
    F < mu_rate.toRat ↔ F < (Binary32.round ⟨1, 5⟩).toRat := by
  have hround : (Binary32.round ⟨1, 5⟩).toRat = 13421773 / 67108864 := by
    have : Binary32.round ⟨1, 5⟩ = ⟨13421773, 67108864⟩ := by decide
    rw [this]
    simp [Frac.toRat]
  rw [mu_rate_toRat, hround]
  constructor
  · intro h
    linarith
  · intro h
    by_contra hc
    rw [not_lt] at hc
    obtain ⟨M, E, hM, hE, rfl⟩ := hF
    have two : (0 : ℚ) < 2 := by norm_num
    have hMq : (M : ℚ) < 16777216 := by exact_mod_cast hM
    by_cases hE26 : -26 ≤ E
    · obtain ⟨k, hk⟩ : ∃ k : Nat, E = -26 + (k : Int) := ⟨(E + 26).toNat, by omega⟩
      rw [hk, zpow_add₀ two.ne', zpow_natCast] at h hc
      have e26 : (2 : ℚ) ^ (-26 : Int) = 1 / 67108864 := by norm_num [zpow_neg]
      rw [e26] at h hc
      have h1 : ((M * 2 ^ k : Nat) : ℚ) < 13421773 := by
        push_cast
        linarith
      have h2 : (13421772 : ℚ) < ((M * 2 ^ k : Nat) : ℚ) := by
        push_cast
        linarith
      have h1' : M * 2 ^ k < 13421773 := by exact_mod_cast h1
      have h2' : 13421772 < M * 2 ^ k := by exact_mod_cast h2
      omega
    · have hle : (2 : ℚ) ^ E ≤ (2 : ℚ) ^ (-27 : Int) :=
        zpow_le_zpow_right₀ (by norm_num) (by omega)
      have e27 : (2 : ℚ) ^ (-27 : Int) = 1 / 134217728 := by norm_num [zpow_neg]
      rw [e27] at hle
      have hpos : (0 : ℚ) < (2 : ℚ) ^ E := by positivity
      have hM0 : (0 : ℚ) ≤ (M : ℚ) := by positivity
      nlinarith

/-! ## Mutation: proofs -/

theorem mutate_resample_spec {G : Type} (L : Lib G) (hL : L.Valid) (cur : Int) (fuel : Nat)
    (new_val : Int) (g : G) (v : Int) (g' : G) (hnv : 0 ≤ new_val ∧ new_val ≤ 7)
    (h : mutate.resample L cur fuel new_val g = some (v, g')) :
    v ≠ cur ∧ 0 ≤ v ∧ v ≤ 7 := by
  induction fuel generalizing new_val g with
  | zero =>
    unfold mutate.resample at h
    split at h
    · simp at h
    · simp only [Option.some.injEq, Prod.mk.injEq] at h
      obtain ⟨rfl, _⟩ := h
      exact ⟨by assumption, hnv⟩
  | succ fuel ih =>
    unfold mutate.resample at h
    split at h
    · exact ih _ _ (hL.intDist_range g) h
    · simp only [Option.some.injEq, Prod.mk.injEq] at h
      obtain ⟨rfl, _⟩ := h
      exact ⟨by assumption, hnv⟩

/-- What one pass of the mutation loop does at position `i`. -/
theorem mutate_gene_spec {G : Type} (L : Lib G) (hL : L.Valid) (fuel i : Nat) (ch : List Int)
    (g : G) (ch' : List Int) (g' : G) (h : mutate.gene L fuel i (ch, g) = some (ch', g')) :
    ch'.length = ch.length ∧ (∀ j : Nat, j ≠ i → ch'[j]? = ch[j]?) ∧
    (if (L.floatDist g).1.lt mu_rate = true then
        ∃ cur v, ch[i]? = some cur ∧ ch'[i]? = some v ∧ v ≠ cur ∧ 0 ≤ v ∧ v ≤ 7
      else ch' = ch) := by
  unfold mutate.gene at h
  by_cases ht : (L.floatDist g).1.lt mu_rate = true
  · simp only [ht, if_true, Option.bind_eq_some] at h ⊢
    obtain ⟨cur, hcur, r, hr, c2, hw, hres⟩ := h
    simp only [Option.some.injEq, Prod.mk.injEq] at hres
    obtain ⟨rfl, rfl⟩ := hres
    obtain ⟨hi, rfl⟩ := writeAt_eq_some.mp hw
    have hv := mutate_resample_spec L hL cur fuel _ _ r.1 r.2 (hL.intDist_range _) hr
    refine ⟨by simp, ?_, cur, r.1, hcur, ?_, hv⟩
    · intro j hj
      simp [List.getElem?_set, Ne.symm hj]
    · simp [List.getElem?_set, hi]
  · simp only [ht, if_false, Option.some.injEq, Prod.mk.injEq, Bool.false_eq_true] at h ⊢
    obtain ⟨rfl, rfl⟩ := h
    exact ⟨rfl, fun _ _ => rfl, rfl⟩


theorem mutate_loop_frame {G : Type} (L : Lib G) (hL : L.Valid) (fuel n a : Nat)
    (ch : List Int) (g : G) (ch' : List Int) (g' : G)
    (h : forLoop (mutate.gene L fuel) n a (ch, g) = some (ch', g')) :
    ch'.length = ch.length ∧ ∀ j : Nat, (j < a ∨ a + n ≤ j) → ch'[j]? = ch[j]? := by
  have := forLoop_inv (mutate.gene L fuel)
    (fun k t => t.1.length = ch.length ∧ ∀ j : Nat, (j < a ∨ k ≤ j) → t.1[j]? = ch[j]?)
    n a (ch, g) (ch', g') ⟨rfl, fun _ _ => rfl⟩ ?_ h
  · exact this
  · rintro k ⟨t1, t2⟩ ⟨u1, u2⟩ hk _ ⟨hlen, hfr⟩ hb
    obtain ⟨hl, hne, _⟩ := mutate_gene_spec L hL fuel k t1 t2 u1 u2 hb
    refine ⟨hl.trans hlen, fun j hj => ?_⟩
    rw [hne j (by omega)]
    exact hfr j (by omega)

/-- Claim C7. For every chromosome of length 8 with genes in `[0, 7]` and every outcome of the
random draws for which the resampling loops end (`mutate` has a result), `mutate` leaves at
each position `i` whose trigger draw is below `mu_rate = 0.2` a value in `[0, 7]` that
differs from the value position `i` held before the call, and leaves every position whose
trigger draw is not below `mu_rate` unchanged.  The trigger draw of position `i` is the
`floatDist` draw from the generator state `gi` reached by the passes for the positions
before `i`. -/
theorem mutate_changes_exactly_triggered {G : Type} (L : Lib G) (hL : L.Valid) (fuel : Nat)
    (ch : List Int) (hlen : ch.length = 8) (_hg : ∀ x ∈ ch, 0 ≤ x ∧ x ≤ 7) (g : G)
    (ch' : List Int) (g' : G) (h : mutate L fuel ch g = some (ch', g')) :
    ch'.length = 8 ∧
    ∀ i, i < 8 → ∃ chi gi, forLoop (mutate.gene L fuel) i 0 (ch, g) = some (chi, gi) ∧
      ((L.floatDist gi).1.toRat < 1 / 5 →
        0 ≤ ch'.getD i 0 ∧ ch'.getD i 0 ≤ 7 ∧ ch'.getD i 0 ≠ ch.getD i 0) ∧
      (¬ (L.floatDist gi).1.toRat < 1 / 5 → ch'.getD i 0 = ch.getD i 0) := by
  unfold mutate at h
  refine ⟨?_, fun i hi => ?_⟩
  · rw [← hlen]; exact (mutate_loop_frame L hL fuel _ 0 ch g ch' g' h).1
  · have hsplit : chromosome_length = i + (1 + (7 - i)) := by
      unfold chromosome_length; omega
    rw [hsplit, forLoop_add, Option.bind_eq_some] at h
    obtain ⟨⟨chi, gi⟩, hpre, hrest⟩ := h
    rw [forLoop_add, Option.bind_eq_some] at hrest
    obtain ⟨⟨chm, gm⟩, hmid, hsuf⟩ := hrest
    simp only [forLoop, Option.bind_eq_some, Option.some.injEq, exists_eq_right, zero_add] at hmid
    refine ⟨chi, gi, hpre, ?_⟩
    obtain ⟨_, hpre_fr⟩ := mutate_loop_frame L hL fuel i 0 ch g chi gi hpre
    obtain ⟨_, hsuf_fr⟩ := mutate_loop_frame L hL fuel _ _ chm gm ch' g' hsuf
    obtain ⟨_, _, hgene⟩ := mutate_gene_spec L hL fuel i chi gi chm gm hmid
    have h1 : ch'[i]? = chm[i]? := hsuf_fr i (Or.inl (by omega))
    have h2 : chi[i]? = ch[i]? := hpre_fr i (Or.inr (by omega))
    have hlt := Frac.lt_iff_toRat (L.floatDist gi).1 mu_rate
      (hL.floatDist_unit gi).den_pos (by decide)
    rw [mu_rate_toRat] at hlt
    simp only [List.getD_eq_getElem?_getD, h1, ← h2]
    constructor
    · intro htr
      rw [if_pos (hlt.mpr htr)] at hgene
      obtain ⟨cur, v, hc, hv, hne, hr⟩ := hgene
      simp [hc, hv, hne, hr]
    · intro htr
      rw [if_neg (fun hh => htr (hlt.mp hh))] at hgene
      rw [hgene]


/-! ## Roulette-wheel selection: proofs -/

theorem eligibleSum_succ (fitness : List (Int × Nat)) (k n : Nat) :
    eligibleSum fitness k (n + 1)
      = eligibleSum fitness k n + (if n = k then 0 else (fitness.getD n (0, 0)).1) := by
  unfold eligibleSum
  rw [List.range_succ, List.filter_append]
  by_cases h : n = k <;> simp [h]

theorem eligibleSum_nonneg (fitness : List (Int × Nat)) (hnn : ∀ e ∈ fitness, 0 ≤ e.1)
    (k n : Nat) : 0 ≤ eligibleSum fitness k n := by
  induction n with
  | zero => simp [eligibleSum]
  | succ n ih =>
    rw [eligibleSum_succ]
    split
    · simpa using ih
    · have : 0 ≤ (fitness.getD n (0, 0)).1 := by
        rw [List.getD_eq_getElem?_getD]
        cases hn : fitness[n]? with
        | none => simp
        | some e => exact hnn e (List.getElem?_mem hn)
      omega

theorem rws_select_sumLoop_eq (fitness : List (Int × Nat)) (first : Nat)
    (hlen : popSize ≤ fitness.length) :
    rws_select.sumLoop fitness first = some (eligibleSum fitness first popSize) := by
  unfold rws_select.sumLoop
  obtain ⟨s', hs', hI⟩ := forLoop_total
    (fun i sum_fitness =>
      if i = first then some sum_fitness
      else (fitness[i]?).map (fun e => sum_fitness + e.1))
    (fun i acc => acc = eligibleSum fitness first i) popSize 0 0 (by simp [eligibleSum]) (by
      intro k t _ hk ht
      have ht' : t = eligibleSum fitness first k := ht
      subst ht'
      by_cases hkf : k = first
      · refine ⟨eligibleSum fitness first k, by simp [hkf], ?_⟩
        show _ = eligibleSum fitness first (k + 1)
        rw [eligibleSum_succ]; simp [hkf]
      · have hlt : k < fitness.length := by omega
        refine ⟨eligibleSum fitness first k + fitness[k].1, by simp [hkf, hlt], ?_⟩
        show _ = eligibleSum fitness first (k + 1)
        rw [eligibleSum_succ]
        simp [hkf, hlt, List.getD_eq_getElem?_getD])
  rw [hs', hI]; simp

theorem getD_fst_eq (fitness : List (Int × Nat)) (i : Nat) (h : i < fitness.length) :
    (fitness.getD i (0, 0)).1 = fitness[i].1 := by
  simp [List.getD_eq_getElem?_getD, h]

/-- The `while` loop of `rws_select` stops at the first index, from `select_i` on and other
than `first`, at which the running sum is not below the cut-off, provided there is one. -/
theorem rws_select_walk_spec (fitness : List (Int × Nat)) (first : Nat) (cut_off : Frac)
    (n select_i : Nat) (accumulation : Int) (m : Nat)
    (hsel : select_i ≠ first) (hacc : accumulation = eligibleSum fitness first (select_i + 1))
    (hfuel : fitness.length + 1 ≤ n + select_i)
    (hm : select_i ≤ m) (hmlen : m < fitness.length) (hmk : m ≠ first)
    (hstop : (Frac.ofInt (eligibleSum fitness first (m + 1))).lt cut_off = false) :
    ∃ s, rws_select.walk fitness first cut_off n select_i accumulation = some s ∧
      s ≠ first ∧ select_i ≤ s ∧ s ≤ m ∧
      (Frac.ofInt (eligibleSum fitness first (s + 1))).lt cut_off = false ∧
      ∀ t, select_i ≤ t → t < s → t ≠ first →
        (Frac.ofInt (eligibleSum fitness first (t + 1))).lt cut_off = true := by
  induction n generalizing select_i accumulation with
  | zero => omega
  | succ n ih =>
    unfold rws_select.walk
    by_cases hlt : (Frac.ofInt accumulation).lt cut_off = true
    · rw [if_pos hlt]
      have hne : select_i ≠ m := by
        rintro rfl
        rw [hacc, hstop] at hlt
        exact Bool.false_ne_true hlt
      by_cases hnext : select_i + 1 = first
      · have hlt2 : select_i + 1 + 1 < fitness.length := by omega
        have e1 : (if select_i + 1 = first then select_i + 1 + 1 else select_i + 1)
            = select_i + 1 + 1 := if_pos hnext
        simp only [e1, List.getElem?_eq_getElem hlt2]
        have hacc' : accumulation + fitness[select_i + 1 + 1].1
            = eligibleSum fitness first (select_i + 1 + 1 + 1) := by
          rw [eligibleSum_succ, eligibleSum_succ, hacc, if_pos hnext,
            if_neg (by omega : ¬ select_i + 1 + 1 = first), getD_fst_eq _ _ hlt2]
          omega
        obtain ⟨s, hs, hsk, hge, hle, hst, hmin⟩ :=
          ih (select_i + 1 + 1) _ (by omega) hacc' (by omega) (by omega)
        refine ⟨s, hs, hsk, by omega, hle, hst, fun t ht hts htk => ?_⟩
        by_cases hts' : t = select_i
        · rw [hts', ← hacc]; exact hlt
        · exact hmin t (by omega) hts htk
      · have hlt2 : select_i + 1 < fitness.length := by omega
        have e1 : (if select_i + 1 = first then select_i + 1 + 1 else select_i + 1)
            = select_i + 1 := if_neg hnext
        simp only [e1, List.getElem?_eq_getElem hlt2]
        have hacc' : accumulation + fitness[select_i + 1].1
            = eligibleSum fitness first (select_i + 1 + 1) := by
          rw [eligibleSum_succ, hacc, if_neg hnext, getD_fst_eq _ _ hlt2]
        obtain ⟨s, hs, hsk, hge, hle, hst, hmin⟩ :=
          ih (select_i + 1) _ hnext hacc' (by omega) (by omega)
        refine ⟨s, hs, hsk, by omega, hle, hst, fun t ht hts htk => ?_⟩
        by_cases hts' : t = select_i
        · rw [hts', ← hacc]; exact hlt
        · exact hmin t (by omega) hts htk
    · rw [if_neg hlt]
      refine ⟨select_i, rfl, hsel, le_refl _, hm, ?_, fun t ht hts _ => by omega⟩
      rw [← hacc]
      simpa using hlt

theorem eligibleSum_mono (fitness : List (Int × Nat)) (hnn : ∀ e ∈ fitness, 0 ≤ e.1)
    (k a b : Nat) (hab : a ≤ b) : eligibleSum fitness k a ≤ eligibleSum fitness k b := by
  induction b with
  | zero =>
    have : a = 0 := by omega
    rw [this]
  | succ b ih =>
    by_cases h : a = b + 1
    · rw [h]
    · have h1 := ih (by omega)
      have h2 := eligibleSum_succ fitness k b
      have h3 : 0 ≤ (if b = k then 0 else (fitness.getD b (0, 0)).1) := by
        split
        · exact le_refl _
        · rw [List.getD_eq_getElem?_getD]
          cases hn : fitness[b]? with
          | none => simp
          | some e => exact hnn e (List.getElem?_mem hn)
      omega

/-- The last index of the table other than `first`: the running sum there is the whole
eligible sum. -/
theorem last_eligible (fitness : List (Int × Nat)) (first : Nat) :
    ∃ m, m < 50 ∧ m ≠ first ∧ (if first = 0 then 1 else 0) ≤ m ∧ (first = 49 → m = 48) ∧
      eligibleSum fitness first (m + 1) = eligibleSum fitness first 50 := by
  by_cases h49 : first = 49
  · refine ⟨48, by omega, by omega, by split <;> omega, fun _ => rfl, ?_⟩
    have := eligibleSum_succ fitness first 49
    rw [if_pos h49.symm, add_zero] at this
    exact this.symm
  · exact ⟨49, by omega, by omega, by split <;> omega, fun h => absurd h h49, rfl⟩

/-- The index and the running sum the walk of `rws_select` starts from. -/
theorem walk_start (fitness : List (Int × Nat)) (hlen : fitness.length = 50) (first : Nat) :
    ∃ i0 e, (if first = 0 then 1 else 0) = i0 ∧ i0 ≠ first ∧ i0 ≤ 1 ∧
      fitness[i0]? = some e ∧ e.1 = eligibleSum fitness first (i0 + 1) := by
  by_cases h0 : first = 0
  · have h1 : 1 < fitness.length := by omega
    refine ⟨1, fitness[1], if_pos h0, by omega, le_refl _, List.getElem?_eq_getElem h1, ?_⟩
    rw [eligibleSum_succ, eligibleSum_succ, if_pos h0.symm, if_neg (by omega),
      getD_fst_eq _ _ h1]
    simp [eligibleSum]
  · have h1 : 0 < fitness.length := by omega
    refine ⟨0, fitness[0], if_neg h0, fun h => h0 h.symm, by omega,
      List.getElem?_eq_getElem h1, ?_⟩
    rw [eligibleSum_succ, if_neg (fun h => h0 h.symm), getD_fst_eq _ _ h1]
    simp [eligibleSum]

/-- With a draw in `[0, 1]` the cut-off `rndT * static_cast<float>(sum_fitness)` is not
above `static_cast<float>(sum_fitness)`: the test of the `while` loop is false once the
running sum is the whole sum. -/
theorem cut_off_stop (S : Int) (hS : 0 ≤ S) (r : Frac) (hr : r.InClosedUnit) :
    (Frac.ofInt S).lt (r.mul (Frac.ofInt S)) = false := by
  obtain ⟨hrep, hnum, _⟩ := Frac.ofInt_rep S hS
  have hle := Frac.mul_le_right r (Frac.ofInt S) hr.1 hr.2.1 hr.2.2 hnum
    (Frac.ofInt_den_pos S) hrep
  rw [Bool.eq_false_iff, Ne, Frac.lt_iff_toRat _ _ (Frac.ofInt_den_pos S) (Frac.mul_den_pos _ _),
    not_lt]
  exact hle

/-- Full description of `rws_select` for a draw in `[0, 1]`: it has a result `s`, found
without leaving the table, and `s` is the least index other than `first`, from the starting
index on, at which the test `static_cast<float>(accumulation) < cut_off` is false. -/
theorem rws_select_closed {G : Type} (L : Lib G) (fitness : List (Int × Nat))
    (hlen : fitness.length = 50) (hnn : ∀ e ∈ fitness, 0 ≤ e.1) (first : Nat) (g : G)
    (hr : (L.floatDist g).1.InClosedUnit) :
    ∃ s i0 e, rws_select L fitness first g = some (s, (L.floatDist g).2) ∧
      (if first = 0 then 1 else 0) = i0 ∧ fitness[i0]? = some e ∧
      rws_select.walk fitness first
        ((L.floatDist g).1.mul (Frac.ofInt (eligibleSum fitness first 50)))
        (fitness.length + 1) i0 e.1 = some s ∧
      s < 50 ∧ s ≠ first ∧ (first = 49 → s ≤ 48) ∧
      (Frac.ofInt (eligibleSum fitness first (s + 1))).lt
        ((L.floatDist g).1.mul (Frac.ofInt (eligibleSum fitness first 50))) = false ∧
      ∀ t, t < s → t ≠ first →
        (Frac.ofInt (eligibleSum fitness first (t + 1))).lt
          ((L.floatDist g).1.mul (Frac.ofInt (eligibleSum fitness first 50))) = true := by
  have hS := eligibleSum_nonneg fitness hnn first 50
  obtain ⟨m, hm50, hmk, hm0, hm49, hmS⟩ := last_eligible fitness first
  have hstop : (Frac.ofInt (eligibleSum fitness first (m + 1))).lt
      ((L.floatDist g).1.mul (Frac.ofInt (eligibleSum fitness first 50))) = false := by
    rw [hmS]
    exact cut_off_stop _ hS _ hr
  obtain ⟨i0, e, hi0, hsel, hi01, he, hacc⟩ := walk_start fitness hlen first
  rw [hi0] at hm0
  obtain ⟨s, hs, hsk, _, hsm, hst, hmin⟩ :=
    rws_select_walk_spec fitness first
      ((L.floatDist g).1.mul (Frac.ofInt (eligibleSum fitness first 50)))
      (fitness.length + 1) i0 e.1 m hsel hacc (by omega) hm0 (by omega) hmk hstop
  refine ⟨s, i0, e, ?_, hi0, he, hs, by omega, hsk, fun h => by have := hm49 h; omega, hst,
    fun t hts htk => ?_⟩
  · unfold rws_select
    rw [rws_select_sumLoop_eq fitness first (by unfold popSize; omega)]
    simp only [popSize, Option.pure_def, Option.bind_eq_bind, Option.some_bind, hi0, he, hs]
  · by_cases ht0 : i0 ≤ t
    · exact hmin t ht0 hts htk
    · -- below the starting index there is only the excluded index `0`
      exfalso
      have : i0 = 1 ∧ first = 0 := by
        by_cases h0 : first = 0
        · rw [if_pos h0] at hi0; omega
        · rw [if_neg h0] at hi0; omega
      omega

theorem Frac.InUnit.closed {a : Frac} (h : a.InUnit) : a.InClosedUnit := by
  unfold Frac.InUnit at h
  unfold Frac.InClosedUnit
  omega

/-- Description of `rws_select` with a valid library: a result `s` below 50 other than
`first`, the least index at which the test of the `while` loop is false. -/
theorem rws_select_spec {G : Type} (L : Lib G) (hL : L.Valid) (fitness : List (Int × Nat))
    (hlen : fitness.length = 50) (hnn : ∀ e ∈ fitness, 0 ≤ e.1) (first : Nat)
    (_hk : first ≤ 50) (g : G) :
    ∃ s, rws_select L fitness first g = some (s, (L.floatDist g).2) ∧ s < 50 ∧ s ≠ first ∧
      (Frac.ofInt (eligibleSum fitness first (s + 1))).lt
        ((L.floatDist g).1.mul (Frac.ofInt (eligibleSum fitness first 50))) = false ∧
      ∀ t, t < s → t ≠ first →
        (Frac.ofInt (eligibleSum fitness first (t + 1))).lt
          ((L.floatDist g).1.mul (Frac.ofInt (eligibleSum fitness first 50))) = true := by
  obtain ⟨s, _, _, hs, _, _, _, h50, hk, _, hst, hmin⟩ :=
    rws_select_closed L fitness hlen hnn first g (hL.floatDist_unit g).closed
  exact ⟨s, hs, h50, hk, hst, hmin⟩

/-! ## The concrete library is valid -/

theorem insertDesc_perm (a : Int × Nat) (l : List (Int × Nat)) :
    (insertDesc a l).Perm (a :: l) := by
  induction l with
  | nil => exact List.Perm.refl _
  | cons b l ih =>
    unfold insertDesc
    split
    · exact List.Perm.refl _
    · exact (List.Perm.cons b ih).trans (List.Perm.swap a b l)

theorem insertDesc_sorted (a : Int × Nat) (l : List (Int × Nat))
    (h : l.Pairwise (fun x y => y.1 ≤ x.1)) :
    (insertDesc a l).Pairwise (fun x y => y.1 ≤ x.1) := by
  induction l with
  | nil => simp [insertDesc]
  | cons b l ih =>
    unfold insertDesc
    rw [List.pairwise_cons] at h
    split
    · rename_i hba
      refine List.Pairwise.cons ?_ (List.Pairwise.cons h.1 h.2)
      intro y hy
      rcases List.mem_cons.mp hy with rfl | hy
      · exact hba
      · exact le_trans (h.1 y hy) hba
    · rename_i hba
      refine List.Pairwise.cons ?_ (ih h.2)
      intro y hy
      rcases List.mem_cons.mp ((insertDesc_perm a l).mem_iff.mp hy) with rfl | hy
      · omega
      · exact h.1 y hy

theorem insertionSort_perm (l : List (Int × Nat)) : (insertionSort l).Perm l := by
  induction l with
  | nil => exact List.Perm.refl _
  | cons a l ih => exact (insertDesc_perm a _).trans (List.Perm.cons a ih)

theorem insertionSort_sorted (l : List (Int × Nat)) :
    (insertionSort l).Pairwise (fun x y => y.1 ≤ x.1) := by
  induction l with
  | nil => simp [insertionSort]
  | cons a l ih => exact insertDesc_sorted a _ ih

theorem counterLib_valid : counterLib.Valid where
  floatDist_unit g := by
    simp only [counterLib, Frac.InUnit]
    omega
  intDist_range g := by
    simp only [counterLib]
    omega
  sort_perm := insertionSort_perm
  sort_sorted := insertionSort_sorted
  uninit_shape g := by
    simp only [counterLib, IsPopulation, List.length_replicate, true_and]
    intro ch hch
    rw [List.eq_of_mem_replicate hch, List.length_replicate]

/-! ## Claims on selection, crossover and mutation -/

/-- Claim C3. For every fitness table of `popSize = 50` non-negative scores, every random draw
`r` in `[0, 1)` (every valid library and generator state) and every exclude index `k` in
`[0, 49]`, `rws_select(k)` returns an index of the table different from `k`; hence the two
parents chosen in `reproduce` (`first = rws_select()`, `second = rws_select(first)`) are
two distinct population indices. -/
theorem rws_select_excludes {G : Type} (L : Lib G) (hL : L.Valid) (fitness : List (Int × Nat))
    (hlen : fitness.length = popSize) (hnn : ∀ e ∈ fitness, 0 ≤ e.1) (g : G) :
    (∀ k, k < popSize → ∃ s g', rws_select L fitness k g = some (s, g') ∧ s ≠ k ∧ s < popSize) ∧
    ∃ first g1 second g2,
      rws_select L fitness popSize g = some (first, g1) ∧
      rws_select L fitness first g1 = some (second, g2) ∧
      first < popSize ∧ second < popSize ∧ first ≠ second := by
  constructor
  · intro k hk
    obtain ⟨s, hs, hs50, hsk, _⟩ := rws_select_spec L hL fitness hlen hnn k (Nat.le_of_lt hk) g
    exact ⟨s, _, hs, hsk, hs50⟩
  · obtain ⟨first, h1, hf50, _, _⟩ := rws_select_spec L hL fitness hlen hnn popSize (le_refl _) g
    obtain ⟨second, h2, hs50, hne, _⟩ :=
      rws_select_spec L hL fitness hlen hnn first (Nat.le_of_lt hf50) (L.floatDist g).2
    exact ⟨first, _, second, _, h1, h2, hf50, hs50, fun h => hne h.symm⟩

theorem rws_select_excludes_witness :
    (∀ k, k < popSize → ∃ s g',
      rws_select counterLib (List.replicate 50 (1, 0)) k 7 = some (s, g') ∧ s ≠ k ∧ s < popSize) ∧
    rws_select counterLib (List.replicate 50 (1, 0)) 34 7 = some (35, 8) :=
  ⟨(rws_select_excludes counterLib counterLib_valid (List.replicate 50 (1, 0)) (by decide)
      (by decide) 7).1, by decide⟩

/-- Claim C6. For all parents `p1`, `p2` of length 8 and every crossover point `x` with
`0 ≤ x ≤ 8`, `crossover` returns exactly two offspring `A` and `B` of length 8 with
`A[i] = p1[i]` and `B[i] = p2[i]` for every `i < x`, and `A[i] = p2[i]` and `B[i] = p1[i]`
for every `i ≥ x` (so `A = p1[0:x] + p2[x:8]` and `B = p2[0:x] + p1[x:8]`). -/
theorem crossover_single_point (p1 p2 : List Int) (h1 : p1.length = 8) (h2 : p2.length = 8)
    (x : Nat) (hx : x ≤ 8) :
    ∃ A B, crossover x p1 p2 = some (A, B) ∧ A.length = 8 ∧ B.length = 8 ∧
      (∀ i : Nat, i < x → A[i]? = p1[i]? ∧ B[i]? = p2[i]?) ∧
      (∀ i : Nat, x ≤ i → i < 8 → A[i]? = p2[i]? ∧ B[i]? = p1[i]?) ∧
      A = p1.take x ++ p2.drop x ∧ B = p2.take x ++ p1.drop x := by
  refine ⟨_, _, crossover_eq x p1 p2 h1 h2 hx, ?_, ?_, ?_, ?_, rfl, rfl⟩
  · simp [h1, h2]; omega
  · simp [h1, h2]; omega
  · intro i hi
    have hl1 : i < (List.take x p1).length := by simp [h1]; omega
    have hl2 : i < (List.take x p2).length := by simp [h2]; omega
    rw [List.getElem?_append_left hl1, List.getElem?_append_left hl2,
      List.getElem?_take_of_lt hi, List.getElem?_take_of_lt hi]
    exact ⟨rfl, rfl⟩
  · intro i hi _
    have hl1 : (List.take x p1).length = x := by simp [h1]; omega
    have hl2 : (List.take x p2).length = x := by simp [h2]; omega
    rw [List.getElem?_append_right (by omega), List.getElem?_append_right (by omega), hl1, hl2]
    simp only [List.getElem?_drop]
    rw [show x + (i - x) = i by omega]
    exact ⟨rfl, rfl⟩

theorem crossover_single_point_witness :
    crossover 3 [1, 2, 3, 4, 5, 6, 7, 0] [7, 6, 5, 4, 3, 2, 1, 0]
      = some ([1, 2, 3, 4, 3, 2, 1, 0], [7, 6, 5, 4, 5, 6, 7, 0]) ∧
    ∃ A B, crossover 3 [1, 2, 3, 4, 5, 6, 7, 0] [7, 6, 5, 4, 3, 2, 1, 0] = some (A, B) ∧
      A.length = 8 ∧ B.length = 8 :=
  ⟨by decide,
    (crossover_single_point [1, 2, 3, 4, 5, 6, 7, 0] [7, 6, 5, 4, 3, 2, 1, 0] (by decide)
      (by decide) 3 (by decide)).imp fun _ hA => hA.imp fun _ hB => ⟨hB.1, hB.2.1, hB.2.2.1⟩⟩

theorem mutate_changes_exactly_triggered_witness :
    mutate counterLib 4 [0, 4, 7, 5, 2, 6, 1, 3] 17 = some ([0, 4, 7, 6, 2, 6, 1, 3], 27) ∧
    ([0, 4, 7, 6, 2, 6, 1, 3] : List Int).length = 8 :=
  ⟨by decide,
    (mutate_changes_exactly_triggered counterLib counterLib_valid 4 [0, 4, 7, 5, 2, 6, 1, 3]
      (by decide) (by decide) 17 [0, 4, 7, 6, 2, 6, 1, 3] 27 (by decide)).1⟩

theorem xover_point_bounds (rv : Nat) :
    1 ≤ reproduce.xover_point rv ∧ reproduce.xover_point rv ≤ 6 := by
  unfold reproduce.xover_point chromosome_length
  have := Nat.mod_lt rv (show 0 < 8 - 2 by decide)
  omega

/-- Claim C9. For every non-negative integer value `rv` returned by `rand()`, the crossover
point computed in `reproduce` as `1 + rand() % (chromosome_length - 2)` lies in
`[1, 6] = [1, N - 2]`, so each of the two offspring produced with it takes at least one
gene position from each parent: the part taken before the point and the part taken from
the point on are both non-empty. -/
theorem xover_point_range (rv : Nat) (p1 p2 : List Int) (h1 : p1.length = 8)
    (h2 : p2.length = 8) :
    1 ≤ reproduce.xover_point rv ∧ reproduce.xover_point rv ≤ 6 ∧
    chromosome_length - 2 = 6 ∧
    ∃ A B, crossover (reproduce.xover_point rv) p1 p2 = some (A, B) ∧
      A = p1.take (reproduce.xover_point rv) ++ p2.drop (reproduce.xover_point rv) ∧
      B = p2.take (reproduce.xover_point rv) ++ p1.drop (reproduce.xover_point rv) ∧
      0 < (p1.take (reproduce.xover_point rv)).length ∧
      0 < (p2.drop (reproduce.xover_point rv)).length ∧
      0 < (p2.take (reproduce.xover_point rv)).length ∧
      0 < (p1.drop (reproduce.xover_point rv)).length := by
  obtain ⟨hlo, hhi⟩ := xover_point_bounds rv
  refine ⟨hlo, hhi, rfl, _, _, crossover_eq _ p1 p2 h1 h2 (by omega), rfl, rfl, ?_, ?_, ?_, ?_⟩
  · simp [h1]; omega
  · simp [h2]; omega
  · simp [h2]; omega
  · simp [h1]; omega

theorem xover_point_range_witness :
    reproduce.xover_point 32767 = 2 ∧ 1 ≤ reproduce.xover_point 32767 ∧
    reproduce.xover_point 32767 ≤ 6 :=
  ⟨by decide,
    (xover_point_range 32767 [1, 2, 3, 4, 5, 6, 7, 0] [7, 6, 5, 4, 3, 2, 1, 0] (by decide)
      (by decide)).1,
    (xover_point_range 32767 [1, 2, 3, 4, 5, 6, 7, 0] [7, 6, 5, 4, 3, 2, 1, 0] (by decide)
      (by decide)).2.1⟩

/-! ## Sorting and evaluation: proofs -/

theorem sort_full {G : Type} (L : Lib G) (arr : List (Int × Nat)) (size : Nat)
    (h : arr.length = size) : sort L arr size = L.std_sort arr := by
  unfold sort
  rw [← h, List.take_length, List.drop_length, List.append_nil]

theorem sort_perm {G : Type} (L : Lib G) (hL : L.Valid) (arr : List (Int × Nat)) (size : Nat)
    (h : arr.length = size) : (sort L arr size).Perm arr := by
  rw [sort_full L arr size h]; exact hL.sort_perm arr

theorem sort_sorted {G : Type} (L : Lib G) (hL : L.Valid) (arr : List (Int × Nat)) (size : Nat)
    (h : arr.length = size) : (sort L arr size).Pairwise (fun a b => b.1 ≤ a.1) := by
  rw [sort_full L arr size h]; exact hL.sort_sorted arr

/-- Result of `EvaluatePop2`: only `fitness_off` changes, and its entry `i < popSize/2`
becomes the pair of the score of `chromosomes[i]` and `i`. -/
theorem EvaluatePop2_spec (chromosomes : List (List Int)) (s s' : State)
    (h : EvaluatePop2 chromosomes s = some s') :
    s' = { s with fitness_off := s'.fitness_off } ∧
    s'.fitness_off.length = s.fitness_off.length ∧
    popSize / 2 ≤ chromosomes.length ∧ popSize / 2 ≤ s.fitness_off.length ∧
    (∀ i : Nat, i < popSize / 2 →
      s'.fitness_off[i]? = (chromosomes[i]?).map (fun ch => (computeFit ch, i))) ∧
    (∀ i : Nat, popSize / 2 ≤ i → s'.fitness_off[i]? = s.fitness_off[i]?) := by
  unfold EvaluatePop2 at h
  have := forLoop_inv _
    (fun k (t : State) => t = { s with fitness_off := t.fitness_off } ∧
      t.fitness_off.length = s.fitness_off.length ∧
      k ≤ chromosomes.length ∧ k ≤ s.fitness_off.length ∧
      (∀ i : Nat, i < k →
        t.fitness_off[i]? = (chromosomes[i]?).map (fun ch => (computeFit ch, i))) ∧
      (∀ i : Nat, k ≤ i → t.fitness_off[i]? = s.fitness_off[i]?))
    (popSize / 2) 0 s s' ⟨rfl, rfl, Nat.zero_le _, Nat.zero_le _, by simp, by simp⟩ ?_ h
  · simpa using this
  · intro k t t' _ _ ⟨ht, hlen, _, _, hlo, hhi⟩ hb
    simp only [Option.bind_eq_some, Option.some.injEq] at hb
    obtain ⟨ch, hch, fo, hfo, rfl⟩ := hb
    obtain ⟨hk, rfl⟩ := writeAt_eq_some.mp hfo
    have hkc : k < chromosomes.length := by
      by_contra hcon
      rw [List.getElem?_eq_none (by omega)] at hch
      exact Option.noConfusion hch
    refine ⟨?_, by simp [hlen], by omega, by omega, fun i hi => ?_, fun i hi => ?_⟩
    · rw [ht]
    · by_cases hik : i = k
      · subst hik
        simp [List.getElem?_set, hk, hch]
      · rw [← hlo i (by omega)]
        simp [List.getElem?_set, Ne.symm hik]
    · rw [← hhi i (by omega)]
      simp only [List.getElem?_set]
      rw [if_neg (by omega)]

/-! ## Merging: proofs -/

theorem getElem?_set_self_of_lt {α : Type} (xs : List α) (i : Nat) (v : α) (h : i < xs.length) :
    (xs.set i v)[i]? = some v := by
  simp [List.getElem?_set, h]

/-- What one pass of the merge loop does at slot `i`: `x` is the score placed, `src` the
index of the chromosome `ch` placed, read from the old tables when `old` is true and from
the offspring tables otherwise. -/
theorem merge_slot_spec (new_pop chromosomes_copy : List (List Int))
    (fitness_copy : List (Int × Nat)) (i : Nat) (m m' : MergeState)
    (h : merge_population.slot new_pop chromosomes_copy fitness_copy i m = some m') :
    ∃ (old : Bool) (x : Int) (src : Nat) (ch : List Int),
      merge_population.takeOld fitness_copy m = some old ∧
      (if old = true then
          fitness_copy[m.old_p]? = some (x, src) ∧ chromosomes_copy[src]? = some ch ∧
          m'.old_p = m.old_p + 1 ∧ m'.new_p = m.new_p
        else
          m.s.fitness_off[m.new_p]? = some (x, src) ∧ new_pop[src]? = some ch ∧
          m'.old_p = m.old_p ∧ m'.new_p = m.new_p + 1) ∧
      i < m.s.chromosomes.length ∧ i < m.s.fitness.length ∧
      m'.s.chromosomes = m.s.chromosomes.set i ch ∧
      m'.s.fitness = m.s.fitness.set i (x, i) ∧
      m'.s.fitness_off = m.s.fitness_off ∧ m'.s.gen = m.s.gen ∧
      m'.s.xover_point = m.s.xover_point ∧
      (if i = 0 then
          m'.s.best_ = 0 ∧ m'.s.best_ind = ch ∧ m'.s.fit_best_ = x ∧
          m'.s.stuck = (if m.s.fit_best_ = x then m.s.stuck + 1 else 0)
        else
          m'.s.best_ = m.s.best_ ∧ m'.s.best_ind = m.s.best_ind ∧
          m'.s.fit_best_ = m.s.fit_best_ ∧ m'.s.stuck = m.s.stuck) := by
  unfold merge_population.slot at h
  simp only [Option.bind_eq_some] at h
  obtain ⟨old, hold, m1, hm1, m2, hm2, e2, he2, ft2, hft2, hres⟩ := h
  -- the placement
  have hplace : ∃ (x : Int) (src : Nat) (ch : List Int),
      (if old = true then
          fitness_copy[m.old_p]? = some (x, src) ∧ chromosomes_copy[src]? = some ch ∧
          m1.old_p = m.old_p + 1 ∧ m1.new_p = m.new_p
        else
          m.s.fitness_off[m.new_p]? = some (x, src) ∧ new_pop[src]? = some ch ∧
          m1.old_p = m.old_p ∧ m1.new_p = m.new_p + 1) ∧
      i < m.s.chromosomes.length ∧ i < m.s.fitness.length ∧
      ∃ k, m1.s = { m.s with chromosomes := m.s.chromosomes.set i ch,
                             fitness := m.s.fitness.set i (x, k) } := by
    cases old with
    | true =>
      simp only [if_true, Option.bind_eq_some, Option.some.injEq] at hm1
      obtain ⟨o, ho, ch, hch, cs, hcs, e, he, ft, hft, rfl⟩ := hm1
      obtain ⟨hi1, rfl⟩ := writeAt_eq_some.mp hcs
      obtain ⟨hi2, rfl⟩ := writeAt_eq_some.mp hft
      exact ⟨o.1, o.2, ch, by simp [ho, hch], hi1, hi2, e.2, rfl⟩
    | false =>
      simp only [Bool.false_eq_true, if_false, Option.bind_eq_some, Option.some.injEq] at hm1
      obtain ⟨o, ho, ch, hch, cs, hcs, e, he, ft, hft, rfl⟩ := hm1
      obtain ⟨hi1, rfl⟩ := writeAt_eq_some.mp hcs
      obtain ⟨hi2, rfl⟩ := writeAt_eq_some.mp hft
      exact ⟨o.1, o.2, ch, by simp [ho, hch], hi1, hi2, e.2, rfl⟩
  obtain ⟨x, src, ch, hsrc, hi1, hi2, k, hm1s⟩ := hplace
  have hp1 : m1.old_p = m'.old_p ∧ m1.new_p = m'.new_p := by
    simp only [Option.some.injEq] at hres
    subst hres
    split at hm2
    · simp only [Option.bind_eq_some, Option.some.injEq] at hm2
      obtain ⟨_, _, _, _, rfl⟩ := hm2
      exact ⟨rfl, rfl⟩
    · simp only [Option.some.injEq] at hm2
      subst hm2
      exact ⟨rfl, rfl⟩
  refine ⟨old, x, src, ch, hold, ?_, hi1, hi2, ?_⟩
  · rw [← hp1.1, ← hp1.2]; exact hsrc
  · simp only [Option.some.injEq] at hres
    subst hres
    obtain ⟨hi3, rfl⟩ := writeAt_eq_some.mp hft2
    by_cases hi0 : i = 0
    · simp only [hi0, if_true, Option.bind_eq_some, Option.some.injEq] at hm2 ⊢
      obtain ⟨c0, hc0, e0, he0, rfl⟩ := hm2
      subst hi0
      simp only [hm1s, getElem?_set_self_of_lt _ _ _ hi1, getElem?_set_self_of_lt _ _ _ hi2,
        Option.some.injEq] at hc0 he0 he2
      subst hc0 he0 he2
      simp [hm1s, List.set_set]
    · simp only [hi0, if_false, Option.some.injEq] at hm2 ⊢
      subst hm2
      simp only [hm1s, getElem?_set_self_of_lt _ _ _ hi2, Option.some.injEq] at he2
      subst he2
      simp [hm1s, List.set_set]

theorem mem_set_imp {α : Type} {P : α → Prop} {xs : List α} {i : Nat} {v : α}
    (hxs : ∀ x ∈ xs, P x) (hv : P v) : ∀ x ∈ xs.set i v, P x := by
  intro x hx
  rcases List.mem_or_eq_of_mem_set hx with h | h
  · exact hxs x h
  · exact h ▸ hv

/-- Every pass of the merge loop keeps the shape of the tables, a property `R` of the
rows and a property `Q` of the scores that hold of everything it copies from, and leaves
the offspring table, `gen` and `xover_point` alone. -/
theorem merge_slot_preserves (R : List Int → Prop) (Q : Int → Prop)
    (new_pop chromosomes_copy : List (List Int)) (fitness_copy : List (Int × Nat))
    (hcc : ∀ row ∈ chromosomes_copy, R row) (hnp : ∀ row ∈ new_pop, R row)
    (hfc : ∀ e ∈ fitness_copy, Q e.1) (i : Nat) (m m' : MergeState)
    (hfo : ∀ e ∈ m.s.fitness_off, Q e.1)
    (hrows : ∀ row ∈ m.s.chromosomes, R row)
    (hsc : ∀ e ∈ m.s.fitness, Q e.1 ∧ e.2 < m.s.fitness.length)
    (h : merge_population.slot new_pop chromosomes_copy fitness_copy i m = some m') :
    m'.s.chromosomes.length = m.s.chromosomes.length ∧
    m'.s.fitness.length = m.s.fitness.length ∧
    (∀ row ∈ m'.s.chromosomes, R row) ∧
    (∀ e ∈ m'.s.fitness, Q e.1 ∧ e.2 < m'.s.fitness.length) ∧
    m'.s.fitness_off = m.s.fitness_off ∧ m'.s.gen = m.s.gen ∧
    m'.s.xover_point = m.s.xover_point ∧
    (0 < i → m'.s.fitness[0]? = m.s.fitness[0]? ∧ m'.s.best_ = m.s.best_ ∧
      m'.s.best_ind = m.s.best_ind ∧ m'.s.fit_best_ = m.s.fit_best_ ∧
      m'.s.stuck = m.s.stuck) := by
  obtain ⟨old, x, src, ch, _, hsrc, hi1, hi2, hcs, hft, hfo', hgen, hxo, hbest⟩ :=
    merge_slot_spec new_pop chromosomes_copy fitness_copy i m m' h
  have hx : Q x ∧ R ch := by
    cases old with
    | true =>
      simp only [if_true] at hsrc
      exact ⟨hfc _ (List.getElem?_mem hsrc.1), hcc _ (List.getElem?_mem hsrc.2.1)⟩
    | false =>
      simp only [Bool.false_eq_true, if_false] at hsrc
      exact ⟨hfo _ (List.getElem?_mem hsrc.1), hnp _ (List.getElem?_mem hsrc.2.1)⟩
  refine ⟨by simp [hcs], by simp [hft], ?_, ?_, hfo', hgen, hxo, fun hi0 => ?_⟩
  · rw [hcs]; exact mem_set_imp hrows hx.2
  · rw [hft]
    simp only [List.length_set]
    exact mem_set_imp (P := fun (e : Int × Nat) => Q e.1 ∧ e.2 < m.s.fitness.length) hsc ⟨hx.1, hi2⟩
  · rw [if_neg (by omega)] at hbest
    refine ⟨?_, hbest⟩
    rw [hft, List.getElem?_set]
    rw [if_neg (by omega)]

/-- The passes of the merge loop for the slots from `a ≥ 1` on keep what
`merge_slot_preserves` lists, and also slot `0` of the fitness table and the best-so-far
fields. -/
theorem merge_loop_preserves (R : List Int → Prop) (Q : Int → Prop)
    (new_pop chromosomes_copy : List (List Int)) (fitness_copy : List (Int × Nat))
    (hcc : ∀ row ∈ chromosomes_copy, R row) (hnp : ∀ row ∈ new_pop, R row)
    (hfc : ∀ e ∈ fitness_copy, Q e.1) (n a : Nat) (ha : 0 < a) (m m' : MergeState)
    (hfo : ∀ e ∈ m.s.fitness_off, Q e.1)
    (hrows : ∀ row ∈ m.s.chromosomes, R row)
    (hsc : ∀ e ∈ m.s.fitness, Q e.1 ∧ e.2 < m.s.fitness.length)
    (h : forLoop (merge_population.slot new_pop chromosomes_copy fitness_copy) n a m
      = some m') :
    m'.s.chromosomes.length = m.s.chromosomes.length ∧
    m'.s.fitness.length = m.s.fitness.length ∧
    (∀ row ∈ m'.s.chromosomes, R row) ∧
    (∀ e ∈ m'.s.fitness, Q e.1 ∧ e.2 < m'.s.fitness.length) ∧
    m'.s.fitness_off = m.s.fitness_off ∧ m'.s.gen = m.s.gen ∧
    m'.s.xover_point = m.s.xover_point ∧
    m'.s.fitness[0]? = m.s.fitness[0]? ∧ m'.s.best_ = m.s.best_ ∧
    m'.s.best_ind = m.s.best_ind ∧ m'.s.fit_best_ = m.s.fit_best_ ∧
    m'.s.stuck = m.s.stuck := by
  refine forLoop_inv _
    (fun _ (t : MergeState) =>
      t.s.chromosomes.length = m.s.chromosomes.length ∧
      t.s.fitness.length = m.s.fitness.length ∧
      (∀ row ∈ t.s.chromosomes, R row) ∧
      (∀ e ∈ t.s.fitness, Q e.1 ∧ e.2 < t.s.fitness.length) ∧
      t.s.fitness_off = m.s.fitness_off ∧ t.s.gen = m.s.gen ∧
      t.s.xover_point = m.s.xover_point ∧
      t.s.fitness[0]? = m.s.fitness[0]? ∧ t.s.best_ = m.s.best_ ∧
      t.s.best_ind = m.s.best_ind ∧ t.s.fit_best_ = m.s.fit_best_ ∧
      t.s.stuck = m.s.stuck)
    n a m m' ⟨rfl, rfl, hrows, hsc, rfl, rfl, rfl, rfl, rfl, rfl, rfl, rfl⟩ ?_ h
  intro k t t' hk _ ⟨h1, h2, h3, h4, h5, h6, h7, h8, h9, h10, h11, h12⟩ hb
  obtain ⟨g1, g2, g3, g4, g5, g6, g7, g8⟩ :=
    merge_slot_preserves R Q new_pop chromosomes_copy fitness_copy hcc hnp hfc k t t'
      (by rw [h5]; exact hfo) h3 h4 hb
  obtain ⟨g8, g9, g10, g11, g12⟩ := g8 (by omega)
  exact ⟨g1.trans h1, g2.trans h2, g3, g4, g5.trans h5, g6.trans h6, g7.trans h7,
    g8.trans h8, g9.trans h9, g10.trans h10, g11.trans h11, g12.trans h12⟩

/-- Scores lie in `[0, 28]`. -/
theorem EvaluatePop2_scores (chromosomes : List (List Int)) (s s' : State)
    (hlen : s.fitness_off.length = popSize / 2)
    (h : EvaluatePop2 chromosomes s = some s') :
    ∀ e ∈ s'.fitness_off, 0 ≤ e.1 ∧ e.1 ≤ 28 := by
  obtain ⟨_, hl, _, _, hlo, _⟩ := EvaluatePop2_spec chromosomes s s' h
  intro e he
  obtain ⟨i, hi⟩ := List.getElem?_of_mem he
  have hi' : i < popSize / 2 := by
    by_contra hcon
    rw [List.getElem?_eq_none (by omega)] at hi
    exact Option.noConfusion hi
  rw [hlo i hi', Option.map_eq_some'] at hi
  obtain ⟨ch, _, rfl⟩ := hi
  exact computeFit_bounds ch

/-- The table `fitness_copy` the merge loop reads the old scores from. -/
theorem merge_population_spec {G : Type} (L : Lib G) (hL : L.Valid) (R : List Int → Prop)
    (new_pop : List (List Int)) (s s' : State)
    (hnp : ∀ row ∈ new_pop, R row)
    (hrows : ∀ row ∈ s.chromosomes, R row)
    (hfl : s.fitness.length = popSize) (hfol : s.fitness_off.length = popSize / 2)
    (hsc : ∀ e ∈ s.fitness, (0 ≤ e.1 ∧ e.1 ≤ 28) ∧ e.2 < popSize)
    (h : merge_population L new_pop s = some s') :
    s'.chromosomes.length = s.chromosomes.length ∧
    s'.fitness.length = popSize ∧ s'.fitness_off.length = popSize / 2 ∧
    (∀ row ∈ s'.chromosomes, R row) ∧
    (∀ e ∈ s'.fitness, (0 ≤ e.1 ∧ e.1 ≤ 28) ∧ e.2 < popSize) ∧
    s'.gen = s.gen ∧ s'.xover_point = s.xover_point ∧
    R s'.best_ind ∧ s'.best_ = 0 ∧
    (∃ e, s'.fitness[0]? = some e ∧ e.1 = s'.fit_best_) ∧
    (∀ o, (if s.gen = 1 then sort L s.fitness popSize else s.fitness)[0]? = some o →
      o.1 ≤ s'.fit_best_) ∧
    s'.stuck = (if s.fit_best_ = s'.fit_best_ then s.stuck + 1 else 0) ∧
    (0 ≤ s'.fit_best_ ∧ s'.fit_best_ ≤ 28) := by
  unfold merge_population at h
  simp only [Option.bind_eq_some] at h
  obtain ⟨s1, hs1, hfill⟩ := h
  obtain ⟨hs1eq, hs1len, _, _, _, _⟩ := EvaluatePop2_spec new_pop s s1 hs1
  have hs1sc := EvaluatePop2_scores new_pop s s1 hfol hs1
  have e_gen : s1.gen = s.gen := by rw [hs1eq]
  have e_fit : s1.fitness = s.fitness := by rw [hs1eq]
  have e_chr : s1.chromosomes = s.chromosomes := by rw [hs1eq]
  have e_fb : s1.fit_best_ = s.fit_best_ := by rw [hs1eq]
  have e_st : s1.stuck = s.stuck := by rw [hs1eq]
  have e_xo : s1.xover_point = s.xover_point := by rw [hs1eq]
  -- the state the loop starts from
  have h2fit : (merge_population.sortTables L s1).fitness
      = if s.gen = 1 then sort L s.fitness popSize else s.fitness := by
    unfold merge_population.sortTables
    rw [e_gen]; split <;> simp [e_fit]
  have h2off : (merge_population.sortTables L s1).fitness_off
      = sort L s1.fitness_off (popSize / 2) := by
    unfold merge_population.sortTables; split <;> rfl
  have h2chr : (merge_population.sortTables L s1).chromosomes = s.chromosomes := by
    unfold merge_population.sortTables; rw [← e_chr]; split <;> rfl
  have h2gen : (merge_population.sortTables L s1).gen = s.gen := by
    unfold merge_population.sortTables; rw [← e_gen]; split <;> rfl
  have h2fb : (merge_population.sortTables L s1).fit_best_ = s.fit_best_ := by
    unfold merge_population.sortTables; rw [← e_fb]; split <;> rfl
  have h2st : (merge_population.sortTables L s1).stuck = s.stuck := by
    unfold merge_population.sortTables; rw [← e_st]; split <;> rfl
  have h2xo : (merge_population.sortTables L s1).xover_point = s.xover_point := by
    unfold merge_population.sortTables; rw [← e_xo]; split <;> rfl
  generalize merge_population.sortTables L s1 = s2 at hfill h2fit h2off h2chr h2gen h2fb h2st h2xo
  unfold merge_population.fill at hfill
  simp only [Option.map_eq_some'] at hfill
  obtain ⟨mf, hloop, rfl⟩ := hfill
  have hperm : s2.fitness.Perm s.fitness := by
    rw [h2fit]; split
    · exact sort_perm L hL _ _ hfl
    · exact List.Perm.refl _
  have hpermo : s2.fitness_off.Perm s1.fitness_off := by
    rw [h2off]; exact sort_perm L hL _ _ (hs1len.trans hfol)
  have h2fl : s2.fitness.length = popSize := by rw [hperm.length_eq, hfl]
  have h2sc : ∀ e ∈ s2.fitness, (0 ≤ e.1 ∧ e.1 ≤ 28) ∧ e.2 < s2.fitness.length := by
    intro e he
    rw [h2fl]
    exact hsc e (hperm.mem_iff.mp he)
  have h2osc : ∀ e ∈ s2.fitness_off, 0 ≤ e.1 ∧ e.1 ≤ 28 := fun e he =>
    hs1sc e (hpermo.mem_iff.mp he)
  have h2rows : ∀ row ∈ s2.chromosomes, R row := by rw [h2chr]; exact hrows
  -- slot 0, then the slots from 1 on
  rw [show forLoop (merge_population.slot new_pop s2.chromosomes s2.fitness) popSize 0
      ⟨s2, 0, 0⟩ = _ from forLoop_add _ 1 49 0 _, Option.bind_eq_some] at hloop
  obtain ⟨m1, hslot0, hrest⟩ := hloop
  simp only [forLoop, Option.bind_eq_some, Option.some.injEq, exists_eq_right] at hslot0
  obtain ⟨a1, a2, a3, a4, a5, a6, a7, _⟩ :=
    merge_slot_preserves R (fun x => 0 ≤ x ∧ x ≤ 28) new_pop s2.chromosomes s2.fitness
      h2rows hnp (fun e he => (h2sc e he).1) 0 ⟨s2, 0, 0⟩ m1 h2osc h2rows h2sc hslot0
  obtain ⟨b1, b2, b3, b4, b5, b6, b7, b8, b9, b10, b11, b12⟩ :=
    merge_loop_preserves R (fun x => 0 ≤ x ∧ x ≤ 28) new_pop s2.chromosomes s2.fitness
      h2rows hnp (fun e he => (h2sc e he).1) 49 (0 + 1) (by omega) m1 mf
      (by rw [a5]; exact h2osc) a3 a4 hrest
  obtain ⟨old, x, src, ch, hold, hsrc, hi1, hi2, hcs, hft, _, _, _, hbest⟩ :=
    merge_slot_spec new_pop s2.chromosomes s2.fitness 0 ⟨s2, 0, 0⟩ m1 hslot0
  simp only [if_true] at hbest
  obtain ⟨c1, c2, c3, c4⟩ := hbest
  have hslot0fit : m1.s.fitness[0]? = some (x, 0) := by
    rw [hft]; exact getElem?_set_self_of_lt _ _ _ hi2
  -- the score placed in slot 0 is at least the head of the old table
  have hx : (∀ o, s2.fitness[0]? = some o → o.1 ≤ x) ∧ (0 ≤ x ∧ x ≤ 28) ∧ R ch := by
    unfold merge_population.takeOld at hold
    simp only [show ¬ (0 > popSize / 2 - 1) by decide, if_false, Option.bind_eq_some,
      Option.some.injEq] at hold
    obtain ⟨o, ho, n, hn, hdec⟩ := hold
    cases old with
    | true =>
      simp only [if_true] at hsrc
      have : o = (x, src) := by rw [ho] at hsrc; exact Option.some.inj hsrc.1
      subst this
      exact ⟨fun o' ho' => by rw [ho] at ho'; cases ho'; exact le_refl _,
        (h2sc _ (List.getElem?_mem ho)).1, h2rows _ (List.getElem?_mem hsrc.2.1)⟩
    | false =>
      simp only [Bool.false_eq_true, if_false] at hsrc
      have : n = (x, src) := by rw [hn] at hsrc; exact Option.some.inj hsrc.1
      subst this
      simp only [ge_iff_le, decide_eq_false_iff_not, not_le] at hdec
      exact ⟨fun o' ho' => by rw [ho] at ho'; cases ho'; exact le_of_lt hdec,
        h2osc _ (List.getElem?_mem hn), hnp _ (List.getElem?_mem hsrc.2.1)⟩
  have hfb : mf.s.fit_best_ = x := b11.trans c3
  refine ⟨?_, ?_, ?_, b3, ?_, ?_, ?_, ?_, ?_, ?_, ?_, ?_, ?_⟩
  · rw [b1, a1, h2chr]
  · rw [b2, a2, h2fl]
  · rw [b5, a5, hpermo.length_eq, hs1len, hfol]
  · intro e he
    have := b4 e he
    rw [b2, a2, h2fl] at this
    exact this
  · rw [b6, a6, h2gen]
  · rw [b7, a7, h2xo]
  · rw [b10, c2]; exact hx.2.2
  · rw [b9, c1]
  · exact ⟨(x, 0), by rw [b8, hslot0fit], hfb.symm⟩
  · intro o ho
    rw [← h2fit] at ho
    rw [hfb]; exact hx.1 o ho
  · rw [b12, c4, hfb, h2fb, h2st]
  · rw [hfb]; exact hx.2.1

/-! ## One generation: proofs -/

theorem mutate_length {G : Type} (L : Lib G) (hL : L.Valid) (fuel : Nat) (row : List Int)
    (g : G) (row' : List Int) (g' : G) (h : mutate L fuel row g = some (row', g')) :
    row'.length = row.length :=
  (mutate_loop_frame L hL fuel _ 0 row g row' g' h).1

theorem mutate_geneRange {G : Type} (L : Lib G) (hL : L.Valid) (fuel : Nat) (row : List Int)
    (g : G) (row' : List Int) (g' : G) (hrow : GeneRange row)
    (h : mutate L fuel row g = some (row', g')) : GeneRange row' := by
  refine forLoop_inv (mutate.gene L fuel) (fun _ t => GeneRange t.1) chromosome_length 0
    (row, g) (row', g') hrow ?_ h
  rintro k ⟨t1, t2⟩ ⟨u1, u2⟩ _ _ ht hb
  obtain ⟨_, hne, hgene⟩ := mutate_gene_spec L hL fuel k t1 t2 u1 u2 hb
  intro x hx
  obtain ⟨j, hj⟩ := List.getElem?_of_mem hx
  by_cases hjk : j = k
  · subst hjk
    split at hgene
    · obtain ⟨cur, v, _, hv, _, hr⟩ := hgene
      rw [hv] at hj
      cases hj
      exact hr
    · rw [hgene] at hx; exact ht x hx
  · rw [hne j hjk] at hj
    exact ht x (List.getElem?_mem hj)

/-- What `reproduce.place` does: the mutated child goes to row `reproduce_count`. -/
theorem reproduce_place_spec {G : Type} (L : Lib G) (fuel : Nat) (child : List Int)
    (t t' : SpawnState G) (h : reproduce.place L fuel child t = some t') :
    ∃ row, mutate L fuel child t.g = some (row, t'.g) ∧
      t.reproduce_count < t.new_pop.length ∧
      t'.new_pop = t.new_pop.set t.reproduce_count row ∧
      t'.reproduce_count = t.reproduce_count + 1 ∧ t'.s = t.s := by
  unfold reproduce.place at h
  simp only [Option.bind_eq_some, Option.some.injEq, Nat.add_sub_cancel] at h
  obtain ⟨np, hnp, row, hrow, r, hr, np2, hnp2, rfl⟩ := h
  obtain ⟨hi, rfl⟩ := writeAt_eq_some.mp hnp
  obtain ⟨_, rfl⟩ := writeAt_eq_some.mp hnp2
  rw [getElem?_set_self_of_lt _ _ _ hi] at hrow
  cases hrow
  exact ⟨r.1, hr, hi, by simp [List.set_set], rfl, rfl⟩

theorem reproduce_place_rows {G : Type} (L : Lib G) (fuel : Nat) (R : List Int → Prop)
    (hM : ∀ row g row' g', R row → mutate L fuel row g = some (row', g') → R row')
    (child : List Int) (hchild : R child) (t t' : SpawnState G)
    (hnp : ∀ (i : Nat) (row : List Int), i < t.reproduce_count → t.new_pop[i]? = some row → R row)
    (h : reproduce.place L fuel child t = some t') :
    (∀ (i : Nat) (row : List Int), i < t'.reproduce_count → t'.new_pop[i]? = some row → R row) ∧
    t'.new_pop.length = t.new_pop.length ∧ t'.reproduce_count = t.reproduce_count + 1 ∧
    t'.s = t.s := by
  obtain ⟨row1, hm1, hlt, hnp1, hc1, hs1⟩ := reproduce_place_spec L fuel _ _ _ h
  refine ⟨fun i row hi hrow => ?_, by rw [hnp1]; simp, hc1, hs1⟩
  rw [hnp1, List.getElem?_set] at hrow
  by_cases hic : t.reproduce_count = i
  · rw [if_pos hic] at hrow
    simp only [hlt, if_true, Option.some.injEq] at hrow
    rw [← hrow]
    exact hM _ _ _ _ hchild hm1
  · rw [if_neg hic] at hrow
    exact hnp i row (by omega) hrow

/-- The spawning loop fills the rows below `reproduce_count`, up to `popSize / 2` of them,
with rows satisfying every property `R` of the population's rows that crossover at a drawn
point and mutation preserve; it changes nothing of the globals but `xover_point`. -/
theorem reproduce_spawn_preserves {G : Type} (L : Lib G) (fuel : Nat) (R : List Int → Prop)
    (hX : ∀ rv p1 p2 A B, R p1 → R p2 →
      crossover (reproduce.xover_point rv) p1 p2 = some (A, B) → R A ∧ R B)
    (hM : ∀ row g row' g', R row → mutate L fuel row g = some (row', g') → R row')
    (n : Nat) (t t' : SpawnState G)
    (hrows : ∀ row ∈ t.s.chromosomes, R row)
    (hnp : ∀ (i : Nat) (row : List Int), i < t.reproduce_count → t.new_pop[i]? = some row → R row)
    (h : reproduce.spawn L fuel n t = some t') :
    (∀ (i : Nat) (row : List Int), i < t'.reproduce_count → t'.new_pop[i]? = some row → R row) ∧
    t'.new_pop.length = t.new_pop.length ∧ popSize / 2 ≤ t'.reproduce_count ∧
    t'.s = { t.s with xover_point := t'.s.xover_point } := by
  induction n generalizing t with
  | zero =>
    unfold reproduce.spawn at h
    split at h
    · exact Option.noConfusion h
    · cases h; exact ⟨hnp, rfl, by omega, rfl⟩
  | succ n ih =>
    unfold reproduce.spawn at h
    split at h
    · simp only [Option.bind_eq_some] at h
      obtain ⟨r1, _, r2, _, p1, hp1, p2, hp2, off, hoff, t1, ht1, hrest⟩ := h
      obtain ⟨hA, hB⟩ := hX _ p1 p2 off.1 off.2 (hrows _ (List.getElem?_mem hp1))
        (hrows _ (List.getElem?_mem hp2)) hoff
      obtain ⟨hR1, hl1, hc1, hs1⟩ := reproduce_place_rows L fuel R hM _ hA _ t1 (by exact hnp) ht1
      split at hrest
      · rename_i hfull
        cases hrest
        exact ⟨hR1, hl1, by omega, by rw [hs1]⟩
      · simp only [Option.bind_eq_some] at hrest
        obtain ⟨t2, ht2, hspawn⟩ := hrest
        obtain ⟨hR2, hl2, hc2, hs2⟩ := reproduce_place_rows L fuel R hM _ hB _ t2 (by exact hR1) ht2
        have hs2' : t2.s = { t.s with xover_point := t2.s.xover_point } := by
          rw [hs2, hs1]
        obtain ⟨i1, i2, i3, i4⟩ := ih t2 (by rw [hs2']; exact hrows) hR2 hspawn
        refine ⟨i1, i2.trans (hl2.trans hl1), i3, ?_⟩
        rw [i4, hs2']
    · cases h; exact ⟨hnp, rfl, by omega, rfl⟩

theorem crossover_length (rv : Nat) (p1 p2 A B : List Int)
    (h1 : p1.length = chromosome_length) (h2 : p2.length = chromosome_length)
    (h : crossover (reproduce.xover_point rv) p1 p2 = some (A, B)) :
    (A.length = chromosome_length ∧ ∀ x ∈ A, x ∈ p1 ∨ x ∈ p2) ∧
    (B.length = chromosome_length ∧ ∀ x ∈ B, x ∈ p1 ∨ x ∈ p2) := by
  obtain ⟨_, hx6⟩ := xover_point_bounds rv
  rw [crossover_eq _ p1 p2 h1 h2 (by omega)] at h
  simp only [Option.some.injEq, Prod.mk.injEq] at h
  obtain ⟨rfl, rfl⟩ := h
  unfold chromosome_length at *
  refine ⟨⟨by simp [h1, h2]; omega, fun x hx => ?_⟩, ⟨by simp [h1, h2]; omega, fun x hx => ?_⟩⟩
  · rcases List.mem_append.mp hx with h | h
    · exact Or.inl (List.mem_of_mem_take h)
    · exact Or.inr (List.mem_of_mem_drop h)
  · rcases List.mem_append.mp hx with h | h
    · exact Or.inr (List.mem_of_mem_take h)
    · exact Or.inl (List.mem_of_mem_drop h)

/-! ## Initialisation: proofs -/

/-- Result of `EvaluatePop`: entry `i < popSize` of `fitness` becomes the pair of the score
of `chromosomes[i]` and `i`; `best_` is an index of the highest score and `fit_best_` that
score; nothing else changes. -/
theorem EvaluatePop_spec (chromosomes : List (List Int)) (s s' : State)
    (h : EvaluatePop chromosomes s = some s') :
    s' = { s with fitness := s'.fitness, fit_best_ := s'.fit_best_, best_ := s'.best_ } ∧
    s'.fitness.length = s.fitness.length ∧
    popSize ≤ chromosomes.length ∧ popSize ≤ s.fitness.length ∧
    (∀ i : Nat, i < popSize →
      s'.fitness[i]? = (chromosomes[i]?).map (fun ch => (computeFit ch, i))) ∧
    (∀ i : Nat, popSize ≤ i → s'.fitness[i]? = s.fitness[i]?) ∧
    (s'.best_ < popSize ∧ ∃ ch, chromosomes[s'.best_]? = some ch ∧
      computeFit ch = s'.fit_best_) ∧
    (∀ (j : Nat) (ch : List Int), j < popSize → chromosomes[j]? = some ch →
      computeFit ch ≤ s'.fit_best_) := by
  unfold EvaluatePop at h
  simp only [Option.map_eq_some'] at h
  obtain ⟨⟨t, fit⟩, hloop, rfl⟩ := h
  have := forLoop_inv _
    (fun k (p : State × Int) =>
      p.1 = { s with fitness := p.1.fitness, fit_best_ := p.1.fit_best_, best_ := p.1.best_ } ∧
      p.1.fitness.length = s.fitness.length ∧
      k ≤ chromosomes.length ∧ k ≤ s.fitness.length ∧
      (∀ i : Nat, i < k →
        p.1.fitness[i]? = (chromosomes[i]?).map (fun ch => (computeFit ch, i))) ∧
      (∀ i : Nat, k ≤ i → p.1.fitness[i]? = s.fitness[i]?) ∧
      (k = 0 → p.2 = -1) ∧
      (0 < k → p.2 = p.1.fit_best_ ∧ p.1.best_ < k ∧
        ∃ ch, chromosomes[p.1.best_]? = some ch ∧ computeFit ch = p.1.fit_best_) ∧
      (∀ (j : Nat) (ch : List Int), j < k → chromosomes[j]? = some ch → computeFit ch ≤ p.2))
    popSize 0 (s, -1) (t, fit)
    ⟨rfl, rfl, Nat.zero_le _, Nat.zero_le _, by simp, by simp, by simp, by simp, by simp⟩
    ?_ hloop
  · simp only [zero_add] at this
    obtain ⟨h1, h2, h3, h4, h5, h6, _, h8, h9⟩ := this
    obtain ⟨e1, e2, e3⟩ := h8 (by decide)
    refine ⟨h1, h2, h3, h4, h5, h6, ⟨e2, e3⟩, fun j ch hj hch => ?_⟩
    rw [← e1]; exact h9 j ch hj hch
  · rintro k ⟨u, f⟩ ⟨u', f'⟩ _ _ ⟨hu, hlen, _, _, hlo, hhi, hk0, hkpos, hmax⟩ hb
    dsimp only at hu hlen hlo hhi hk0 hkpos hmax hb ⊢
    simp only [Option.bind_eq_some] at hb
    obtain ⟨ch, hch, ft, hft, hres⟩ := hb
    obtain ⟨hk, rfl⟩ := writeAt_eq_some.mp hft
    have hkc : k < chromosomes.length := by
      by_contra hcon
      rw [List.getElem?_eq_none (by omega)] at hch
      exact Option.noConfusion hch
    have hfit : ∀ i : Nat, i < k + 1 →
        (u.fitness.set k (computeFit ch, k))[i]?
          = (chromosomes[i]?).map (fun ch => (computeFit ch, i)) := by
      intro i hi
      by_cases hik : i = k
      · subst hik
        simp [List.getElem?_set, hk, hch]
      · rw [← hlo i (by omega)]
        simp [List.getElem?_set, Ne.symm hik]
    have hrest : ∀ i : Nat, k + 1 ≤ i →
        (u.fitness.set k (computeFit ch, k))[i]? = s.fitness[i]? := by
      intro i hi
      rw [← hhi i (by omega)]
      simp only [List.getElem?_set]
      rw [if_neg (by omega)]
    have hbnd := computeFit_bounds ch
    have hf : -1 ≤ f := by
      rcases Nat.eq_zero_or_pos k with h0 | hpos
      · rw [hk0 h0]
      · obtain ⟨e1, _, c0, _, e3⟩ := hkpos hpos
        have := computeFit_bounds c0
        omega
    split at hres
    · rename_i hgt
      simp only [Option.some.injEq, Prod.mk.injEq] at hres
      obtain ⟨rfl, rfl⟩ := hres
      refine ⟨by simp only; rw [hu], by simp [hlen], by omega, by omega, hfit, hrest,
        by omega, fun _ => ⟨rfl, Nat.lt_succ_self k, ch, hch, rfl⟩, fun j c hj hc => ?_⟩
      by_cases hjk : j = k
      · subst hjk
        rw [hch] at hc; cases hc; exact le_refl _
      · exact le_of_lt (lt_of_le_of_lt (hmax j c (by omega) hc) hgt)
    · rename_i hle
      simp only [Option.some.injEq, Prod.mk.injEq] at hres
      obtain ⟨rfl, rfl⟩ := hres
      have hkpos' : 0 < k := by
        rcases Nat.eq_zero_or_pos k with h0 | hpos
        · rw [hk0 h0] at hle; omega
        · exact hpos
      obtain ⟨e1, e2, e3⟩ := hkpos hkpos'
      refine ⟨by simp only; rw [hu], by simp [hlen], by omega, by omega, hfit, hrest,
        by omega, fun _ => ⟨e1, by simp only; omega, e3⟩, fun j c hj hc => ?_⟩
      by_cases hjk : j = k
      · subst hjk
        rw [hch] at hc; cases hc; omega
      · exact hmax j c (by omega) hc

theorem EvaluatePop_total (chromosomes : List (List Int)) (s : State)
    (hc : popSize ≤ chromosomes.length) (hf : popSize ≤ s.fitness.length) :
    ∃ s', EvaluatePop chromosomes s = some s' := by
  unfold EvaluatePop
  obtain ⟨p, hp, _⟩ := forLoop_total
    (fun i (p : State × Int) =>
      (chromosomes[i]?).bind fun c =>
      (writeAt p.1.fitness i (computeFit c, i)).bind fun ft =>
      if computeFit c > p.2 then
        some ({ p.1 with fitness := ft, fit_best_ := computeFit c, best_ := i }, computeFit c)
      else some ({ p.1 with fitness := ft }, p.2))
    (fun _ (p : State × Int) => p.1.fitness.length = s.fitness.length)
    popSize 0 (s, -1) rfl (by
      rintro k ⟨u, f⟩ _ hk hu
      dsimp only at hu ⊢
      have h1 : k < chromosomes.length := by omega
      have h2 : k < u.fitness.length := by omega
      simp only [List.getElem?_eq_getElem h1, writeAt, h2, if_true, Option.some_bind]
      split
      · exact ⟨_, rfl, by simp [hu]⟩
      · exact ⟨_, rfl, by simp [hu]⟩)
  exact ⟨p.1, by rw [hp]; rfl⟩

/-- The initialisation of `main` has a result on every population of `popSize` chromosomes
of `chromosome_length` genes. -/
theorem initialState_total (pop : List (List Int)) (hpop : IsPopulation popSize pop) :
    ∃ s, initialState pop = some s := by
  unfold initialState main.evaluate
  obtain ⟨s1, hs1⟩ := EvaluatePop_total pop { State.start with chromosomes := pop }
    (by rw [hpop.1]) (by simp [State.start])
  obtain ⟨h1, _, _, _, _, _, ⟨hb, _⟩, _⟩ := EvaluatePop_spec _ _ _ hs1
  have hchr : s1.chromosomes = pop := by rw [h1]
  have hlt : s1.best_ < s1.chromosomes.length := by rw [hchr, hpop.1]; exact hb
  refine ⟨{ s1 with best_ind := s1.chromosomes[s1.best_], gen := s1.gen + 1 }, ?_⟩
  simp only [hs1, Option.some_bind, List.getElem?_eq_getElem hlt]

/-- The state after the initialisation of `main`. -/
theorem initialState_spec (pop : List (List Int)) (hpop : IsPopulation popSize pop) (s : State)
    (h : initialState pop = some s) :
    s.Inv ∧ s.gen = 1 ∧ s.stuck = 0 ∧ s.chromosomes = pop ∧ s.best_ind ∈ pop ∧
    computeFit s.best_ind = s.fit_best_ ∧
    (∀ ch ∈ pop, computeFit ch ≤ s.fit_best_) ∧
    ∀ i : Nat, i < popSize → s.fitness[i]? = (pop[i]?).map (fun ch => (computeFit ch, i)) := by
  unfold initialState main.evaluate at h
  simp only [Option.bind_eq_some, Option.some.injEq] at h
  obtain ⟨s1, hs1, c, hc, rfl⟩ := h
  obtain ⟨h1, h2, _, _, h5, _, ⟨hb, cb, hcb, hcbf⟩, hmax⟩ := EvaluatePop_spec _ _ _ hs1
  have hchr : s1.chromosomes = pop := by rw [h1]
  have hgen : s1.gen = 0 := by rw [h1]; rfl
  have hstuck : s1.stuck = 0 := by rw [h1]; rfl
  have hfo : s1.fitness_off = List.replicate (popSize / 2) (0, 0) := by rw [h1]; rfl
  have hlen : s1.fitness.length = popSize := by rw [h2]; simp [State.start]
  rw [hchr] at hc
  have hcc : c = cb := by rw [hc] at hcb; exact Option.some.inj hcb
  subst hcc
  have hentry : ∀ e ∈ s1.fitness, ∃ (i : Nat) (ch : List Int), i < popSize ∧ pop[i]? = some ch ∧
      e = (computeFit ch, i) := by
    intro e he
    obtain ⟨i, hi⟩ := List.getElem?_of_mem he
    have hi' : i < popSize := by
      by_contra hcon
      rw [List.getElem?_eq_none (by omega)] at hi
      exact Option.noConfusion hi
    rw [h5 i hi', Option.map_eq_some'] at hi
    obtain ⟨ch, hch, rfl⟩ := hi
    exact ⟨i, ch, hi', hch, rfl⟩
  refine ⟨⟨by simp [hchr, hpop.1], by simp only [hchr]; exact hpop.2, hlen,
    by simp [hfo], ?_, by simp [hgen], ?_, by simp [hgen], by simp [hstuck]⟩,
    by simp [hgen], hstuck, hchr, List.getElem?_mem hc, hcbf, ?_, h5⟩
  · intro e he
    obtain ⟨i, ch, hi, _, rfl⟩ := hentry e he
    exact ⟨computeFit_bounds ch, hi⟩
  · refine ⟨(computeFit c, s1.best_), ?_, hcbf⟩
    have := h5 s1.best_ hb
    rw [hc] at this
    exact List.getElem?_mem this
  · intro ch hch
    obtain ⟨i, hi⟩ := List.getElem?_of_mem hch
    have hi' : i < popSize := by
      by_contra hcon
      rw [List.getElem?_eq_none (by rw [hpop.1]; omega)] at hi
      exact Option.noConfusion hi
    exact hmax i ch hi' hi

/-! ## The random fill of `main` -/

theorem geneRange_set {row : List Int} {j : Nat} {v : Int} (h : GeneRange row)
    (hv : 0 ≤ v ∧ v ≤ 7) : GeneRange (row.set j v) :=
  mem_set_imp h hv

/-- The random fill of `main` has a result: a population of `popSize` chromosomes of
`chromosome_length` genes, all in `[0, 7]`; the other globals are untouched. -/
theorem main_fill_spec {G : Type} (L : Lib G) (hL : L.Valid) (g : G) :
    ∃ pop g', main.fill L State.start g = some ({ State.start with chromosomes := pop }, g') ∧
      IsPopulation popSize pop ∧ ∀ ch ∈ pop, GeneRange ch := by
  have hgood : ∀ (p : State × G),
      (p.1 = { State.start with chromosomes := p.1.chromosomes } ∧
        IsPopulation popSize p.1.chromosomes ∧ ∀ ch ∈ p.1.chromosomes, GeneRange ch) →
      ∀ i, i < popSize → ∀ j, j < chromosome_length →
      ∃ p', ((p.1.chromosomes[i]?).bind fun row =>
          (writeAt row j (L.intDist p.2).1).bind fun row =>
          (writeAt p.1.chromosomes i row).bind fun cs =>
          some (({ p.1 with chromosomes := cs } : State), (L.intDist p.2).2)) = some p' ∧
        (p'.1 = { State.start with chromosomes := p'.1.chromosomes } ∧
          IsPopulation popSize p'.1.chromosomes ∧ ∀ ch ∈ p'.1.chromosomes, GeneRange ch) := by
    rintro ⟨u, gu⟩ ⟨hu, hpop, hgen⟩ i hi j hj
    dsimp only at hu hpop hgen ⊢
    have hil : i < u.chromosomes.length := by rw [hpop.1]; exact hi
    have hrow := hpop.2 _ (List.getElem_mem hil)
    have hjl : j < (u.chromosomes[i]).length := by rw [hrow]; exact hj
    refine ⟨(({ u with chromosomes := u.chromosomes.set i ((u.chromosomes[i]).set j
      (L.intDist gu).1) } : State), (L.intDist gu).2), ?_, ?_, ?_, ?_⟩
    · simp [List.getElem?_eq_getElem hil, writeAt, hjl, hil]
    · have e1 : u.best_ = State.start.best_ := by rw [hu]
      have e2 : u.gen = State.start.gen := by rw [hu]
      have e3 : u.stuck = State.start.stuck := by rw [hu]
      have e4 : u.fit_best_ = State.start.fit_best_ := by rw [hu]
      have e5 : u.xover_point = State.start.xover_point := by rw [hu]
      have e6 : u.best_ind = State.start.best_ind := by rw [hu]
      have e7 : u.fitness = State.start.fitness := by rw [hu]
      have e8 : u.fitness_off = State.start.fitness_off := by rw [hu]
      simp only [e1, e2, e3, e4, e5, e6, e7, e8]
    · exact ⟨by simp [hpop.1], mem_set_imp hpop.2 (by simp [hrow])⟩
    · exact mem_set_imp hgen (geneRange_set (hgen _ (List.getElem_mem hil))
        (hL.intDist_range gu))
  obtain ⟨p, hp, hI⟩ := forLoop_total
    (fun i (p : State × G) =>
      forLoop (fun j (p : State × G) =>
          (p.1.chromosomes[i]?).bind fun row =>
          (writeAt row j (L.intDist p.2).1).bind fun row =>
          (writeAt p.1.chromosomes i row).bind fun cs =>
          some ({ p.1 with chromosomes := cs }, (L.intDist p.2).2))
        chromosome_length 0 p)
    (fun _ (p : State × G) => p.1 = { State.start with chromosomes := p.1.chromosomes } ∧
      IsPopulation popSize p.1.chromosomes ∧ ∀ ch ∈ p.1.chromosomes, GeneRange ch)
    popSize 0 (State.start, g)
    ⟨rfl, (by decide : IsPopulation popSize State.start.chromosomes),
      (by decide : ∀ ch ∈ State.start.chromosomes, GeneRange ch)⟩
    (fun i p _ hi hp =>
      forLoop_total _
        (fun _ (p : State × G) => p.1 = { State.start with chromosomes := p.1.chromosomes } ∧
          IsPopulation popSize p.1.chromosomes ∧ ∀ ch ∈ p.1.chromosomes, GeneRange ch)
        chromosome_length 0 p hp
        (fun j q _ hj hq => hgood q hq i (by omega) j (by omega)))
  refine ⟨p.1.chromosomes, p.2, ?_, hI.2.1, hI.2.2⟩
  unfold main.fill
  rw [hp, ← hI.1]

/-- The initialisation part of `main` is `initialState` on the population the fill draws. -/
theorem main_init_spec {G : Type} (L : Lib G) (hL : L.Valid) (g : G) :
    ∃ pop g' s, IsPopulation popSize pop ∧ (∀ ch ∈ pop, GeneRange ch) ∧
      initialState pop = some s ∧ main.init L g = some (s, g') := by
  obtain ⟨pop, g', hfill, hpop, hgen⟩ := main_fill_spec L hL g
  obtain ⟨s, hs⟩ := initialState_total pop hpop
  refine ⟨pop, g', s, hpop, hgen, hs, ?_⟩
  unfold main.init
  rw [hfill]
  unfold initialState at hs
  simp only [Option.some_bind, hs, Option.map_some']

/-! ## The invariant of a run -/

theorem sorted_head_max (l : List (Int × Nat)) (h : l.Pairwise (fun a b => b.1 ≤ a.1))
    (o : Int × Nat) (ho : l[0]? = some o) : ∀ e ∈ l, e.1 ≤ o.1 := by
  cases l with
  | nil => simp at ho
  | cons a l =>
    simp only [List.getElem?_cons_zero, Option.some.injEq] at ho
    subst ho
    intro e he
    rcases List.mem_cons.mp he with rfl | he
    · exact le_refl _
    · exact (List.pairwise_cons.mp h).1 e he

/-- The offspring buffer of a generation: `popSize / 2` rows, every one written by the
spawning loop and satisfying every property `R` of the population's rows that crossover at
a drawn point and mutation preserve; the globals are unchanged but for `xover_point`. -/
theorem reproduce_offspring_spec {G : Type} (L : Lib G) (hL : L.Valid) (fuel : Nat)
    (R : List Int → Prop)
    (hX : ∀ rv p1 p2 A B, R p1 → R p2 →
      crossover (reproduce.xover_point rv) p1 p2 = some (A, B) → R A ∧ R B)
    (hM : ∀ row g row' g', R row → mutate L fuel row g = some (row', g') → R row')
    (s : State) (g : G) (t : SpawnState G) (hrows : ∀ row ∈ s.chromosomes, R row)
    (h : reproduce.offspring L fuel s g = some t) :
    (∀ row ∈ t.new_pop, R row) ∧ t.new_pop.length = popSize / 2 ∧
    t.s = { s with xover_point := t.s.xover_point } := by
  unfold reproduce.offspring at h
  obtain ⟨h1, h2, h3, h4⟩ := reproduce_spawn_preserves L fuel R hX hM _ _ t hrows
    (fun i row hi _ => absurd hi (Nat.not_lt_zero i)) h
  have hlen : t.new_pop.length = popSize / 2 := by rw [h2]; exact (hL.uninit_shape g).1
  refine ⟨fun row hrow => ?_, hlen, h4⟩
  obtain ⟨i, hi⟩ := List.getElem?_of_mem hrow
  have hilt : i < t.new_pop.length := by
    by_contra hcon
    rw [List.getElem?_eq_none (by omega)] at hi
    exact Option.noConfusion hi
  exact h1 i row (by omega) hi

theorem rows_crossover (rv : Nat) (p1 p2 A B : List Int)
    (h1 : p1.length = chromosome_length) (h2 : p2.length = chromosome_length)
    (h : crossover (reproduce.xover_point rv) p1 p2 = some (A, B)) :
    A.length = chromosome_length ∧ B.length = chromosome_length :=
  ⟨(crossover_length rv p1 p2 A B h1 h2 h).1.1, (crossover_length rv p1 p2 A B h1 h2 h).2.1⟩

/-- One generation keeps the invariant, never lowers `fit_best_`, counts the generation,
and updates `stuck` by the stagnation rule. -/
theorem reproduce_step_spec {G : Type} (L : Lib G) (hL : L.Valid) (fuel : Nat) (s : State)
    (g : G) (s' : State) (g' : G) (hs : s.Inv) (h : reproduce L fuel s g = some (s', g')) :
    s'.Inv ∧ s.fit_best_ ≤ s'.fit_best_ ∧ s'.gen = s.gen + 1 ∧
    s'.stuck = (if s.fit_best_ = s'.fit_best_ then s.stuck + 1 else 0) ∧
    (0 ≤ s'.fit_best_ ∧ s'.fit_best_ ≤ 28) := by
  unfold reproduce at h
  simp only [Option.bind_eq_some, Option.some.injEq, Prod.mk.injEq] at h
  obtain ⟨t, ht, sm, hmerge, rfl, rfl⟩ := h
  obtain ⟨hnp, _, hts⟩ := reproduce_offspring_spec L hL fuel
    (fun row => row.length = chromosome_length)
    (fun rv p1 p2 A B h1 h2 hc => rows_crossover rv p1 p2 A B h1 h2 hc)
    (fun row g row' g' hr hm => (mutate_length L hL fuel row g row' g' hm).trans hr)
    s g t hs.rows ht
  have e_chr : t.s.chromosomes = s.chromosomes := by rw [hts]
  have e_fit : t.s.fitness = s.fitness := by rw [hts]
  have e_fo : t.s.fitness_off = s.fitness_off := by rw [hts]
  have e_gen : t.s.gen = s.gen := by rw [hts]
  have e_fb : t.s.fit_best_ = s.fit_best_ := by rw [hts]
  have e_st : t.s.stuck = s.stuck := by rw [hts]
  obtain ⟨m1, m2, m3, m4, m5, m6, _, _, _, m10, m11, m12, m13⟩ :=
    merge_population_spec L hL (fun row => row.length = chromosome_length) t.new_pop t.s sm
      hnp (by rw [e_chr]; exact hs.rows) (by rw [e_fit]; exact hs.fitness_length)
      (by rw [e_fo]; exact hs.fitness_off_length) (by rw [e_fit]; exact hs.scores) hmerge
  rw [e_gen] at m6
  rw [e_gen, e_fit] at m11
  rw [e_fb, e_st] at m12
  have hgen := hs.gen_pos
  -- the head of the old table is at least the old best score
  have hmono : s.fit_best_ ≤ sm.fit_best_ := by
    by_cases hg1 : s.gen = 1
    · rw [if_pos hg1] at m11
      obtain ⟨e, he, hef⟩ := hs.best_in_table
      have hperm := sort_perm L hL s.fitness popSize hs.fitness_length
      have hlen : 0 < (sort L s.fitness popSize).length := by
        rw [hperm.length_eq, hs.fitness_length]; decide
      have ho := List.getElem?_eq_getElem hlen
      have := sorted_head_max _ (sort_sorted L hL s.fitness popSize hs.fitness_length) _ ho
        e (hperm.mem_iff.mpr he)
      rw [← hef]
      exact le_trans this (m11 _ ho)
    · rw [if_neg hg1] at m11
      obtain ⟨e, he, hef⟩ := hs.best_at_head hg1
      rw [← hef]; exact m11 e he
  refine ⟨⟨by simp only; rw [m1, e_chr]; exact hs.chromosomes_length, m4, m2, m3, m5,
    by simp only; omega, ?_, fun _ => m10, ?_⟩, hmono, by simp only; omega, m12, m13⟩
  · obtain ⟨e, he, hef⟩ := m10
    exact ⟨e, List.getElem?_mem he, hef⟩
  · simp only
    rw [m12]
    have := hs.stuck_nonneg
    split <;> omega

/-- Every reachable state satisfies the invariant. -/
theorem reachable_inv {G : Type} (L : Lib G) (hL : L.Valid) (pop : List (List Int))
    (hpop : IsPopulation popSize pop) (s : State) (h : Reachable L pop s) : s.Inv := by
  induction h with
  | init s hs => exact (initialState_spec pop hpop s hs).1
  | step fuel s g s' g' _ hstep ih => exact (reproduce_step_spec L hL fuel s g s' g' ih hstep).1

/-! ## Gene range -/

theorem rows_genes_crossover (rv : Nat) (p1 p2 A B : List Int)
    (h1 : p1.length = chromosome_length ∧ GeneRange p1)
    (h2 : p2.length = chromosome_length ∧ GeneRange p2)
    (h : crossover (reproduce.xover_point rv) p1 p2 = some (A, B)) :
    (A.length = chromosome_length ∧ GeneRange A) ∧
    (B.length = chromosome_length ∧ GeneRange B) := by
  obtain ⟨⟨a1, a2⟩, ⟨b1, b2⟩⟩ := crossover_length rv p1 p2 A B h1.1 h2.1 h
  refine ⟨⟨a1, fun x hx => ?_⟩, ⟨b1, fun x hx => ?_⟩⟩
  · rcases a2 x hx with h | h
    · exact h1.2 x h
    · exact h2.2 x h
  · rcases b2 x hx with h | h
    · exact h1.2 x h
    · exact h2.2 x h

/-- The offspring buffer of a generation from a population with genes in `[0, 7]` has
genes in `[0, 7]`. -/
theorem reproduce_offspring_genes {G : Type} (L : Lib G) (hL : L.Valid) (fuel : Nat)
    (s : State) (g : G) (t : SpawnState G)
    (hrows : ∀ row ∈ s.chromosomes, row.length = chromosome_length ∧ GeneRange row)
    (h : reproduce.offspring L fuel s g = some t) :
    (∀ row ∈ t.new_pop, row.length = chromosome_length ∧ GeneRange row) ∧
    t.s = { s with xover_point := t.s.xover_point } := by
  obtain ⟨h1, _, h3⟩ := reproduce_offspring_spec L hL fuel
    (fun row => row.length = chromosome_length ∧ GeneRange row)
    (fun rv p1 p2 A B h1 h2 hc => rows_genes_crossover rv p1 p2 A B h1 h2 hc)
    (fun row g row' g' hr hm => ⟨(mutate_length L hL fuel row g row' g' hm).trans hr.1,
      mutate_geneRange L hL fuel row g row' g' hr.2 hm⟩)
    s g t hrows h
  exact ⟨h1, h3⟩

/-- The merge of offspring with genes in `[0, 7]` into a population with genes in `[0, 7]`
leaves a population, and a best chromosome, with genes in `[0, 7]`. -/
theorem merge_population_genes {G : Type} (L : Lib G) (hL : L.Valid)
    (new_pop : List (List Int)) (s s' : State) (hs : s.Inv)
    (hnp : ∀ row ∈ new_pop, GeneRange row) (hrows : ∀ row ∈ s.chromosomes, GeneRange row)
    (h : merge_population L new_pop s = some s') :
    (∀ row ∈ s'.chromosomes, GeneRange row) ∧ GeneRange s'.best_ind := by
  obtain ⟨_, _, _, m4, _, _, _, m8, _⟩ :=
    merge_population_spec L hL GeneRange new_pop s s' hnp hrows hs.fitness_length
      hs.fitness_off_length hs.scores h
  exact ⟨m4, m8⟩

theorem reproduce_step_genes {G : Type} (L : Lib G) (hL : L.Valid) (fuel : Nat) (s : State)
    (g : G) (s' : State) (g' : G) (hs : s.Inv) (hrows : ∀ row ∈ s.chromosomes, GeneRange row)
    (h : reproduce L fuel s g = some (s', g')) :
    (∀ row ∈ s'.chromosomes, GeneRange row) ∧ GeneRange s'.best_ind := by
  unfold reproduce at h
  simp only [Option.bind_eq_some, Option.some.injEq, Prod.mk.injEq] at h
  obtain ⟨t, ht, sm, hmerge, rfl, rfl⟩ := h
  obtain ⟨hnp, hts⟩ := reproduce_offspring_genes L hL fuel s g t
    (fun row hrow => ⟨hs.rows row hrow, hrows row hrow⟩) ht
  have hts' : t.s.Inv := by
    rw [hts]
    exact ⟨hs.chromosomes_length, hs.rows, hs.fitness_length, hs.fitness_off_length, hs.scores,
      hs.gen_pos, hs.best_in_table, hs.best_at_head, hs.stuck_nonneg⟩
  exact merge_population_genes L hL t.new_pop t.s sm hts' (fun row hrow => (hnp row hrow).2)
    (by rw [hts]; exact hrows) hmerge

theorem reachable_genes {G : Type} (L : Lib G) (hL : L.Valid) (pop : List (List Int))
    (hpop : IsPopulation popSize pop) (hg : ∀ ch ∈ pop, GeneRange ch) (s : State)
    (h : Reachable L pop s) : (∀ row ∈ s.chromosomes, GeneRange row) ∧ GeneRange s.best_ind := by
  induction h with
  | init s hs =>
    obtain ⟨_, _, _, hchr, hbest, _⟩ := initialState_spec pop hpop s hs
    exact ⟨by rw [hchr]; exact hg, hg _ hbest⟩
  | step fuel s g s' g' hr hstep ih =>
    exact reproduce_step_genes L hL fuel s g s' g' (reachable_inv L hL pop hpop s hr) ih.1 hstep

/-! ## Worked example -/

theorem some_getD_of_isSome {α : Type} (o : Option α) (d : α) (h : o.isSome = true) :
    o = some (o.getD d) := by
  cases o with
  | none => exact Bool.noConfusion h
  | some a => rfl

set_option maxRecDepth 1000000 in
theorem examplePop_isPopulation :
    IsPopulation popSize examplePop ∧ ∀ ch ∈ examplePop, GeneRange ch := by decide

set_option maxRecDepth 1000000 in
theorem exampleStart_eq : initialState examplePop = some exampleStart := by decide

set_option maxRecDepth 1000000 in
theorem exampleNext_eq :
    reproduce counterLib 8 exampleStart 0 = some (exampleNext.1, exampleNext.2) := by
  rw [Prod.mk.eta]
  exact some_getD_of_isSome _ _ (by decide)

set_option maxRecDepth 1000000 in
theorem example_values :
    (exampleStart.fit_best_ = 0 ∧ exampleStart.stuck = 0 ∧ exampleStart.gen = 1) ∧
    (exampleNext.1.fit_best_ = 17 ∧ exampleNext.1.stuck = 0 ∧ exampleNext.1.gen = 2) := by
  decide

/-! ## Claims on the run -/

/-- Claim C4. For every state reachable from initialisation (`EvaluatePop` on any initial
population of `popSize` chromosomes, followed by any number of `reproduce` steps) and
every outcome of the random draws, the value of `fit_best_` after a `reproduce` step is
greater than or equal to its value before that step. -/
theorem fit_best_monotone {G : Type} (L : Lib G) (hL : L.Valid) (pop : List (List Int))
    (hpop : IsPopulation popSize pop) (s : State) (hr : Reachable L pop s) (fuel : Nat)
    (g : G) (s' : State) (g' : G) (h : reproduce L fuel s g = some (s', g')) :
    s.fit_best_ ≤ s'.fit_best_ :=
  (reproduce_step_spec L hL fuel s g s' g' (reachable_inv L hL pop hpop s hr) h).2.1

theorem fit_best_monotone_witness :
    exampleStart.fit_best_ = 0 ∧ exampleNext.1.fit_best_ = 17 ∧
    exampleStart.fit_best_ ≤ exampleNext.1.fit_best_ :=
  ⟨example_values.1.1, example_values.2.1,
    fit_best_monotone counterLib counterLib_valid examplePop examplePop_isPopulation.1
      exampleStart (Reachable.init exampleStart exampleStart_eq) 8 0 exampleNext.1
      exampleNext.2 exampleNext_eq⟩

/-- Claim C10. In every state reachable from an initial population whose genes all lie in
`[0, 7]`, every gene of every chromosome of the population, of every offspring built in
`reproduce`, and of `best_ind` lies in `[0, 7]`: crossover (at a drawn point), `mutate` and
`merge_population` preserve the range. -/
theorem genes_stay_in_range {G : Type} (L : Lib G) (hL : L.Valid) (pop : List (List Int))
    (hpop : IsPopulation popSize pop) (hg : ∀ ch ∈ pop, GeneRange ch) (s : State)
    (hr : Reachable L pop s) :
    (∀ ch ∈ s.chromosomes, GeneRange ch) ∧ GeneRange s.best_ind ∧
    (∀ fuel g t, reproduce.offspring L fuel s g = some t → ∀ ch ∈ t.new_pop, GeneRange ch) ∧
    (∀ rv A B, ∀ p1 ∈ s.chromosomes, ∀ p2 ∈ s.chromosomes,
      crossover (reproduce.xover_point rv) p1 p2 = some (A, B) → GeneRange A ∧ GeneRange B) ∧
    (∀ fuel row g row' g', GeneRange row → mutate L fuel row g = some (row', g') →
      GeneRange row') ∧
    (∀ new_pop s', (∀ ch ∈ new_pop, GeneRange ch) → merge_population L new_pop s = some s' →
      (∀ ch ∈ s'.chromosomes, GeneRange ch) ∧ GeneRange s'.best_ind) := by
  have hinv := reachable_inv L hL pop hpop s hr
  obtain ⟨h1, h2⟩ := reachable_genes L hL pop hpop hg s hr
  refine ⟨h1, h2, ?_, ?_, ?_, ?_⟩
  · intro fuel g t ht ch hch
    exact ((reproduce_offspring_genes L hL fuel s g t
      (fun row hrow => ⟨hinv.rows row hrow, h1 row hrow⟩) ht).1 ch hch).2
  · intro rv A B p1 hp1 p2 hp2 hc
    obtain ⟨hA, hB⟩ := rows_genes_crossover rv p1 p2 A B ⟨hinv.rows p1 hp1, h1 p1 hp1⟩
      ⟨hinv.rows p2 hp2, h1 p2 hp2⟩ hc
    exact ⟨hA.2, hB.2⟩
  · intro fuel row g row' g' hrow hm
    exact mutate_geneRange L hL fuel row g row' g' hrow hm
  · intro new_pop s' hnp hm
    exact merge_population_genes L hL new_pop s s' hinv hnp h1 hm

theorem genes_stay_in_range_witness :
    (∀ ch ∈ exampleNext.1.chromosomes, GeneRange ch) ∧ GeneRange exampleNext.1.best_ind :=
  ⟨(genes_stay_in_range counterLib counterLib_valid examplePop examplePop_isPopulation.1
      examplePop_isPopulation.2 exampleNext.1
      (Reachable.step 8 exampleStart 0 exampleNext.1 exampleNext.2
        (Reachable.init exampleStart exampleStart_eq) exampleNext_eq)).1,
    (genes_stay_in_range counterLib counterLib_valid examplePop examplePop_isPopulation.1
      examplePop_isPopulation.2 exampleNext.1
      (Reachable.step 8 exampleStart 0 exampleNext.1 exampleNext.2
        (Reachable.init exampleStart exampleStart_eq) exampleNext_eq)).2.1⟩

/-! ## The driver loop -/

theorem main_guard_iff (s : State) :
    main.guard s = true ↔ 28 - s.fit_best_ > 0 ∧ s.stuck < max_stuck := by
  unfold main.guard
  simp

theorem main_loop_stopped {G : Type} (L : Lib G) (fuel : Nat) (frames : Nat) (p : State × G)
    (h : main.guard p.1 = false) :
    main.loop L fuel frames p = some p ∧ main.steps L fuel frames p = 0 := by
  induction frames with
  | zero => exact ⟨rfl, rfl⟩
  | succ n ih =>
    unfold main.loop main.steps main.iter
    simp only [h, Bool.false_eq_true, if_false, Option.some_bind, zero_add]
    exact ih

/-- Invariant of the driver loop after `k` steps: the invariant of the run, `stuck` within
`[0, 700]`, `fit_best_` within `[0, 28]`, `gen = 1 + k`, and the potential
`700 * (28 - fit_best_) + (700 - stuck)` at most `20300 - k`. -/
theorem main_loop_inv {G : Type} (L : Lib G) (hL : L.Valid) (fuel : Nat) (frames : Nat)
    (p q : State × G) (k : Int) (hinv : p.1.Inv) (hst : p.1.stuck ≤ 700)
    (hfit : 0 ≤ p.1.fit_best_ ∧ p.1.fit_best_ ≤ 28) (hgen : p.1.gen = 1 + k)
    (hpot : k + 700 * (28 - p.1.fit_best_) + (700 - p.1.stuck) ≤ 20300)
    (h : main.loop L fuel frames p = some q) :
    q.1.Inv ∧ q.1.stuck ≤ 700 ∧ (0 ≤ q.1.fit_best_ ∧ q.1.fit_best_ ≤ 28) ∧
    q.1.gen = 1 + (k + (main.steps L fuel frames p : Int)) ∧
    (k + (main.steps L fuel frames p : Int)) + 700 * (28 - q.1.fit_best_) + (700 - q.1.stuck)
      ≤ 20300 ∧
    (main.guard q.1 = true → main.steps L fuel frames p = frames) := by
  induction frames generalizing p k with
  | zero =>
    simp only [main.loop, Option.some.injEq] at h
    subst h
    simp only [main.steps, Nat.cast_zero, add_zero]
    exact ⟨hinv, hst, hfit, hgen, hpot, fun _ => trivial⟩
  | succ n ih =>
    by_cases hgd : main.guard p.1 = true
    · unfold main.loop main.iter at h
      simp only [hgd, if_true, Option.bind_eq_some] at h
      obtain ⟨⟨s1, g1⟩, hstep, hloop⟩ := h
      obtain ⟨i1, i2, i3, i4, i5⟩ := reproduce_step_spec L hL fuel p.1 p.2 s1 g1 hinv hstep
      have hgd' := (main_guard_iff p.1).mp hgd
      unfold max_stuck at hgd'
      have hsteps : main.steps L fuel (n + 1) p = 1 + main.steps L fuel n (s1, g1) := by
        rw [main.steps]
        simp only [hgd, if_true, main.iter, hstep]
      have hst1 : s1.stuck ≤ 700 := by rw [i4]; split <;> omega
      have hpot1 : (k + 1) + 700 * (28 - s1.fit_best_) + (700 - s1.stuck) ≤ 20300 := by
        rw [i4]; split <;> omega
      obtain ⟨j1, j2, j3, j4, j5, j6⟩ := ih (s1, g1) (k + 1) i1 hst1 i5 (by rw [i3, hgen]; ring)
        hpot1 hloop
      rw [hsteps]
      push_cast
      refine ⟨j1, j2, j3, by rw [j4]; ring, by
        have : k + (1 + (main.steps L fuel n (s1, g1) : Int))
            = k + 1 + (main.steps L fuel n (s1, g1) : Int) := by ring
        rw [this]; exact j5, fun hq => by rw [j6 hq]; omega⟩
    · have hgd' : main.guard p.1 = false := by simpa using hgd
      obtain ⟨e1, e2⟩ := main_loop_stopped L fuel (n + 1) p hgd'
      rw [e1] at h
      cases h
      rw [e2]
      simp only [Nat.cast_zero, add_zero]
      exact ⟨hinv, hst, hfit, hgen, hpot, fun hq => absurd hq hgd⟩

/-- Claim C5. For every initial population of 50 chromosomes with genes in `[0, 7]` and every
sequence of random draws for which each individual step completes (`main.loop` has a
result), the driver loop (perform `reproduce` while `28 - fit_best_ > 0` and
`stuck < max_stuck = 700`) takes at most `29 * 700 = 20300` steps, however many passes
`frames` it makes; `stuck` never exceeds 700; and once the loop takes no step (which is
the case after 20300 passes at the latest) the state has `fit_best_ = 28` or
`stuck = 700`, and stays as it is. -/
theorem driver_stops {G : Type} (L : Lib G) (hL : L.Valid) (fuel : Nat)
    (pop : List (List Int)) (hpop : IsPopulation popSize pop)
    (_hg : ∀ ch ∈ pop, GeneRange ch) (s0 : State) (h0 : initialState pop = some s0) (g0 : G)
    (frames : Nat) (s : State) (g : G)
    (h : main.loop L fuel frames (s0, g0) = some (s, g)) :
    main.steps L fuel frames (s0, g0) ≤ 29 * 700 ∧
    s.gen = 1 + (main.steps L fuel frames (s0, g0) : Int) ∧
    (0 ≤ s.stuck ∧ s.stuck ≤ max_stuck) ∧
    (20300 ≤ frames → main.guard s = false) ∧
    (main.guard s = false →
      (s.fit_best_ = 28 ∨ s.stuck = max_stuck) ∧
      ∀ n, main.loop L fuel n (s, g) = some (s, g) ∧ main.steps L fuel n (s, g) = 0) := by
  obtain ⟨hinv, hgen, hstuck, _, _, _⟩ := initialState_spec pop hpop s0 h0
  obtain ⟨e, he, hef⟩ := hinv.best_in_table
  have hfit0 := (hinv.scores e he).1
  rw [hef] at hfit0
  obtain ⟨j1, j2, j3, j4, j5, j6⟩ := main_loop_inv L hL fuel frames (s0, g0) (s, g) 0 hinv
    (by simp only; omega) hfit0 (by simp only; omega) (by simp only; omega) h
  simp only [zero_add] at j4 j5
  have hnn := j1.stuck_nonneg
  have hguard : 20300 ≤ frames → main.guard s = false := by
    intro hfr
    by_contra hcon
    have hg1 : main.guard s = true := by simpa using hcon
    have := j6 hg1
    have hgd := (main_guard_iff s).mp hg1
    unfold max_stuck at hgd
    simp only at j5 j2 j3 hnn
    omega
  refine ⟨by simp only at j5 j2 j3 hnn; omega, j4, ⟨hnn, j2⟩, hguard, fun hgf => ⟨?_, ?_⟩⟩
  · have : ¬ (28 - s.fit_best_ > 0 ∧ s.stuck < max_stuck) := by
      rw [← main_guard_iff]; simp [hgf]
    unfold max_stuck at this ⊢
    simp only at j2 j3
    omega
  · intro n
    exact main_loop_stopped L fuel n (s, g) hgf

theorem driver_stops_witness :
    main.loop counterLib 8 1 (exampleStart, 0) = some (exampleNext.1, exampleNext.2) ∧
    main.steps counterLib 8 1 (exampleStart, 0) ≤ 29 * 700 ∧
    (0 ≤ exampleNext.1.stuck ∧ exampleNext.1.stuck ≤ max_stuck) := by
  have hrun : main.loop counterLib 8 1 (exampleStart, 0)
      = some (exampleNext.1, exampleNext.2) := by
    have hg : main.guard exampleStart = true := by
      rw [main_guard_iff, example_values.1.1, example_values.1.2.1]; decide
    simp only [main.loop, main.iter, hg, if_true, exampleNext_eq, Option.some_bind]
  have := driver_stops counterLib counterLib_valid 8 examplePop examplePop_isPopulation.1
    examplePop_isPopulation.2 exampleStart exampleStart_eq 0 1 exampleNext.1 exampleNext.2 hrun
  exact ⟨hrun, this.1, this.2.2.1⟩

/-! ## Selection with a draw in the closed unit interval -/

theorem Frac.InClosedUnit.toRat_le_one {a : Frac} (h : a.InClosedUnit) : a.toRat ≤ 1 := by
  unfold Frac.toRat
  have hd : (0 : ℚ) < (a.den : ℚ) := by exact_mod_cast h.2.2
  rw [div_le_one hd]
  exact_mod_cast h.2.1

/-- Claim C20. For every fitness table of 50 non-negative scores, every `r` in `[0, 1]` (the
draw `(L.floatDist g).1`) and every exclude value `k` in `[0, 50]`, the accumulation loop of
`rws_select` terminates (the walk has a result within its `fitness.length + 1` passes), reads
the fitness table only at indices in `[0, 49]` (no read falls outside the table) and
returns an index in `[0, 49]`, at most the last index other than `k`; this includes
`k = 49`, where the result is at most 48, so the walk never steps from 48 over 49 to 50, and
the case where `r` times the eligible sum equals the whole eligible sum: the cut-off is then
the `float` of the eligible sum, and the running sum at the index returned, as a `float`, is
not below it (the running sum itself is not below the eligible sum when that is below
`2 ^ 24`, where the conversions are exact). -/
theorem rws_select_stays_in_table {G : Type} (L : Lib G) (fitness : List (Int × Nat))
    (hlen : fitness.length = 50) (hnn : ∀ e ∈ fitness, 0 ≤ e.1) (k : Nat) (_hk : k ≤ 50)
    (g : G) (hr : (L.floatDist g).1.InClosedUnit) :
    ∃ s i0 e, rws_select L fitness k g = some (s, (L.floatDist g).2) ∧
      (if k = 0 then 1 else 0) = i0 ∧ fitness[i0]? = some e ∧
      rws_select.walk fitness k
        ((L.floatDist g).1.mul (Frac.ofInt (eligibleSum fitness k 50)))
        (fitness.length + 1) i0 e.1 = some s ∧
      s < 50 ∧ s ≠ k ∧ (k = 49 → s ≤ 48) ∧
      ((L.floatDist g).1.toRat * (eligibleSum fitness k 50 : ℚ) = (eligibleSum fitness k 50 : ℚ) →
        ((L.floatDist g).1.mul (Frac.ofInt (eligibleSum fitness k 50))).toRat
          = (Frac.ofInt (eligibleSum fitness k 50)).toRat ∧
        (Frac.ofInt (eligibleSum fitness k 50)).toRat
          ≤ (Frac.ofInt (eligibleSum fitness k (s + 1))).toRat ∧
        (eligibleSum fitness k 50 < 2 ^ 24 →
          (eligibleSum fitness k 50 : ℚ) ≤ (eligibleSum fitness k (s + 1) : ℚ))) := by
  have hS := eligibleSum_nonneg fitness hnn k 50
  obtain ⟨s, i0, e, hsel, hi0, he, hwalk, hs50, hsk, h49, hst, _⟩ :=
    rws_select_closed L fitness hlen hnn k g hr
  refine ⟨s, i0, e, hsel, hi0, he, hwalk, hs50, hsk, h49, fun heq => ?_⟩
  obtain ⟨hrep, hnum, _⟩ := Frac.ofInt_rep _ hS
  have hcut : ((L.floatDist g).1.mul (Frac.ofInt (eligibleSum fitness k 50))).toRat
      = (Frac.ofInt (eligibleSum fitness k 50)).toRat := by
    apply Frac.mul_eq_right _ _ hr.1 hr.2.2 hnum (Frac.ofInt_den_pos _) hrep
    by_cases h0 : eligibleSum fitness k 50 = 0
    · have : (Frac.ofInt (eligibleSum fitness k 50)).toRat = 0 := by
        rw [h0, Frac.ofInt_exact 0 (le_refl _) (by norm_num)]
        simp
      rw [this, mul_zero]
    · have hne : (eligibleSum fitness k 50 : ℚ) ≠ 0 := by exact_mod_cast h0
      have h1 : (L.floatDist g).1.toRat = 1 := by
        have := mul_right_cancel₀ hne (heq.trans (one_mul _).symm)
        exact this
      rw [h1, one_mul]
  have hge : (Frac.ofInt (eligibleSum fitness k 50)).toRat
      ≤ (Frac.ofInt (eligibleSum fitness k (s + 1))).toRat := by
    rw [← hcut, ← not_lt,
      ← Frac.lt_iff_toRat _ _ (Frac.ofInt_den_pos _) (Frac.mul_den_pos _ _), hst]
    simp
  refine ⟨hcut, hge, fun hsmall => ?_⟩
  have hmono := eligibleSum_mono fitness hnn k (s + 1) 50 (by omega)
  rw [Frac.ofInt_exact _ hS hsmall,
    Frac.ofInt_exact _ (eligibleSum_nonneg fitness hnn k (s + 1)) (by omega)] at hge
  exact hge

theorem rws_select_stays_in_table_witness :
    rws_select oneLib (List.replicate 50 (1, 0)) 49 7 = some (48, 8) ∧
    ∃ s i0 e, rws_select oneLib (List.replicate 50 (1, 0)) 49 7
        = some (s, (oneLib.floatDist 7).2) ∧
      (if 49 = 0 then 1 else 0) = i0 ∧ (List.replicate 50 ((1 : Int), 0))[i0]? = some e ∧ s < 50 :=
  ⟨by decide,
    (rws_select_stays_in_table oneLib (List.replicate 50 (1, 0)) (by decide) (by decide) 49
      (by decide) 7 (by decide)).imp fun _ h => h.imp fun _ h => h.imp fun _ h =>
        ⟨h.1, h.2.1, h.2.2.1, h.2.2.2.2.1⟩⟩

/-! ## The rounds of the spawning loop -/

theorem reproduce_place_count {G : Type} (L : Lib G) (fuel : Nat) (child : List Int)
    (t t' : SpawnState G) (h : reproduce.place L fuel child t = some t') :
    t'.reproduce_count = t.reproduce_count + 1 ∧ t'.new_pop.length = t.new_pop.length ∧
    t.reproduce_count < t.new_pop.length := by
  obtain ⟨_, _, hlt, hnp, hc, _⟩ := reproduce_place_spec L fuel child t t' h
  exact ⟨hc, by rw [hnp]; simp, hlt⟩

/-- A round of the loop of `reproduce` entered with fewer than `popSize / 2 - 1` rows filled
is a round contributing both children, followed by the rest of the loop. -/
theorem reproduce_spawn_full_round {G : Type} (L : Lib G) (fuel n : Nat) (t : SpawnState G)
    (h : t.reproduce_count + 1 < popSize / 2) :
    reproduce.spawn L fuel (n + 1) t
      = (spec_round L fuel true t).bind (reproduce.spawn L fuel n) := by
  rw [reproduce.spawn, if_pos (by omega)]
  unfold spec_round
  simp only [Option.bind_assoc]
  refine Option.bind_congr fun r1 _ => Option.bind_congr fun r2 _ => ?_
  refine Option.bind_congr fun p1 _ => Option.bind_congr fun p2 _ => ?_
  refine Option.bind_congr fun off _ => Option.bind_congr fun t1 ht1 => ?_
  have hc := (reproduce_place_count L fuel _ _ _ (Option.mem_def.mp ht1)).1
  have hne : ¬ t1.reproduce_count = popSize / 2 := by
    simp only at hc
    omega
  simp only [hne, if_false, if_true]

/-- The round of the loop of `reproduce` entered with `popSize / 2 - 1` rows filled is a
round contributing only its first child, and the last one. -/
theorem reproduce_spawn_last_round {G : Type} (L : Lib G) (fuel n : Nat) (t : SpawnState G)
    (h : t.reproduce_count + 1 = popSize / 2) :
    reproduce.spawn L fuel (n + 1) t = spec_round L fuel false t := by
  rw [reproduce.spawn, if_pos (by omega)]
  unfold spec_round
  refine Option.bind_congr fun r1 _ => Option.bind_congr fun r2 _ => ?_
  refine Option.bind_congr fun p1 _ => Option.bind_congr fun p2 _ => ?_
  refine Option.bind_congr fun off _ => Option.bind_congr fun t1 ht1 => ?_
  have hc := (reproduce_place_count L fuel _ _ _ (Option.mem_def.mp ht1)).1
  have heq : t1.reproduce_count = popSize / 2 := by
    simp only at hc
    omega
  simp only [heq, if_true, Bool.false_eq_true, if_false]

theorem spec_round_count {G : Type} (L : Lib G) (fuel : Nat) (both : Bool)
    (t t' : SpawnState G) (h : spec_round L fuel both t = some t') :
    t'.reproduce_count = t.reproduce_count + (if both then 2 else 1) ∧
    t'.new_pop.length = t.new_pop.length ∧ t'.reproduce_count ≤ t.new_pop.length := by
  unfold spec_round at h
  simp only [Option.bind_eq_some] at h
  obtain ⟨r1, _, r2, _, p1, _, p2, _, off, _, t1, ht1, hrest⟩ := h
  obtain ⟨c1, l1, b1⟩ := reproduce_place_count L fuel _ _ _ ht1
  cases both with
  | true =>
    simp only [if_true] at hrest ⊢
    obtain ⟨c2, l2, b2⟩ := reproduce_place_count L fuel _ _ _ hrest
    simp only at c1 l1 b1
    exact ⟨by omega, by omega, by omega⟩
  | false =>
    simp only [Bool.false_eq_true, if_false, Option.some.injEq] at hrest ⊢
    subst hrest
    simp only at c1 l1 b1
    exact ⟨by omega, by omega, by omega⟩

/-- With `j` full rounds and one last round to go, the loop of `reproduce` is those rounds. -/
theorem reproduce_spawn_rounds {G : Type} (L : Lib G) (fuel : Nat) (j n : Nat)
    (t : SpawnState G) (hc : t.reproduce_count + 2 * j + 1 = popSize / 2) (hn : j < n) :
    reproduce.spawn L fuel n t
      = (spec_rounds L fuel j t).bind (spec_round L fuel false) := by
  induction j generalizing n t with
  | zero =>
    obtain ⟨n', rfl⟩ : ∃ n', n = n' + 1 := ⟨n - 1, by omega⟩
    rw [reproduce_spawn_last_round L fuel n' t (by omega)]
    rfl
  | succ j ih =>
    obtain ⟨n', rfl⟩ : ∃ n', n = n' + 1 := ⟨n - 1, by omega⟩
    rw [reproduce_spawn_full_round L fuel n' t (by omega), spec_rounds, Option.bind_assoc]
    refine Option.bind_congr fun t1 ht1 => ?_
    have := (spec_round_count L fuel true t t1 (Option.mem_def.mp ht1)).1
    simp only [if_true] at this
    exact ih n' t1 (by omega) (by omega)

theorem reproduce_place_frame {G : Type} (L : Lib G) (fuel : Nat) (child : List Int)
    (t t' : SpawnState G) (h : reproduce.place L fuel child t = some t') :
    ∀ i : Nat, i < t.reproduce_count → t'.new_pop[i]? = t.new_pop[i]? := by
  obtain ⟨_, _, _, hnp, _, _⟩ := reproduce_place_spec L fuel child t t' h
  intro i hi
  rw [hnp, List.getElem?_set, if_neg (by omega)]

theorem spec_round_frame {G : Type} (L : Lib G) (fuel : Nat) (both : Bool)
    (t t' : SpawnState G) (h : spec_round L fuel both t = some t') :
    ∀ i : Nat, i < t.reproduce_count → t'.new_pop[i]? = t.new_pop[i]? := by
  unfold spec_round at h
  simp only [Option.bind_eq_some] at h
  obtain ⟨r1, _, r2, _, p1, _, p2, _, off, _, t1, ht1, hrest⟩ := h
  have f1 := reproduce_place_frame L fuel _ _ _ ht1
  have c1 := (reproduce_place_count L fuel _ _ _ ht1).1
  simp only at f1 c1
  intro i hi
  cases both with
  | true =>
    simp only [if_true] at hrest
    rw [reproduce_place_frame L fuel _ _ _ hrest i (by omega), f1 i hi]
  | false =>
    simp only [Bool.false_eq_true, if_false, Option.some.injEq] at hrest
    subst hrest
    exact f1 i hi

theorem spec_rounds_count_frame {G : Type} (L : Lib G) (fuel : Nat) (j : Nat)
    (t t' : SpawnState G) (h : spec_rounds L fuel j t = some t') :
    t'.reproduce_count = t.reproduce_count + 2 * j ∧
    t'.new_pop.length = t.new_pop.length ∧
    ∀ i : Nat, i < t.reproduce_count → t'.new_pop[i]? = t.new_pop[i]? := by
  induction j generalizing t with
  | zero =>
    simp only [spec_rounds, Option.some.injEq] at h
    subst h
    exact ⟨rfl, rfl, fun _ _ => rfl⟩
  | succ j ih =>
    simp only [spec_rounds, Option.bind_eq_some] at h
    obtain ⟨t1, ht1, hrest⟩ := h
    obtain ⟨c1, l1, _⟩ := spec_round_count L fuel true t t1 ht1
    simp only [if_true] at c1
    obtain ⟨c2, l2, f2⟩ := ih t1 hrest
    refine ⟨by omega, by omega, fun i hi => ?_⟩
    rw [f2 i (by omega), spec_round_frame L fuel true t t1 ht1 i hi]

theorem spec_rounds_add {G : Type} (L : Lib G) (fuel : Nat) (a b : Nat) (t : SpawnState G) :
    spec_rounds L fuel (a + b) t = (spec_rounds L fuel a t).bind (spec_rounds L fuel b) := by
  induction a generalizing t with
  | zero => simp [spec_rounds]
  | succ a ih =>
    rw [Nat.add_right_comm, spec_rounds, spec_rounds, Option.bind_assoc]
    exact Option.bind_congr fun t1 _ => ih t1

/-- Claim C15. Every `reproduce` step builds exactly `popSize / 2 = 25` offspring from
exactly 13 rounds of (select two parents, pick a crossover point, crossover): the loop of
`reproduce` is `spec_offspring`, that is 12 rounds each contributing both children, mutated,
first child then second child, followed by a 13th round contributing only its mutated first
child, the second child being discarded.  After `k` rounds `2 * k` rows are filled, and they
stay as they are in the final buffer. -/
theorem reproduce_thirteen_rounds {G : Type} (L : Lib G) (fuel : Nat) (s : State) (g : G) :
    reproduce.offspring L fuel s g = spec_offspring L fuel s g ∧
    popSize / 2 = 25 ∧
    ∀ t, reproduce.offspring L fuel s g = some t →
      t.reproduce_count = popSize / 2 ∧ t.new_pop.length = (L.uninit g).length ∧
      ∃ t12, spec_rounds L fuel 12 ⟨L.uninit g, 0, s, g⟩ = some t12 ∧
        spec_round L fuel false t12 = some t ∧
        ∀ k tk, k ≤ 12 → spec_rounds L fuel k ⟨L.uninit g, 0, s, g⟩ = some tk →
          tk.reproduce_count = 2 * k ∧
          ∀ i : Nat, i < 2 * k → t.new_pop[i]? = tk.new_pop[i]? := by
  have heq : reproduce.offspring L fuel s g = spec_offspring L fuel s g :=
    reproduce_spawn_rounds L fuel 12 (popSize / 2) ⟨L.uninit g, 0, s, g⟩
      (by simp only [popSize]) (by decide)
  refine ⟨heq, rfl, fun t ht => ?_⟩
  rw [heq] at ht
  unfold spec_offspring at ht
  simp only [Option.bind_eq_some] at ht
  obtain ⟨t12, h12, hlast⟩ := ht
  obtain ⟨c12, l12, _⟩ := spec_rounds_count_frame L fuel 12 _ t12 h12
  obtain ⟨cl, ll, _⟩ := spec_round_count L fuel false t12 t hlast
  simp only [Bool.false_eq_true, if_false] at cl c12 l12
  refine ⟨by rw [cl, c12]; rfl, by rw [ll, l12], t12, h12, hlast, fun k tk hk hkr => ?_⟩
  obtain ⟨ck, _, _⟩ := spec_rounds_count_frame L fuel k _ tk hkr
  simp only at ck
  refine ⟨by omega, fun i hi => ?_⟩
  have hsplit : spec_rounds L fuel 12 ⟨L.uninit g, 0, s, g⟩
      = (spec_rounds L fuel k ⟨L.uninit g, 0, s, g⟩).bind (spec_rounds L fuel (12 - k)) := by
    rw [← spec_rounds_add]
    congr 1
    omega
  rw [hsplit, hkr, Option.some_bind] at h12
  obtain ⟨_, _, fr⟩ := spec_rounds_count_frame L fuel (12 - k) tk t12 h12
  rw [spec_round_frame L fuel false t12 t hlast i (by omega), fr i (by omega)]


theorem example_offspring :
    ∃ t, reproduce.offspring counterLib 8 exampleStart 0 = some t ∧
      merge_population counterLib t.new_pop t.s = some { exampleNext.1 with
        gen := exampleNext.1.gen - 1 } := by
  have h := exampleNext_eq
  unfold reproduce at h
  simp only [Option.bind_eq_some, Option.some.injEq, Prod.mk.injEq] at h
  obtain ⟨t, ht, sm, hm, hs, _⟩ := h
  refine ⟨t, ht, ?_⟩
  rw [hm, ← hs]
  simp

theorem reproduce_thirteen_rounds_witness :
    ∃ t, reproduce.offspring counterLib 8 exampleStart 0 = some t ∧
      spec_offspring counterLib 8 exampleStart 0 = some t ∧ t.reproduce_count = 25 := by
  obtain ⟨t, ht, _⟩ := example_offspring
  have h := reproduce_thirteen_rounds counterLib 8 exampleStart 0
  exact ⟨t, ht, h.1 ▸ ht, (h.2.2 t ht).1⟩

/-! ## The merge loop and the interleave -/

/-- The two cases of the test of the merge loop. -/
theorem merge_takeOld_spec (fitness_copy : List (Int × Nat)) (m : MergeState) (old : Bool)
    (h : merge_population.takeOld fitness_copy m = some old) :
    (m.new_p > popSize / 2 - 1 ∧ old = true) ∨
    (m.new_p ≤ popSize / 2 - 1 ∧ ∃ o f, fitness_copy[m.old_p]? = some o ∧
      m.s.fitness_off[m.new_p]? = some f ∧ old = decide (f.1 ≤ o.1)) := by
  unfold merge_population.takeOld at h
  split at h
  · rename_i hgt
    simp only [Option.some.injEq] at h
    exact Or.inl ⟨hgt, h.symm⟩
  · rename_i hle
    simp only [Option.bind_eq_some, Option.some.injEq] at h
    obtain ⟨o, ho, f, hf, hd⟩ := h
    exact Or.inr ⟨by omega, o, f, ho, hf, hd.symm⟩

theorem drop_map_fst_of_getElem? (l : List (Int × Nat)) (k : Nat) (e : Int × Nat)
    (h : l[k]? = some e) :
    (l.map Prod.fst).drop k = e.1 :: (l.map Prod.fst).drop (k + 1) := by
  have hk : k < l.length := by
    by_contra hcon
    rw [List.getElem?_eq_none (by omega)] at h
    exact Option.noConfusion h
  rw [List.getElem?_eq_getElem hk, Option.some.injEq] at h
  rw [List.drop_eq_getElem_cons (by simpa using hk)]
  simp [h]

/-- The scores the merge loop writes into the slots `i, …, i + n - 1` are the first `n`
scores of the interleave of the remaining old scores and the remaining offspring scores;
the other slots of the fitness table are left alone, and a slot is taken from exactly one
pool. -/
theorem merge_loop_scores (new_pop chromosomes_copy : List (List Int))
    (fitness_copy : List (Int × Nat)) (n i : Nat) (m m' : MergeState)
    (hfo : m.s.fitness_off.length = popSize / 2)
    (h : forLoop (merge_population.slot new_pop chromosomes_copy fitness_copy) n i m
      = some m') :
    m'.old_p + m'.new_p = m.old_p + m.new_p + n ∧ m.old_p ≤ m'.old_p ∧ m.new_p ≤ m'.new_p ∧
    (m.new_p ≤ popSize / 2 → m'.new_p ≤ popSize / 2) ∧
    m'.s.fitness_off = m.s.fitness_off ∧
    (∀ j : Nat, j < n → ∃ x,
      ((spec_interleave ((fitness_copy.map Prod.fst).drop m.old_p)
        ((m.s.fitness_off.map Prod.fst).drop m.new_p)).take n)[j]? = some x ∧
      m'.s.fitness[i + j]? = some (x, i + j)) ∧
    (∀ j : Nat, (j < i ∨ i + n ≤ j) → m'.s.fitness[j]? = m.s.fitness[j]?) := by
  induction n generalizing i m with
  | zero =>
    simp only [forLoop, Option.some.injEq] at h
    subst h
    exact ⟨rfl, le_refl _, le_refl _, id, rfl, fun j hj => absurd hj (Nat.not_lt_zero j),
      fun _ _ => rfl⟩
  | succ n ih =>
    rw [forLoop_succ, Option.bind_eq_some] at h
    obtain ⟨m1, hslot, hrest⟩ := h
    obtain ⟨old, x, src, ch, hold, hsrc, _, hi2, _, hft, hfo1, _, _, _⟩ :=
      merge_slot_spec new_pop chromosomes_copy fitness_copy i m m1 hslot
    obtain ⟨a1, a2, a3, a4, a5, a6, a7⟩ := ih (i + 1) m1 (by rw [hfo1]; exact hfo) hrest
    -- the head of the interleave is the score placed, its tail the interleave of what remains
    have hhead : spec_interleave ((fitness_copy.map Prod.fst).drop m.old_p)
          ((m.s.fitness_off.map Prod.fst).drop m.new_p)
        = x :: spec_interleave ((fitness_copy.map Prod.fst).drop m1.old_p)
          ((m1.s.fitness_off.map Prod.fst).drop m1.new_p) ∧
        m1.old_p + m1.new_p = m.old_p + m.new_p + 1 ∧ m.old_p ≤ m1.old_p ∧
        m.new_p ≤ m1.new_p ∧ (m.new_p ≤ popSize / 2 → m1.new_p ≤ popSize / 2) := by
      rw [hfo1]
      rcases merge_takeOld_spec fitness_copy m old hold with ⟨hgt, rfl⟩ | ⟨hle, o, f, ho, hf, rfl⟩
      · simp only [if_true] at hsrc
        obtain ⟨hfc, _, e1, e2⟩ := hsrc
        have hnil : (m.s.fitness_off.map Prod.fst).drop m.new_p = [] := by
          rw [List.drop_eq_nil_iff]
          simp only [List.length_map, hfo]
          unfold popSize at hgt ⊢
          omega
        rw [e1, e2, hnil, drop_map_fst_of_getElem? _ _ _ hfc]
        unfold spec_interleave
        simp only [List.merge_right]
        exact ⟨trivial, by omega, by omega, by omega, id⟩
      · by_cases hdec : f.1 ≤ o.1
        · simp only [hdec, decide_True, if_true] at hsrc
          obtain ⟨hfc, _, e1, e2⟩ := hsrc
          have hox : o = (x, src) := by rw [ho] at hfc; exact Option.some.inj hfc
          subst hox
          rw [e1, e2, drop_map_fst_of_getElem? _ _ _ ho, drop_map_fst_of_getElem? _ _ _ hf]
          unfold spec_interleave
          rw [List.cons_merge_cons_pos _ _ _ (by simpa using hdec)]
          exact ⟨rfl, by omega, by omega, by omega, id⟩
        · simp only [hdec, decide_False, Bool.false_eq_true, if_false] at hsrc
          obtain ⟨hfc, _, e1, e2⟩ := hsrc
          have hfx : f = (x, src) := by rw [hf] at hfc; exact Option.some.inj hfc
          subst hfx
          rw [e1, e2, drop_map_fst_of_getElem? _ _ _ ho, drop_map_fst_of_getElem? _ _ _ hf]
          unfold spec_interleave
          rw [List.cons_merge_cons_neg _ _ _ (by simpa using hdec),
            ← drop_map_fst_of_getElem? _ _ _ ho]
          unfold popSize at hle ⊢
          exact ⟨rfl, by omega, by omega, by omega, fun _ => by omega⟩
    obtain ⟨hh, b1, b2, b3, b4⟩ := hhead
    refine ⟨by omega, by omega, by omega, fun hle => a4 (b4 hle), a5.trans hfo1, ?_, ?_⟩
    · intro j hj
      rw [hh]
      cases j with
      | zero =>
        refine ⟨x, by simp, ?_⟩
        rw [a7 (i + 0) (Or.inl (by omega)), hft]
        simpa using getElem?_set_self_of_lt _ _ _ hi2
      | succ j =>
        obtain ⟨y, hy, hy'⟩ := a6 j (by omega)
        refine ⟨y, by simpa using hy, ?_⟩
        rw [show i + (j + 1) = i + 1 + j by omega]
        exact hy'
    · intro j hj
      rw [a7 j (by omega), hft, List.getElem?_set, if_neg (by omega)]

/-- The rows the merge loop writes into the slots `i, …, i + n - 1` carry the scores written
next to them, provided the tables it copies from are coherent; the other rows are left
alone. -/
theorem merge_loop_coherent (new_pop chromosomes_copy : List (List Int))
    (fitness_copy : List (Int × Nat)) (n i : Nat) (m m' : MergeState)
    (hcc : ∀ e ∈ fitness_copy, ∃ ch, chromosomes_copy[e.2]? = some ch ∧ computeFit ch = e.1)
    (hno : ∀ e ∈ m.s.fitness_off, ∃ ch, new_pop[e.2]? = some ch ∧ computeFit ch = e.1)
    (h : forLoop (merge_population.slot new_pop chromosomes_copy fitness_copy) n i m
      = some m') :
    (∀ j : Nat, i ≤ j → j < i + n →
      ∃ ch, m'.s.chromosomes[j]? = some ch ∧ m'.s.fitness[j]? = some (computeFit ch, j)) ∧
    (∀ j : Nat, (j < i ∨ i + n ≤ j) → m'.s.chromosomes[j]? = m.s.chromosomes[j]?) := by
  have := forLoop_inv (merge_population.slot new_pop chromosomes_copy fitness_copy)
    (fun k (t : MergeState) => t.s.fitness_off = m.s.fitness_off ∧
      (∀ j : Nat, i ≤ j → j < k →
        ∃ ch, t.s.chromosomes[j]? = some ch ∧ t.s.fitness[j]? = some (computeFit ch, j)) ∧
      (∀ j : Nat, (j < i ∨ k ≤ j) → t.s.chromosomes[j]? = m.s.chromosomes[j]?))
    n i m m' ⟨rfl, fun j h1 h2 => absurd h1 (by omega), fun _ _ => rfl⟩ ?_ h
  · exact ⟨this.2.1, this.2.2⟩
  · intro k t t' hk _ ⟨hfo, hco, hfr⟩ hb
    obtain ⟨old, x, src, ch, _, hsrc, hi1, hi2, hcs, hft, hfo1, _, _, _⟩ :=
      merge_slot_spec new_pop chromosomes_copy fitness_copy k t t' hb
    have hx : computeFit ch = x := by
      cases old with
      | true =>
        simp only [if_true] at hsrc
        obtain ⟨c0, hc0, hc1⟩ := hcc _ (List.getElem?_mem hsrc.1)
        simp only at hc0 hc1
        rw [hsrc.2.1] at hc0
        cases hc0
        exact hc1
      | false =>
        simp only [Bool.false_eq_true, if_false] at hsrc
        obtain ⟨c0, hc0, hc1⟩ := hno _ (by rw [← hfo]; exact List.getElem?_mem hsrc.1)
        simp only at hc0 hc1
        rw [hsrc.2.1] at hc0
        cases hc0
        exact hc1
    refine ⟨hfo1.trans hfo, fun j h1 h2 => ?_, fun j hj => ?_⟩
    · by_cases hjk : j = k
      · subst hjk
        refine ⟨ch, ?_, ?_⟩
        · rw [hcs]; exact getElem?_set_self_of_lt _ _ _ hi1
        · rw [hft, hx]; exact getElem?_set_self_of_lt _ _ _ hi2
      · obtain ⟨c1, e1, e2⟩ := hco j h1 (by omega)
        refine ⟨c1, ?_, ?_⟩
        · rw [hcs, List.getElem?_set, if_neg (by omega)]; exact e1
        · rw [hft, List.getElem?_set, if_neg (by omega)]; exact e2
    · rw [hcs, List.getElem?_set, if_neg (by omega)]
      exact hfr j (by omega)

/-- The offspring table after `EvaluatePop2` is coherent with the offspring buffer. -/
theorem EvaluatePop2_coherent (chromosomes : List (List Int)) (s s' : State)
    (hlen : s.fitness_off.length = popSize / 2)
    (h : EvaluatePop2 chromosomes s = some s') :
    (∀ e ∈ s'.fitness_off, ∃ ch, chromosomes[e.2]? = some ch ∧ computeFit ch = e.1 ∧
      e.2 < popSize / 2) ∧
    s'.fitness_off.map Prod.fst = (chromosomes.take (popSize / 2)).map computeFit := by
  obtain ⟨_, hl, hcl, _, hlo, _⟩ := EvaluatePop2_spec chromosomes s s' h
  constructor
  · intro e he
    obtain ⟨i, hi⟩ := List.getElem?_of_mem he
    have hi' : i < popSize / 2 := by
      by_contra hcon
      rw [List.getElem?_eq_none (by omega)] at hi
      exact Option.noConfusion hi
    rw [hlo i hi', Option.map_eq_some'] at hi
    obtain ⟨ch, hch, rfl⟩ := hi
    exact ⟨ch, hch, rfl, hi'⟩
  · apply List.ext_getElem?
    intro i
    by_cases hi : i < popSize / 2
    · rw [List.getElem?_map, hlo i hi, List.getElem?_map, List.getElem?_take_of_lt hi]
      cases chromosomes[i]? <;> rfl
    · rw [List.getElem?_eq_none (by simp only [List.length_map]; omega),
        List.getElem?_eq_none (by simp only [List.length_map, List.length_take]; omega)]

/-- The passes of the merge loop for the slots from `a ≥ 1` on leave the best-so-far fields,
`stuck`, `gen`, `xover_point` and the rows below `a` alone. -/
theorem merge_loop_frame (new_pop chromosomes_copy : List (List Int))
    (fitness_copy : List (Int × Nat)) (n a : Nat) (ha : 0 < a) (m m' : MergeState)
    (h : forLoop (merge_population.slot new_pop chromosomes_copy fitness_copy) n a m
      = some m') :
    m'.s.best_ = m.s.best_ ∧ m'.s.best_ind = m.s.best_ind ∧ m'.s.fit_best_ = m.s.fit_best_ ∧
    m'.s.stuck = m.s.stuck ∧ m'.s.gen = m.s.gen ∧ m'.s.xover_point = m.s.xover_point ∧
    m'.s.chromosomes.length = m.s.chromosomes.length ∧
    m'.s.fitness.length = m.s.fitness.length ∧
    ∀ j : Nat, j < a → m'.s.chromosomes[j]? = m.s.chromosomes[j]? := by
  refine forLoop_inv (merge_population.slot new_pop chromosomes_copy fitness_copy)
    (fun _ (t : MergeState) =>
      t.s.best_ = m.s.best_ ∧ t.s.best_ind = m.s.best_ind ∧ t.s.fit_best_ = m.s.fit_best_ ∧
      t.s.stuck = m.s.stuck ∧ t.s.gen = m.s.gen ∧ t.s.xover_point = m.s.xover_point ∧
      t.s.chromosomes.length = m.s.chromosomes.length ∧
      t.s.fitness.length = m.s.fitness.length ∧
      ∀ j : Nat, j < a → t.s.chromosomes[j]? = m.s.chromosomes[j]?)
    n a m m' ⟨rfl, rfl, rfl, rfl, rfl, rfl, rfl, rfl, fun _ _ => rfl⟩ ?_ h
  intro k t t' hk _ ⟨h1, h2, h3, h4, h5, h6, h7, h8, h9⟩ hb
  obtain ⟨_, _, _, ch, _, _, _, _, hcs, hft, _, hgen, hxo, hbest⟩ :=
    merge_slot_spec new_pop chromosomes_copy fitness_copy k t t' hb
  rw [if_neg (by omega)] at hbest
  obtain ⟨g1, g2, g3, g4⟩ := hbest
  refine ⟨g1.trans h1, g2.trans h2, g3.trans h3, g4.trans h4, hgen.trans h5, hxo.trans h6,
    by rw [hcs, List.length_set, h7], by rw [hft, List.length_set, h8], fun j hj => ?_⟩
  rw [hcs, List.getElem?_set, if_neg (by omega)]
  exact h9 j hj

theorem spec_nextScores_length (old off : List Int) (h : popSize ≤ old.length + off.length) :
    (spec_nextScores old off).length = popSize := by
  unfold spec_nextScores spec_interleave
  rw [List.length_take, List.length_merge]
  omega

/-- What the copies and the merge loop of `merge_population` produce from the tables as
they are after the sorting: the scores of the new fitness table are the first `popSize`
scores of the interleave of the old and the offspring scores, each next to its index;
`best_ind` is the row in slot 0 and `fit_best_` the score in slot 0; `stuck` follows the
stagnation rule; and `popSize - popSize / 2` slots at least are filled from the old pool. -/
theorem merge_fill_spec (new_pop : List (List Int)) (s s' : State)
    (hfl : s.fitness.length = popSize) (hfo : s.fitness_off.length = popSize / 2)
    (h : merge_population.fill new_pop s = some s') :
    s'.fitness.map Prod.fst
      = spec_nextScores (s.fitness.map Prod.fst) (s.fitness_off.map Prod.fst) ∧
    s'.fitness.map Prod.snd = List.range popSize ∧
    s'.fitness.length = popSize ∧ s'.fitness_off = s.fitness_off ∧
    s'.chromosomes[0]? = some s'.best_ind ∧
    (∃ e, s'.fitness[0]? = some e ∧ e.1 = s'.fit_best_) ∧
    s'.stuck = (if s.fit_best_ = s'.fit_best_ then s.stuck + 1 else 0) ∧
    s'.gen = s.gen ∧
    ((∀ e ∈ s.fitness, ∃ ch, s.chromosomes[e.2]? = some ch ∧ computeFit ch = e.1) →
      (∀ e ∈ s.fitness_off, ∃ ch, new_pop[e.2]? = some ch ∧ computeFit ch = e.1) →
      ∀ j : Nat, j < popSize →
        ∃ ch, s'.chromosomes[j]? = some ch ∧ s'.fitness[j]? = some (computeFit ch, j)) := by
  unfold merge_population.fill at h
  simp only [Option.map_eq_some'] at h
  obtain ⟨mf, hloop, rfl⟩ := h
  obtain ⟨_, _, _, _, a5, a6, a7⟩ :=
    merge_loop_scores new_pop s.chromosomes s.fitness popSize 0 ⟨s, 0, 0⟩ mf hfo hloop
  simp only [List.drop_zero, zero_add] at a6 a7
  have hlen : mf.s.fitness.length = popSize := by
    have h1 : popSize ≤ mf.s.fitness.length := by
      by_contra hcon
      obtain ⟨x, _, hx⟩ := a6 (popSize - 1) (by decide)
      rw [List.getElem?_eq_none (by omega)] at hx
      exact Option.noConfusion hx
    have h2 : ¬ popSize < mf.s.fitness.length := by
      intro hcon
      have := a7 popSize (Or.inr (le_refl _))
      rw [List.getElem?_eq_getElem hcon, List.getElem?_eq_none (by omega)] at this
      exact Option.noConfusion this
    omega
  have hXlen := spec_nextScores_length (s.fitness.map Prod.fst) (s.fitness_off.map Prod.fst)
    (by simp only [List.length_map, hfl]; omega)
  -- slot 0, then the slots from 1 on
  have hsplit := hloop
  rw [show forLoop (merge_population.slot new_pop s.chromosomes s.fitness) popSize 0
      ⟨s, 0, 0⟩ = _ from forLoop_add _ 1 49 0 _, Option.bind_eq_some] at hsplit
  obtain ⟨m1, hslot0, hrest⟩ := hsplit
  simp only [forLoop, Option.bind_eq_some, Option.some.injEq, exists_eq_right] at hslot0
  obtain ⟨_, x, _, ch, _, _, hi1, hi2, hcs, hft, _, hgen1, _, hbest⟩ :=
    merge_slot_spec new_pop s.chromosomes s.fitness 0 ⟨s, 0, 0⟩ m1 hslot0
  simp only [if_true] at hbest
  obtain ⟨_, c2, c3, c4⟩ := hbest
  obtain ⟨_, f2, f3, f4, f5, _, _, _, f9⟩ :=
    merge_loop_frame new_pop s.chromosomes s.fitness 49 (0 + 1) (by omega) m1 mf hrest
  obtain ⟨x0, _, hx0⟩ := a6 0 (by decide)
  have hfit0 : mf.s.fitness[0]? = some (x, 0) := by
    have := (merge_loop_scores new_pop s.chromosomes s.fitness 49 (0 + 1) m1 mf
      (by have := (merge_slot_spec new_pop s.chromosomes s.fitness 0 ⟨s, 0, 0⟩ m1
            hslot0); obtain ⟨_, _, _, _, _, _, _, _, _, _, hh, _⟩ := this; rw [hh]; exact hfo)
      hrest).2.2.2.2.2.2 0 (Or.inl (by omega))
    rw [this, hft]
    exact getElem?_set_self_of_lt _ _ _ hi2
  refine ⟨?_, ?_, hlen, a5, ?_, ⟨(x, 0), hfit0, by rw [f3, c3]⟩, ?_, by rw [f5, hgen1],
    fun hcc hno j hj => ?_⟩
  · apply List.ext_getElem?
    intro j
    by_cases hj : j < popSize
    · obtain ⟨y, hy, hy'⟩ := a6 j hj
      unfold spec_nextScores
      rw [hy, List.getElem?_map, hy']
      rfl
    · rw [List.getElem?_eq_none (by simp only [List.length_map]; omega),
        List.getElem?_eq_none (by omega)]
  · apply List.ext_getElem?
    intro j
    by_cases hj : j < popSize
    · obtain ⟨y, _, hy'⟩ := a6 j hj
      rw [List.getElem?_map, hy', List.getElem?_range hj]
      rfl
    · rw [List.getElem?_eq_none (by simp only [List.length_map]; omega),
        List.getElem?_eq_none (by simp only [List.length_range]; omega)]
  · rw [f2, c2, f9 0 (by omega), hcs]
    exact getElem?_set_self_of_lt _ _ _ hi1
  · rw [f4, c4, f3, c3]
  · exact (merge_loop_coherent new_pop s.chromosomes s.fitness popSize 0 ⟨s, 0, 0⟩ mf hcc hno
      hloop).1 j (Nat.zero_le _) (by omega)

theorem spec_interleave_sorted (old off : List Int) (h1 : old.Pairwise (fun a b => b ≤ a))
    (h2 : off.Pairwise (fun a b => b ≤ a)) :
    (spec_interleave old off).Pairwise (fun a b => b ≤ a) := by
  have h : (List.merge old off (fun a b => decide (b ≤ a))).Pairwise
      (fun a b => decide (b ≤ a) = true) :=
    List.sorted_merge
      (fun a b c hab hbc => by
        simp only [decide_eq_true_eq] at hab hbc ⊢; omega)
      (fun a b => by
        simp only [Bool.or_eq_true, decide_eq_true_eq]; omega)
      old off
      (h1.imp (fun hab => by simpa using hab)) (h2.imp (fun hab => by simpa using hab))
  exact h.imp (fun hab => by simpa using hab)

theorem spec_interleave_perm (old off : List Int) :
    (spec_interleave old off).Perm (old ++ off) :=
  List.merge_perm_append _

/-- The first `popSize` scores of the interleave are the `popSize` largest scores of the
two tables together: the scores left over are all at most every score taken. -/
theorem spec_nextScores_largest (old off : List Int) (h1 : old.Pairwise (fun a b => b ≤ a))
    (h2 : off.Pairwise (fun a b => b ≤ a)) :
    (spec_nextScores old off).Pairwise (fun a b => b ≤ a) ∧
    ∃ rest : List Int, (spec_nextScores old off ++ rest).Perm (old ++ off) ∧
      rest.length = old.length + off.length - popSize ∧
      ∀ x ∈ rest, ∀ y ∈ spec_nextScores old off, x ≤ y := by
  have hs := spec_interleave_sorted old off h1 h2
  have hsplit : spec_nextScores old off ++ (spec_interleave old off).drop popSize
      = spec_interleave old off := List.take_append_drop _ _
  rw [← hsplit, List.pairwise_append] at hs
  refine ⟨hs.1, (spec_interleave old off).drop popSize, ?_, ?_, fun x hx y hy => hs.2.2 y hy x hx⟩
  · rw [hsplit]; exact spec_interleave_perm old off
  · unfold spec_interleave
    rw [List.length_drop, List.length_merge]

theorem pairwise_of_map_fst (l : List (Int × Nat))
    (h : (l.map Prod.fst).Pairwise (fun a b => b ≤ a)) : l.Pairwise (fun a b => b.1 ≤ a.1) := by
  rw [List.pairwise_map] at h
  exact h

theorem map_fst_pairwise (l : List (Int × Nat))
    (h : l.Pairwise (fun a b => b.1 ≤ a.1)) : (l.map Prod.fst).Pairwise (fun a b => b ≤ a) := by
  rw [List.pairwise_map]
  exact h

/-- The sorting part of `merge_population` permutes the two score tables into descending
order and leaves everything else alone; when `gen ≠ 1` the old table is not touched. -/
theorem sortTables_spec {G : Type} (L : Lib G) (hL : L.Valid) (s : State)
    (hfl : s.fitness.length = popSize) (hfo : s.fitness_off.length = popSize / 2)
    (hs : s.gen ≠ 1 → s.fitness.Pairwise (fun a b => b.1 ≤ a.1)) :
    (merge_population.sortTables L s).fitness.Perm s.fitness ∧
    (merge_population.sortTables L s).fitness.Pairwise (fun a b => b.1 ≤ a.1) ∧
    (merge_population.sortTables L s).fitness_off.Perm s.fitness_off ∧
    (merge_population.sortTables L s).fitness_off.Pairwise (fun a b => b.1 ≤ a.1) ∧
    (s.gen ≠ 1 → (merge_population.sortTables L s).fitness = s.fitness) ∧
    (merge_population.sortTables L s).fitness_off = sort L s.fitness_off (popSize / 2) ∧
    (merge_population.sortTables L s).chromosomes = s.chromosomes ∧
    (merge_population.sortTables L s).fit_best_ = s.fit_best_ ∧
    (merge_population.sortTables L s).stuck = s.stuck ∧
    (merge_population.sortTables L s).gen = s.gen ∧
    (merge_population.sortTables L s).best_ind = s.best_ind ∧
    (merge_population.sortTables L s).xover_point = s.xover_point := by
  unfold merge_population.sortTables
  by_cases hg : s.gen = 1
  · dsimp only
    rw [if_pos hg]
    exact ⟨sort_perm L hL _ _ hfl, sort_sorted L hL _ _ hfl, sort_perm L hL _ _ hfo,
      sort_sorted L hL _ _ hfo, fun hc => absurd hg hc, rfl, rfl, rfl, rfl, rfl, rfl, rfl⟩
  · dsimp only
    rw [if_neg hg]
    exact ⟨List.Perm.refl _, hs hg, sort_perm L hL _ _ hfo, sort_sorted L hL _ _ hfo,
      fun _ => rfl, rfl, rfl, rfl, rfl, rfl, rfl, rfl⟩

/-- Full description of `merge_population` on coherent tables: after the offspring are
evaluated and the tables sorted, the new fitness table holds the first `popSize` scores of
the interleave, in descending order, each next to its own index and next to the chromosome
it was computed from; `best_ind` is the row in slot 0. -/
theorem merge_population_full {G : Type} (L : Lib G) (hL : L.Valid) (new_pop : List (List Int))
    (s s' : State) (hfl : s.fitness.length = popSize)
    (hfo : s.fitness_off.length = popSize / 2) (hco : s.Coherent)
    (h : merge_population L new_pop s = some s') :
    ∃ s1, EvaluatePop2 new_pop s = some s1 ∧
      merge_population.fill new_pop (merge_population.sortTables L s1) = some s' ∧
      (merge_population.sortTables L s1).fitness.Perm s.fitness ∧
      (merge_population.sortTables L s1).fitness.Pairwise (fun a b => b.1 ≤ a.1) ∧
      (s.gen ≠ 1 → (merge_population.sortTables L s1).fitness = s.fitness) ∧
      ((merge_population.sortTables L s1).fitness_off.map Prod.fst).Perm
        ((new_pop.take (popSize / 2)).map computeFit) ∧
      (merge_population.sortTables L s1).fitness_off.Pairwise (fun a b => b.1 ≤ a.1) ∧
      (merge_population.sortTables L s1).fitness_off.length = popSize / 2 ∧
      s'.fitness.map Prod.fst
        = spec_nextScores ((merge_population.sortTables L s1).fitness.map Prod.fst)
            ((merge_population.sortTables L s1).fitness_off.map Prod.fst) ∧
      s'.fitness.map Prod.snd = List.range popSize ∧
      s'.fitness.length = popSize ∧
      s'.fitness.Pairwise (fun a b => b.1 ≤ a.1) ∧
      (∀ j : Nat, j < popSize →
        ∃ ch, s'.chromosomes[j]? = some ch ∧ s'.fitness[j]? = some (computeFit ch, j)) ∧
      s'.chromosomes[0]? = some s'.best_ind ∧
      (∃ e, s'.fitness[0]? = some e ∧ e.1 = s'.fit_best_) ∧
      s'.stuck = (if s.fit_best_ = s'.fit_best_ then s.stuck + 1 else 0) ∧
      s'.gen = s.gen := by
  unfold merge_population at h
  rw [Option.bind_eq_some] at h
  obtain ⟨s1, he, hfill⟩ := h
  obtain ⟨hs1, hl1, _, _, _, _⟩ := EvaluatePop2_spec new_pop s s1 he
  obtain ⟨hno, hmap⟩ := EvaluatePop2_coherent new_pop s s1 hfo he
  have e1 : s1.fitness = s.fitness := by rw [hs1]
  have e2 : s1.chromosomes = s.chromosomes := by rw [hs1]
  have e3 : s1.gen = s.gen := by rw [hs1]
  have e4 : s1.fit_best_ = s.fit_best_ := by rw [hs1]
  have e5 : s1.stuck = s.stuck := by rw [hs1]
  obtain ⟨t1, t2, t3, t4, t5, _, t7, t8, t9, t10, _, _⟩ :=
    sortTables_spec L hL s1 (by rw [e1]; exact hfl) (by rw [hl1]; exact hfo)
      (by rw [e1, e3]; exact hco.sorted)
  have hl2 : (merge_population.sortTables L s1).fitness.length = popSize := by
    rw [t1.length_eq, e1]; exact hfl
  have hlo2 : (merge_population.sortTables L s1).fitness_off.length = popSize / 2 := by
    rw [t3.length_eq, hl1]; exact hfo
  obtain ⟨f1, f2, f3, _, f5, f6, f7, f8, f9⟩ :=
    merge_fill_spec new_pop (merge_population.sortTables L s1) s' hl2 hlo2 hfill
  have hsorted := (spec_nextScores_largest _ _
    (map_fst_pairwise _ t2) (map_fst_pairwise _ t4)).1
  rw [← f1] at hsorted
  refine ⟨s1, he, hfill, by rw [← e1]; exact t1, t2, fun hg =>
    (t5 (fun hc => hg (e3.symm.trans hc))).trans e1, ?_, t4, hlo2, f1, f2, f3, pairwise_of_map_fst _ hsorted, ?_, f5, f6,
    by rw [f7, t8, t9, e4, e5], by rw [f8, t10, e3]⟩
  · rw [← hmap]
    exact t3.map _
  · refine f9 (fun e he => ?_) (fun e he => ?_)
    · have hmem : e ∈ s.fitness := by rw [← e1]; exact t1.subset he
      obtain ⟨i, hi, hie⟩ := List.getElem_of_mem hmem
      obtain ⟨ch, hch, hft⟩ := hco.entries i (by rw [← hfl]; exact hi)
      rw [List.getElem?_eq_getElem hi, hie] at hft
      have : e = (computeFit ch, i) := Option.some.inj hft
      rw [t7, e2, this]
      exact ⟨ch, hch, rfl⟩
    · obtain ⟨ch, hch, hfit, _⟩ := hno e (t3.subset he)
      exact ⟨ch, hch, hfit⟩

/-- The two halves of a `reproduce` step from a state that satisfies the invariant: the
spawning loop, which changes `xover_point` only, and the merge of its buffer. -/
theorem reproduce_step_parts {G : Type} (L : Lib G) (hL : L.Valid) (fuel : Nat) (s : State)
    (g : G) (s' : State) (g' : G) (hs : s.Inv) (hco : s.Coherent)
    (h : reproduce L fuel s g = some (s', g')) :
    ∃ t sm, reproduce.offspring L fuel s g = some t ∧
      merge_population L t.new_pop t.s = some sm ∧
      s' = { sm with gen := sm.gen + 1 } ∧ g' = t.g ∧
      t.new_pop.length = popSize / 2 ∧
      t.s.Coherent ∧ t.s.fitness.length = popSize ∧ t.s.fitness_off.length = popSize / 2 ∧
      t.s.fitness = s.fitness ∧ t.s.chromosomes = s.chromosomes ∧ t.s.gen = s.gen ∧
      t.s.fit_best_ = s.fit_best_ ∧ t.s.stuck = s.stuck ∧ t.s.fitness_off = s.fitness_off := by
  unfold reproduce at h
  simp only [Option.bind_eq_some, Option.some.injEq, Prod.mk.injEq] at h
  obtain ⟨t, ht, sm, hmerge, rfl, rfl⟩ := h
  obtain ⟨_, hlen, hts⟩ := reproduce_offspring_spec L hL fuel
    (fun row => row.length = chromosome_length)
    (fun rv p1 p2 A B h1 h2 hc => rows_crossover rv p1 p2 A B h1 h2 hc)
    (fun row g row' g' hr hm => (mutate_length L hL fuel row g row' g' hm).trans hr)
    s g t hs.rows ht
  have e_chr : t.s.chromosomes = s.chromosomes := by rw [hts]
  have e_fit : t.s.fitness = s.fitness := by rw [hts]
  have e_fo : t.s.fitness_off = s.fitness_off := by rw [hts]
  have e_gen : t.s.gen = s.gen := by rw [hts]
  have e_fb : t.s.fit_best_ = s.fit_best_ := by rw [hts]
  have e_st : t.s.stuck = s.stuck := by rw [hts]
  refine ⟨t, sm, ht, hmerge, rfl, rfl, hlen, ⟨?_, ?_⟩, by rw [e_fit]; exact hs.fitness_length,
    by rw [e_fo]; exact hs.fitness_off_length, e_fit, e_chr, e_gen, e_fb, e_st, e_fo⟩
  · rw [e_chr, e_fit]; exact hco.entries
  · rw [e_gen, e_fit]; exact hco.sorted

/-- A `reproduce` step keeps the tables coherent, and leaves the fitness table sorted. -/
theorem reproduce_step_coherent {G : Type} (L : Lib G) (hL : L.Valid) (fuel : Nat) (s : State)
    (g : G) (s' : State) (g' : G) (hs : s.Inv) (hco : s.Coherent)
    (h : reproduce L fuel s g = some (s', g')) :
    s'.Coherent ∧ s'.fitness.Pairwise (fun a b => b.1 ≤ a.1) := by
  obtain ⟨t, sm, _, hmerge, rfl, _, _, tco, tfl, tfo, _⟩ :=
    reproduce_step_parts L hL fuel s g s' g' hs hco h
  obtain ⟨_, _, _, _, _, _, _, _, _, _, _, _, hsorted, hent, _⟩ :=
    merge_population_full L hL t.new_pop t.s sm tfl tfo tco hmerge
  exact ⟨⟨hent, fun _ => hsorted⟩, hsorted⟩

/-- The state after the initialisation of `main` is coherent. -/
theorem initialState_coherent (pop : List (List Int)) (hpop : IsPopulation popSize pop)
    (s : State) (h : initialState pop = some s) : s.Coherent := by
  obtain ⟨_, hgen, _, hchr, _, _, _, hfit⟩ := initialState_spec pop hpop s h
  refine ⟨fun i hi => ?_, fun hg => absurd hgen hg⟩
  have hlt : i < pop.length := by rw [hpop.1]; exact hi
  refine ⟨pop[i], by rw [hchr]; exact List.getElem?_eq_getElem hlt, ?_⟩
  rw [hfit i hi, List.getElem?_eq_getElem hlt]
  rfl

/-- Every reachable state is coherent. -/
theorem reachable_coherent {G : Type} (L : Lib G) (hL : L.Valid) (pop : List (List Int))
    (hpop : IsPopulation popSize pop) (s : State) (h : Reachable L pop s) :
    s.Inv ∧ s.Coherent := by
  induction h with
  | init s hs => exact ⟨(initialState_spec pop hpop s hs).1, initialState_coherent pop hpop s hs⟩
  | step fuel s g s' g' _ hstep ih =>
    exact ⟨(reproduce_step_spec L hL fuel s g s' g' ih.1 hstep).1,
      (reproduce_step_coherent L hL fuel s g s' g' ih.1 ih.2 hstep).1⟩

/-- The body of the merge loop returns whenever its reads are in bounds. -/
theorem merge_slot_total (new_pop chromosomes_copy : List (List Int))
    (fitness_copy : List (Int × Nat)) (i : Nat) (m : MergeState)
    (hc : i < m.s.chromosomes.length) (hf : i < m.s.fitness.length)
    (hold : ∃ o ch, fitness_copy[m.old_p]? = some o ∧ chromosomes_copy[o.2]? = some ch)
    (hnew : m.new_p ≤ popSize / 2 - 1 →
      ∃ f ch, m.s.fitness_off[m.new_p]? = some f ∧ new_pop[f.2]? = some ch) :
    ∃ m', merge_population.slot new_pop chromosomes_copy fitness_copy i m = some m' := by
  obtain ⟨o, ch, ho, hch⟩ := hold
  have hset : ∀ (x : Int × Nat), i < (m.s.fitness.set i x).length := by
    intro x; rw [List.length_set]; exact hf
  have hsetc : ∀ (x : List Int), i < (m.s.chromosomes.set i x).length := by
    intro x; rw [List.length_set]; exact hc
  by_cases hn : m.new_p > popSize / 2 - 1
  · simp only [merge_population.slot, merge_population.takeOld, if_pos hn, Option.some_bind,
      if_true, ho, hch, writeAt, if_pos hc, if_pos hf, List.getElem?_eq_getElem hf]
    by_cases hi : i = 0
    · subst hi
      simp [List.getElem?_eq_getElem, hf, hc]
    · simp [hi, List.getElem?_eq_getElem, hf, hc]
  · obtain ⟨f, ch2, hfo, hch2⟩ := hnew (by omega)
    by_cases hcmp : o.1 ≥ f.1
    · simp only [merge_population.slot, merge_population.takeOld, if_neg hn, Option.some_bind,
        if_true, ho, hfo, hch, writeAt, if_pos hc, if_pos hf, List.getElem?_eq_getElem hf,
        decide_eq_true hcmp]
      by_cases hi : i = 0
      · subst hi
        simp [List.getElem?_eq_getElem, hf, hc]
      · simp [hi, List.getElem?_eq_getElem, hf, hc]
    · simp only [merge_population.slot, merge_population.takeOld, if_neg hn, Option.some_bind,
        ho, hfo, hch2, writeAt, if_pos hc, if_pos hf, List.getElem?_eq_getElem hf,
        decide_eq_false hcmp]
      by_cases hi : i = 0
      · subst hi
        simp [List.getElem?_eq_getElem, hf, hc]
      · simp [hi, List.getElem?_eq_getElem, hf, hc]

/-- The pointers on entry to slot `i`: together they have advanced `i` times, and `new_p`
never passes the end of the offspring table. -/
theorem merge_atSlot_pointers (new_pop : List (List Int)) (s : State) (i : Nat)
    (m : MergeState) (hfo : s.fitness_off.length = popSize / 2)
    (h : merge_population.atSlot new_pop s i = some m) :
    m.old_p + m.new_p = i ∧ m.new_p ≤ popSize / 2 ∧ m.s.fitness_off = s.fitness_off ∧
    m.s.chromosomes.length = s.chromosomes.length ∧ m.s.fitness.length = s.fitness.length := by
  unfold merge_population.atSlot at h
  obtain ⟨a1, _, _, a4, a5, _, _⟩ :=
    merge_loop_scores new_pop s.chromosomes s.fitness i 0 ⟨s, 0, 0⟩ m hfo h
  have hlen := forLoop_inv (merge_population.slot new_pop s.chromosomes s.fitness)
    (fun _ (t : MergeState) => t.s.chromosomes.length = s.chromosomes.length ∧
      t.s.fitness.length = s.fitness.length) i 0 ⟨s, 0, 0⟩ m ⟨rfl, rfl⟩
    (fun k t t' _ _ ht hb => by
      obtain ⟨_, _, _, _, _, _, _, _, hcs, hft, _⟩ :=
        merge_slot_spec new_pop s.chromosomes s.fitness k t t' hb
      exact ⟨by rw [hcs, List.length_set]; exact ht.1, by rw [hft, List.length_set]; exact ht.2⟩)
    h
  exact ⟨by simpa using a1, a4 (Nat.zero_le _), a5, hlen.1, hlen.2⟩

/-- The merge loop never reads outside its tables: from every coherent pair of tables and
every buffer of `popSize / 2` rows it runs through all `popSize` slots. -/
theorem merge_fill_total (new_pop : List (List Int)) (s : State)
    (hcl : s.chromosomes.length = popSize) (hfl : s.fitness.length = popSize)
    (hfo : s.fitness_off.length = popSize / 2)
    (hcc : ∀ e ∈ s.fitness, ∃ ch, s.chromosomes[e.2]? = some ch)
    (hno : ∀ e ∈ s.fitness_off, ∃ ch, new_pop[e.2]? = some ch) (n : Nat) (hn : n ≤ popSize) :
    ∃ m, merge_population.atSlot new_pop s n = some m := by
  induction n with
  | zero => exact ⟨⟨s, 0, 0⟩, rfl⟩
  | succ k ih =>
    obtain ⟨m, hm⟩ := ih (by omega)
    obtain ⟨p1, p2, p3, p4, p5⟩ := merge_atSlot_pointers new_pop s k m hfo hm
    have hold : m.old_p < s.fitness.length := by omega
    obtain ⟨ch, hch⟩ := hcc _ (List.getElem_mem hold)
    obtain ⟨m', hm'⟩ := merge_slot_total new_pop s.chromosomes s.fitness k m
      (by omega) (by omega) ⟨_, ch, List.getElem?_eq_getElem hold, hch⟩
      (fun hle => by
        have hlt : m.new_p < m.s.fitness_off.length := by
          rw [p3, hfo]; have : popSize / 2 = 25 := rfl; omega
        obtain ⟨ch2, hch2⟩ := hno _ (by rw [← p3]; exact List.getElem_mem hlt)
        exact ⟨_, ch2, List.getElem?_eq_getElem hlt, hch2⟩)
    refine ⟨m', ?_⟩
    unfold merge_population.atSlot at hm ⊢
    rw [forLoop_add, hm]
    simp only [Option.some_bind, forLoop, zero_add, hm']

theorem EvaluatePop2_total (chromosomes : List (List Int)) (s : State)
    (hc : popSize / 2 ≤ chromosomes.length) (hf : popSize / 2 ≤ s.fitness_off.length) :
    ∃ s', EvaluatePop2 chromosomes s = some s' := by
  unfold EvaluatePop2
  obtain ⟨s', hs', _⟩ := forLoop_total
    (fun i (s : State) =>
      (chromosomes[i]?).bind fun c =>
      (writeAt s.fitness_off i (computeFit c, i)).bind fun fo =>
      some { s with fitness_off := fo })
    (fun _ (t : State) => popSize / 2 ≤ t.fitness_off.length) (popSize / 2) 0 s hf
    (fun k t _ hk ht => by
      have h1 : k < chromosomes.length := by omega
      have h2 : k < t.fitness_off.length := by omega
      refine ⟨{ t with fitness_off := t.fitness_off.set k (computeFit chromosomes[k], k) }, ?_, ?_⟩
      · simp only [List.getElem?_eq_getElem h1, Option.some_bind, writeAt, if_pos h2]
      · simp only [List.length_set]; exact ht)
  exact ⟨s', hs'⟩

/-- No read of `merge_population` leaves its tables: with coherent tables and a buffer of
`popSize / 2` rows the call returns. -/
theorem merge_population_total {G : Type} (L : Lib G) (hL : L.Valid)
    (new_pop : List (List Int)) (s : State) (hcl : s.chromosomes.length = popSize)
    (hfl : s.fitness.length = popSize) (hfo : s.fitness_off.length = popSize / 2)
    (hco : s.Coherent) (hnp : new_pop.length = popSize / 2) :
    ∃ s', merge_population L new_pop s = some s' := by
  obtain ⟨s1, he⟩ := EvaluatePop2_total new_pop s (by omega) (by omega)
  obtain ⟨hs1, hl1, _, _, _, _⟩ := EvaluatePop2_spec new_pop s s1 he
  obtain ⟨hno, _⟩ := EvaluatePop2_coherent new_pop s s1 hfo he
  have e1 : s1.fitness = s.fitness := by rw [hs1]
  have e2 : s1.chromosomes = s.chromosomes := by rw [hs1]
  have e3 : s1.gen = s.gen := by rw [hs1]
  obtain ⟨t1, _, t3, _, _, _, t7, _⟩ :=
    sortTables_spec L hL s1 (by rw [e1]; exact hfl) (by rw [hl1]; exact hfo)
      (by rw [e1, e3]; exact hco.sorted)
  obtain ⟨m, hm⟩ := merge_fill_total new_pop (merge_population.sortTables L s1)
    (by rw [t7, e2]; exact hcl) (by rw [t1.length_eq, e1]; exact hfl)
    (by rw [t3.length_eq, hl1]; exact hfo)
    (fun e he => by
      have hmem : e ∈ s.fitness := by rw [← e1]; exact t1.subset he
      obtain ⟨i, hi, hie⟩ := List.getElem_of_mem hmem
      obtain ⟨ch, hch, hft⟩ := hco.entries i (by rw [← hfl]; exact hi)
      rw [List.getElem?_eq_getElem hi, hie] at hft
      have : e = (computeFit ch, i) := Option.some.inj hft
      rw [t7, e2, this]
      exact ⟨ch, hch⟩)
    (fun e he => by
      obtain ⟨ch, hch, _, _⟩ := hno e (t3.subset he)
      exact ⟨ch, hch⟩)
    popSize (le_refl _)
  refine ⟨m.s, ?_⟩
  unfold merge_population
  rw [he, Option.some_bind]
  unfold merge_population.fill
  unfold merge_population.atSlot at hm
  dsimp only
  rw [hm]
  rfl

theorem merge_fill_eq_atSlot (new_pop : List (List Int)) (s : State) :
    merge_population.fill new_pop s
      = (merge_population.atSlot new_pop s popSize).map MergeState.s := rfl

/-- What slot `i` of the merge loop does, in terms of the state `m` on entry to it: the
test picks the head of the old table (`fitness_copy[old_p]`) or the head of the offspring
table (`fitness_off[new_p]`), the score and the row of the one picked are what the finished
merge holds in slot `i`, and the pointer of the table picked from advances. -/
theorem merge_slot_outcome (new_pop : List (List Int)) (s s' : State)
    (hfo : s.fitness_off.length = popSize / 2)
    (hfill : merge_population.fill new_pop s = some s') (i : Nat) (hi : i < popSize)
    (m : MergeState) (hm : merge_population.atSlot new_pop s i = some m) :
    ∃ old x src ch m1, merge_population.takeOld s.fitness m = some old ∧
      merge_population.atSlot new_pop s (i + 1) = some m1 ∧
      (if old = true then
        s.fitness[m.old_p]? = some (x, src) ∧ s.chromosomes[src]? = some ch ∧
          m1.old_p = m.old_p + 1 ∧ m1.new_p = m.new_p
      else
        s.fitness_off[m.new_p]? = some (x, src) ∧ new_pop[src]? = some ch ∧
          m1.old_p = m.old_p ∧ m1.new_p = m.new_p + 1) ∧
      s'.fitness[i]? = some (x, i) ∧ s'.chromosomes[i]? = some ch := by
  rw [merge_fill_eq_atSlot, Option.map_eq_some'] at hfill
  obtain ⟨mf, hloop, rfl⟩ := hfill
  obtain ⟨_, _, p3, _, _⟩ := merge_atSlot_pointers new_pop s i m hfo hm
  unfold merge_population.atSlot at hloop hm ⊢
  have hsplit : popSize = i + (1 + (popSize - i - 1)) := by omega
  rw [hsplit, forLoop_add, hm, Option.some_bind, forLoop_add, Option.bind_eq_some] at hloop
  obtain ⟨m1, hone, htail⟩ := hloop
  simp only [zero_add, forLoop, Option.bind_eq_some, Option.some.injEq, exists_eq_right]
    at hone
  obtain ⟨old, x, src, ch, h1, h2, hic, hif, hcs, hft, hfo1, _⟩ :=
    merge_slot_spec new_pop s.chromosomes s.fitness i m m1 hone
  have hfr := merge_loop_frame new_pop s.chromosomes s.fitness (popSize - i - 1) (0 + i + 1)
    (by omega) m1 mf htail
  have hfr2 := (merge_loop_scores new_pop s.chromosomes s.fitness (popSize - i - 1) (0 + i + 1)
    m1 mf (by rw [hfo1, p3]; exact hfo) htail).2.2.2.2.2.2 i (Or.inl (by omega))
  refine ⟨old, x, src, ch, m1, h1, ?_, ?_, ?_, ?_⟩
  · rw [forLoop_add, hm, Option.some_bind]
    simp only [zero_add, forLoop, hone, Option.some_bind]
  · rw [p3] at h2
    exact h2
  · rw [hfr2, hft]
    exact getElem?_set_self_of_lt _ _ _ hif
  · rw [hfr.2.2.2.2.2.2.2.2 i (by omega), hcs]
    exact getElem?_set_self_of_lt _ _ _ hic

/-- With coherent tables the scores of the fitness table are the scores of the rows of the
population, in the order of the population, and the indices count up from 0. -/
theorem coherent_tables (s : State) (hcl : s.chromosomes.length = popSize)
    (hfl : s.fitness.length = popSize) (hco : s.Coherent) :
    s.fitness.map Prod.fst = s.chromosomes.map computeFit ∧
    s.fitness.map Prod.snd = List.range popSize := by
  constructor
  · apply List.ext_getElem?
    intro j
    by_cases hj : j < popSize
    · obtain ⟨ch, h1, h2⟩ := hco.entries j hj
      rw [List.getElem?_map, List.getElem?_map, h1, h2]
      rfl
    · rw [List.getElem?_eq_none (by simp only [List.length_map]; omega),
        List.getElem?_eq_none (by simp only [List.length_map]; omega)]
  · apply List.ext_getElem?
    intro j
    by_cases hj : j < popSize
    · obtain ⟨ch, _, h2⟩ := hco.entries j hj
      rw [List.getElem?_map, h2, List.getElem?_range hj]
      rfl
    · rw [List.getElem?_eq_none (by simp only [List.length_map]; omega),
        List.getElem?_eq_none (by simp only [List.length_range]; omega)]

/-- Claim C19. At the start of every `reproduce` step, that is in every reachable state (the
state right after the initialisation and the state after each completed merge), for every
`i` in `[0, 49]` the entry `fitness[i]` holds the index `i` and the score
`computeFit(chromosomes[i])`; so the weights roulette-wheel selection sums are the scores
of the chromosomes themselves, and the index `rws_select` returns, for every exclude value
and every draw, is the index of a chromosome whose score is the one in that entry. -/
theorem fitness_entry_names_chromosome {G : Type} (L : Lib G) (hL : L.Valid)
    (pop : List (List Int)) (hpop : IsPopulation popSize pop) (s : State)
    (hr : Reachable L pop s) :
    (∀ i : Nat, i < popSize →
      ∃ ch, s.chromosomes[i]? = some ch ∧ s.fitness[i]? = some (computeFit ch, i)) ∧
    s.fitness.map Prod.fst = s.chromosomes.map computeFit ∧
    s.fitness.map Prod.snd = List.range popSize ∧
    ∀ (k : Nat) (g : G), k ≤ popSize →
      ∃ idx ch, rws_select L s.fitness k g = some (idx, (L.floatDist g).2) ∧ idx < popSize ∧
        s.chromosomes[idx]? = some ch ∧ s.fitness[idx]? = some (computeFit ch, idx) := by
  obtain ⟨hinv, hco⟩ := reachable_coherent L hL pop hpop s hr
  obtain ⟨c1, c2⟩ := coherent_tables s hinv.chromosomes_length hinv.fitness_length hco
  refine ⟨hco.entries, c1, c2, fun k g hk => ?_⟩
  obtain ⟨idx, hsel, hlt, _⟩ := rws_select_spec L hL s.fitness hinv.fitness_length
    (fun e he => (hinv.scores e he).1.1) k hk g
  obtain ⟨ch, h1, h2⟩ := hco.entries idx hlt
  exact ⟨idx, ch, hsel, hlt, h1, h2⟩

theorem fitness_entry_names_chromosome_witness :
    (∃ ch, exampleStart.chromosomes[7]? = some ch ∧
      exampleStart.fitness[7]? = some (computeFit ch, 7)) ∧
    ∃ ch, exampleNext.1.chromosomes[7]? = some ch ∧
      exampleNext.1.fitness[7]? = some (computeFit ch, 7) :=
  ⟨(fitness_entry_names_chromosome counterLib counterLib_valid examplePop
      examplePop_isPopulation.1 exampleStart (Reachable.init exampleStart exampleStart_eq)).1 7
      (by decide),
    (fitness_entry_names_chromosome counterLib counterLib_valid examplePop
      examplePop_isPopulation.1 exampleNext.1
      (Reachable.step 8 exampleStart 0 exampleNext.1 exampleNext.2
        (Reachable.init exampleStart exampleStart_eq) exampleNext_eq)).1 7 (by decide)⟩

/-- The merge loop assigns `stuck` in slot 0 and nowhere else: on entry to slot 0 it has
the value from before the call, on entry to every later slot, and at the end, the final
value. -/
theorem merge_atSlot_stuck (new_pop : List (List Int)) (s s' : State)
    (hfill : merge_population.fill new_pop s = some s') (i : Nat) (hi : i ≤ popSize)
    (m : MergeState) (hm : merge_population.atSlot new_pop s i = some m) :
    m.s.stuck = if i = 0 then s.stuck else s'.stuck := by
  by_cases h0 : i = 0
  · subst h0
    rw [if_pos rfl]
    have : m = ⟨s, 0, 0⟩ := (Option.some.inj hm).symm
    rw [this]
  · rw [if_neg h0]
    rw [merge_fill_eq_atSlot, Option.map_eq_some'] at hfill
    obtain ⟨mf, hloop, rfl⟩ := hfill
    unfold merge_population.atSlot at hloop hm
    have hsplit : popSize = i + (popSize - i) := by omega
    rw [hsplit, forLoop_add, hm, Option.some_bind] at hloop
    exact (merge_loop_frame new_pop s.chromosomes s.fitness (popSize - i) (0 + i) (by omega)
      m mf hloop).2.2.2.1.symm

/-- Claim C13. After every `reproduce` step from a reachable state, `best_ind` is the
chromosome at index 0 of the new population, `fit_best_` is `computeFit(best_ind)`, and
`fit_best_` is the maximum score over the whole new population: no chromosome and no entry
of the fitness table has a higher score, and `best_ind` is a member that attains it. -/
theorem best_ind_heads_population {G : Type} (L : Lib G) (hL : L.Valid)
    (pop : List (List Int)) (hpop : IsPopulation popSize pop) (s : State)
    (hr : Reachable L pop s) (fuel : Nat) (g : G) (s' : State) (g' : G)
    (h : reproduce L fuel s g = some (s', g')) :
    s'.chromosomes[0]? = some s'.best_ind ∧ s'.fit_best_ = computeFit s'.best_ind ∧
    s'.best_ind ∈ s'.chromosomes ∧
    (∀ ch ∈ s'.chromosomes, computeFit ch ≤ s'.fit_best_) ∧
    (∀ e ∈ s'.fitness, e.1 ≤ s'.fit_best_) := by
  obtain ⟨hinv, hco⟩ := reachable_coherent L hL pop hpop s hr
  have hinv' := (reproduce_step_spec L hL fuel s g s' g' hinv h).1
  obtain ⟨t, sm, _, hmerge, rfl, _, _, tco, tfl, tfo, _⟩ :=
    reproduce_step_parts L hL fuel s g s' g' hinv hco h
  obtain ⟨_, _, _, _, _, _, _, _, _, _, _, _, hsorted, hent, hhead, ⟨e, he, hef⟩, _⟩ :=
    merge_population_full L hL t.new_pop t.s sm tfl tfo tco hmerge
  obtain ⟨ch0, hc0, hf0⟩ := hent 0 (by decide)
  have hch0 : ch0 = sm.best_ind := Option.some.inj (hc0.symm.trans hhead)
  have he0 : e = (computeFit ch0, 0) := Option.some.inj (he.symm.trans hf0)
  have hmax : ∀ x ∈ sm.fitness, x.1 ≤ sm.fit_best_ := by
    intro x hx
    rw [← hef]
    exact sorted_head_max sm.fitness hsorted e he x hx
  refine ⟨hhead, by rw [← hef, he0, hch0], List.getElem?_mem hhead, fun ch hch => ?_, hmax⟩
  obtain ⟨j, hj, hje⟩ := List.getElem_of_mem hch
  have hj' : j < popSize := by
    have hlen : sm.chromosomes.length = popSize := hinv'.chromosomes_length
    rw [← hlen]
    exact hj
  obtain ⟨ch', hc', hf'⟩ := hent j hj'
  rw [List.getElem?_eq_getElem hj, hje] at hc'
  have : ch = ch' := Option.some.inj hc'
  rw [this]
  exact hmax _ (List.getElem?_mem hf')

theorem best_ind_heads_population_witness :
    exampleNext.1.chromosomes[0]? = some exampleNext.1.best_ind ∧
    exampleNext.1.fit_best_ = computeFit exampleNext.1.best_ind ∧
    ∀ ch ∈ exampleNext.1.chromosomes, computeFit ch ≤ exampleNext.1.fit_best_ :=
  have h := best_ind_heads_population counterLib counterLib_valid examplePop
    examplePop_isPopulation.1 exampleStart (Reachable.init exampleStart exampleStart_eq) 8 0
    exampleNext.1 exampleNext.2 exampleNext_eq
  ⟨h.1, h.2.1, h.2.2.2.1⟩

/-- Claim C14. Every `reproduce` step from a reachable state sets `stuck` to its previous
value plus one when the top score of the new generation (the score in slot 0, which no
score of the new table exceeds) equals the value `fit_best_` had before the step, and to
zero otherwise; and it changes `stuck` exactly once: the spawning loop, the evaluation of
the offspring and the sorting leave `stuck` as it was, the pass of the merge loop for slot
0 assigns it, and every later pass leaves it at its final value. -/
theorem stuck_set_once {G : Type} (L : Lib G) (hL : L.Valid)
    (pop : List (List Int)) (hpop : IsPopulation popSize pop) (s : State)
    (hr : Reachable L pop s) (fuel : Nat) (g : G) (s' : State) (g' : G)
    (h : reproduce L fuel s g = some (s', g')) :
    (∃ top, s'.fitness[0]? = some top ∧ (∀ e ∈ s'.fitness, e.1 ≤ top.1) ∧
      s'.stuck = if top.1 = s.fit_best_ then s.stuck + 1 else 0) ∧
    ∃ t s1, reproduce.offspring L fuel s g = some t ∧ t.s.stuck = s.stuck ∧
      EvaluatePop2 t.new_pop t.s = some s1 ∧ s1.stuck = s.stuck ∧
      (merge_population.sortTables L s1).stuck = s.stuck ∧
      ∀ (i : Nat) (m : MergeState), i ≤ popSize →
        merge_population.atSlot t.new_pop (merge_population.sortTables L s1) i = some m →
        m.s.stuck = if i = 0 then s.stuck else s'.stuck := by
  obtain ⟨hinv, hco⟩ := reachable_coherent L hL pop hpop s hr
  obtain ⟨t, sm, ht, hmerge, rfl, _, _, tco, tfl, tfo, _, _, _, e_fb, e_st, _⟩ :=
    reproduce_step_parts L hL fuel s g s' g' hinv hco h
  obtain ⟨s1, he, hfill, _, _, _, _, _, _, _, _, _, hsorted, _, _, ⟨e, he0, hef⟩, hstuck, _⟩ :=
    merge_population_full L hL t.new_pop t.s sm tfl tfo tco hmerge
  obtain ⟨hs1, _⟩ := EvaluatePop2_spec t.new_pop t.s s1 he
  have e1 : s1.stuck = s.stuck := by rw [hs1]; exact e_st
  have e2 : s1.gen = t.s.gen := by rw [hs1]
  have e3 : s1.fitness = t.s.fitness := by rw [hs1]
  have e4 : s1.fitness_off.length = popSize / 2 := by
    rw [(EvaluatePop2_spec t.new_pop t.s s1 he).2.1]; exact tfo
  obtain ⟨_, _, _, _, _, _, _, _, t9, _⟩ := sortTables_spec L hL s1 (by rw [e3]; exact tfl) e4
    (by rw [e3, e2]; exact tco.sorted)
  refine ⟨⟨e, he0, sorted_head_max sm.fitness hsorted e he0, ?_⟩, t, s1, ht, e_st, he, e1,
    t9.trans e1, fun i m hi hm => ?_⟩
  · show sm.stuck = _
    rw [hstuck, e_fb, e_st, hef]
    by_cases hc : s.fit_best_ = sm.fit_best_
    · rw [if_pos hc, if_pos hc.symm]
    · rw [if_neg hc, if_neg (fun hc' => hc hc'.symm)]
  · have := merge_atSlot_stuck t.new_pop (merge_population.sortTables L s1) sm hfill i hi m hm
    rw [this, t9, e1]

theorem stuck_set_once_witness :
    (exampleStart.stuck = 0 ∧ exampleStart.fit_best_ = 0 ∧ exampleNext.1.fit_best_ = 17) ∧
    ∃ top, exampleNext.1.fitness[0]? = some top ∧ (∀ e ∈ exampleNext.1.fitness, e.1 ≤ top.1) ∧
      exampleNext.1.stuck = if top.1 = exampleStart.fit_best_ then exampleStart.stuck + 1
        else 0 :=
  ⟨⟨example_values.1.2.1, example_values.1.1, example_values.2.1⟩,
    (stuck_set_once counterLib counterLib_valid examplePop examplePop_isPopulation.1
      exampleStart (Reachable.init exampleStart exampleStart_eq) 8 0 exampleNext.1
      exampleNext.2 exampleNext_eq).1⟩

/-- Claim C12. For every reachable state (whatever crossover point the spawning loop left in
`xover_point`) and every buffer of 25 offspring, `merge_population` returns, and the 50
scores of the new population are, as a multiset, the 50 largest of the 75 scores of the old
population and the offspring taken together: with the 25 scores left out they are a
permutation of the 75, and no score left out is higher than any score kept. -/
theorem merge_keeps_largest {G : Type} (L : Lib G) (hL : L.Valid)
    (pop : List (List Int)) (hpop : IsPopulation popSize pop) (s : State)
    (hr : Reachable L pop s) (x : Nat) (new_pop : List (List Int))
    (hnp : new_pop.length = popSize / 2) :
    ∃ s', merge_population L new_pop { s with xover_point := x } = some s' ∧
      s'.chromosomes.length = popSize ∧
      s'.fitness.map Prod.fst = s'.chromosomes.map computeFit ∧
      ∃ rest : List Int,
        (s'.chromosomes.map computeFit ++ rest).Perm
          (s.chromosomes.map computeFit ++ new_pop.map computeFit) ∧
        rest.length = popSize / 2 ∧
        ∀ a ∈ rest, ∀ b ∈ s'.chromosomes.map computeFit, a ≤ b := by
  obtain ⟨hinv, hco⟩ := reachable_coherent L hL pop hpop s hr
  have hco0 : ({ s with xover_point := x } : State).Coherent := ⟨hco.entries, hco.sorted⟩
  obtain ⟨s', hmerge⟩ := merge_population_total L hL new_pop { s with xover_point := x }
    hinv.chromosomes_length hinv.fitness_length hinv.fitness_off_length hco0 hnp
  obtain ⟨s1, he, hfill, f1, f2, _, f4, f5, f6, f7, _, f9, hsorted, hent, _⟩ :=
    merge_population_full L hL new_pop { s with xover_point := x } s' hinv.fitness_length
      hinv.fitness_off_length hco0 hmerge
  have hcl' : s'.chromosomes.length = popSize := by
    rw [merge_fill_eq_atSlot, Option.map_eq_some'] at hfill
    obtain ⟨mf, hmf, rfl⟩ := hfill
    obtain ⟨_, _, _, p4, _⟩ := merge_atSlot_pointers new_pop _ popSize mf f6 hmf
    rw [p4, (sortTables_spec L hL s1 (by
      rw [(EvaluatePop2_spec new_pop _ s1 he).1]; exact hinv.fitness_length) (by
      rw [(EvaluatePop2_spec new_pop _ s1 he).2.1]; exact hinv.fitness_off_length) (by
      rw [(EvaluatePop2_spec new_pop _ s1 he).1]; exact hco.sorted)).2.2.2.2.2.2.1,
      (EvaluatePop2_spec new_pop _ s1 he).1]
    exact hinv.chromosomes_length
  obtain ⟨c1, _⟩ := coherent_tables s' hcl' f9 ⟨hent, fun _ => hsorted⟩
  obtain ⟨d1, _⟩ := coherent_tables s hinv.chromosomes_length hinv.fitness_length hco
  obtain ⟨_, rest, r1, r2, r3⟩ := spec_nextScores_largest _ _
    (map_fst_pairwise _ f2) (map_fst_pairwise _ f5)
  rw [← f7, c1] at r1 r3
  refine ⟨s', hmerge, hcl', c1, rest, ?_, ?_, r3⟩
  · refine r1.trans (List.Perm.append ?_ ?_)
    · rw [← d1]
      exact f1.map _
    · rw [List.take_of_length_le (by omega)] at f4
      exact f4
  · rw [r2, List.length_map, List.length_map, f1.length_eq, f6]
    show s.fitness.length + popSize / 2 - popSize = popSize / 2
    rw [hinv.fitness_length]
    rfl

theorem merge_keeps_largest_witness :
    ∃ s', merge_population counterLib (List.replicate 25 [0, 4, 7, 5, 2, 6, 1, 3])
        { exampleNext.1 with xover_point := 3 } = some s' ∧
      s'.chromosomes.length = popSize ∧
      s'.fitness.map Prod.fst = s'.chromosomes.map computeFit :=
  (merge_keeps_largest counterLib counterLib_valid examplePop examplePop_isPopulation.1
    exampleNext.1
    (Reachable.step 8 exampleStart 0 exampleNext.1 exampleNext.2
      (Reachable.init exampleStart exampleStart_eq) exampleNext_eq)
    3 (List.replicate 25 [0, 4, 7, 5, 2, 6, 1, 3]) (by decide)).imp
    fun _ h => ⟨h.1, h.2.1, h.2.2.1⟩

theorem sorted_drop_max (l : List (Int × Nat)) (h : l.Pairwise (fun a b => b.1 ≤ a.1))
    (k : Nat) (o : Int × Nat) (ho : l[k]? = some o) : ∀ e ∈ l.drop k, e.1 ≤ o.1 := by
  have hk : k < l.length := by
    by_contra hc
    rw [List.getElem?_eq_none (by omega)] at ho
    exact Option.noConfusion ho
  have hd : (l.drop k)[0]? = some o := by
    rw [List.getElem?_drop]
    exact ho
  exact sorted_head_max (l.drop k) (h.sublist (List.drop_sublist k l)) o hd

theorem merge_takeOld_exhausted (fitness_copy : List (Int × Nat)) (m : MergeState)
    (h : m.new_p = popSize / 2) : merge_population.takeOld fitness_copy m = some true := by
  unfold merge_population.takeOld
  rw [if_pos (by rw [h]; decide)]

/-- Once the offspring table is exhausted on entry to slot `i`, every slot from `i` on is
filled from the old table, entry after entry. -/
theorem merge_old_only_tail (new_pop : List (List Int)) (s s' : State)
    (hfo : s.fitness_off.length = popSize / 2)
    (hfill : merge_population.fill new_pop s = some s') (i : Nat) (m : MergeState)
    (hm : merge_population.atSlot new_pop s i = some m) (hex : m.new_p = popSize / 2)
    (j : Nat) (hj : i + j < popSize) :
    ∃ mj e ch, merge_population.atSlot new_pop s (i + j) = some mj ∧
      mj.old_p = m.old_p + j ∧ mj.new_p = popSize / 2 ∧
      s.fitness[m.old_p + j]? = some e ∧ s.chromosomes[e.2]? = some ch ∧
      s'.fitness[i + j]? = some (e.1, i + j) ∧ s'.chromosomes[i + j]? = some ch := by
  have hstate : ∀ k : Nat, i + k < popSize →
      ∃ mk, merge_population.atSlot new_pop s (i + k) = some mk ∧
        mk.old_p = m.old_p + k ∧ mk.new_p = popSize / 2 := by
    intro k
    induction k with
    | zero => intro _; exact ⟨m, hm, rfl, hex⟩
    | succ k ih =>
      intro hk
      obtain ⟨mk, hmk, ho, hn⟩ := ih (by omega)
      obtain ⟨old, x, src, ch, m1, h1, h2, h3, _, _⟩ :=
        merge_slot_outcome new_pop s s' hfo hfill (i + k) (by omega) mk hmk
      rw [merge_takeOld_exhausted s.fitness mk hn] at h1
      have hold : old = true := (Option.some.inj h1).symm
      rw [if_pos hold] at h3
      exact ⟨m1, h2, by rw [h3.2.2.1, ho]; omega, by rw [h3.2.2.2, hn]⟩
  obtain ⟨mj, hmj, ho, hn⟩ := hstate j hj
  obtain ⟨old, x, src, ch, m1, h1, _, h3, h4, h5⟩ :=
    merge_slot_outcome new_pop s s' hfo hfill (i + j) hj mj hmj
  rw [merge_takeOld_exhausted s.fitness mj hn] at h1
  have hold : old = true := (Option.some.inj h1).symm
  rw [if_pos hold, ho] at h3
  exact ⟨mj, (x, src), ch, hmj, ho, hn, h3.1, h3.2.1, h4, h5⟩

/-- The merge inside a `reproduce` step from a coherent state: the spawning loop hands its
buffer over, the offspring are evaluated, both tables are in descending order, and the
merge loop fills the new tables. -/
theorem reproduce_step_merge {G : Type} (L : Lib G) (hL : L.Valid) (fuel : Nat) (s : State)
    (g : G) (s' : State) (g' : G) (hs : s.Inv) (hco : s.Coherent)
    (h : reproduce L fuel s g = some (s', g')) :
    ∃ t s1 sm, reproduce.offspring L fuel s g = some t ∧
      EvaluatePop2 t.new_pop t.s = some s1 ∧
      merge_population.fill t.new_pop (merge_population.sortTables L s1) = some sm ∧
      s' = { sm with gen := sm.gen + 1 } ∧
      t.new_pop.length = popSize / 2 ∧
      (merge_population.sortTables L s1).fitness.length = popSize ∧
      (merge_population.sortTables L s1).fitness_off.length = popSize / 2 ∧
      (merge_population.sortTables L s1).fitness.Pairwise (fun a b => b.1 ≤ a.1) ∧
      (merge_population.sortTables L s1).fitness_off.Pairwise (fun a b => b.1 ≤ a.1) ∧
      (merge_population.sortTables L s1).fitness.Perm s.fitness ∧
      (merge_population.sortTables L s1).chromosomes = s.chromosomes := by
  obtain ⟨t, sm, ht, hmerge, hs', _, hlen, tco, tfl, tfo, e_fit, e_chr, _⟩ :=
    reproduce_step_parts L hL fuel s g s' g' hs hco h
  obtain ⟨s1, he, hfill, f1, f2, _, _, f5, f6, _⟩ :=
    merge_population_full L hL t.new_pop t.s sm tfl tfo tco hmerge
  obtain ⟨hs1, hl1, _⟩ := EvaluatePop2_spec t.new_pop t.s s1 he
  have e1 : s1.fitness = t.s.fitness := by rw [hs1]
  have e2 : s1.gen = t.s.gen := by rw [hs1]
  have e3 : s1.chromosomes = t.s.chromosomes := by rw [hs1]
  have t7 := (sortTables_spec L hL s1 (by rw [e1]; exact tfl) (by rw [hl1]; exact tfo)
    (by rw [e1, e2]; exact tco.sorted)).2.2.2.2.2.2.1
  exact ⟨t, s1, sm, ht, he, hfill, hs', hlen, by rw [f1.length_eq]; exact tfl, f6, f2, f5,
    by rw [← e_fit]; exact f1, by rw [t7, e3, e_chr]⟩

/-- Claim C16. In the merge of every `reproduce` step from a reachable state, at every slot
`i` on whose entry offspring remain unplaced (`new_p < 25`), the head of the old table
`o = fitness_copy[old_p]` and the head of the offspring table `f = fitness_off[new_p]` are
the best remaining old and the best remaining offspring, the test is `o.first >= f.first`,
and: when the offspring's score is at most the old score, in particular when the two are
equal, the slot receives the old individual and no offspring is placed; an offspring is
placed only when its score is strictly higher, and then it is the one placed. -/
theorem merge_ties_favour_old {G : Type} (L : Lib G) (hL : L.Valid)
    (pop : List (List Int)) (hpop : IsPopulation popSize pop) (s : State)
    (hr : Reachable L pop s) (fuel : Nat) (g : G) (s' : State) (g' : G)
    (h : reproduce L fuel s g = some (s', g')) :
    ∃ t s1, reproduce.offspring L fuel s g = some t ∧
      EvaluatePop2 t.new_pop t.s = some s1 ∧
      ∀ (i : Nat) (m : MergeState), i < popSize →
        merge_population.atSlot t.new_pop (merge_population.sortTables L s1) i = some m →
        m.new_p < popSize / 2 →
        ∃ o f, (merge_population.sortTables L s1).fitness[m.old_p]? = some o ∧
          (merge_population.sortTables L s1).fitness_off[m.new_p]? = some f ∧
          (∀ e ∈ (merge_population.sortTables L s1).fitness.drop m.old_p, e.1 ≤ o.1) ∧
          (∀ e ∈ (merge_population.sortTables L s1).fitness_off.drop m.new_p, e.1 ≤ f.1) ∧
          merge_population.takeOld (merge_population.sortTables L s1).fitness m
            = some (decide (o.1 ≥ f.1)) ∧
          (f.1 ≤ o.1 → ∃ ch m1,
            (merge_population.sortTables L s1).chromosomes[o.2]? = some ch ∧
            s'.chromosomes[i]? = some ch ∧ s'.fitness[i]? = some (o.1, i) ∧
            merge_population.atSlot t.new_pop (merge_population.sortTables L s1) (i + 1)
              = some m1 ∧
            m1.old_p = m.old_p + 1 ∧ m1.new_p = m.new_p) ∧
          (o.1 < f.1 → ∃ ch m1,
            t.new_pop[f.2]? = some ch ∧
            s'.chromosomes[i]? = some ch ∧ s'.fitness[i]? = some (f.1, i) ∧
            merge_population.atSlot t.new_pop (merge_population.sortTables L s1) (i + 1)
              = some m1 ∧
            m1.old_p = m.old_p ∧ m1.new_p = m.new_p + 1) := by
  obtain ⟨hinv, hco⟩ := reachable_coherent L hL pop hpop s hr
  obtain ⟨t, s1, sm, ht, he, hfill, rfl, _, hfl, hfo, hsf, hso, _, _⟩ :=
    reproduce_step_merge L hL fuel s g s' g' hinv hco h
  refine ⟨t, s1, ht, he, fun i m hi hm hnew => ?_⟩
  obtain ⟨old, x, src, ch, m1, h1, h2, h3, h4, h5⟩ :=
    merge_slot_outcome t.new_pop _ sm hfo hfill i hi m hm
  have h25 : popSize / 2 = 25 := rfl
  rcases merge_takeOld_spec _ m old h1 with ⟨hgt, _⟩ | ⟨_, o, f, ho, hf, hold⟩
  · omega
  · have p3 := (merge_atSlot_pointers t.new_pop _ i m hfo hm).2.2.1
    rw [p3] at hf
    refine ⟨o, f, ho, hf, sorted_drop_max _ hsf _ o ho, sorted_drop_max _ hso _ f hf, ?_, ?_, ?_⟩
    · rw [h1, hold]
    · intro hle
      have hold' : old = true := by rw [hold]; exact decide_eq_true hle
      rw [if_pos hold', ho] at h3
      obtain ⟨h31, h32, h33, h34⟩ := h3
      have hx : o = (x, src) := Option.some.inj h31
      refine ⟨ch, m1, by rw [hx]; exact h32, h5, by rw [hx]; exact h4, h2, h33, h34⟩
    · intro hlt
      have hold' : ¬ old = true := by
        rw [hold]
        simp only [decide_eq_true_eq]
        omega
      rw [if_neg hold', hf] at h3
      obtain ⟨h31, h32, h33, h34⟩ := h3
      have hx : f = (x, src) := Option.some.inj h31
      refine ⟨ch, m1, by rw [hx]; exact h32, h5, by rw [hx]; exact h4, h2, h33, h34⟩

theorem merge_ties_favour_old_witness :
    ∃ t s1, reproduce.offspring counterLib 8 exampleStart 0 = some t ∧
      EvaluatePop2 t.new_pop t.s = some s1 ∧
      ∃ o f, (merge_population.sortTables counterLib s1).fitness[0]? = some o ∧
        (merge_population.sortTables counterLib s1).fitness_off[0]? = some f ∧
        merge_population.takeOld (merge_population.sortTables counterLib s1).fitness
          ⟨merge_population.sortTables counterLib s1, 0, 0⟩ = some (decide (o.1 ≥ f.1)) :=
  (merge_ties_favour_old counterLib counterLib_valid examplePop examplePop_isPopulation.1
    exampleStart (Reachable.init exampleStart exampleStart_eq) 8 0 exampleNext.1
    exampleNext.2 exampleNext_eq).imp fun _ ht => ht.imp fun _ hs =>
      ⟨hs.1, hs.2.1, (hs.2.2 0 ⟨_, 0, 0⟩ (by decide) rfl (show 0 < popSize / 2 by decide)).imp fun _ ho =>
        ho.imp fun _ hf => ⟨hf.1, hf.2.1, hf.2.2.2.2.1⟩⟩

/-- Claim C17. In the merge of every `reproduce` step from a reachable state no read leaves a
table (the step returns): on entry to every slot `i < 50` the pointers satisfy
`old_p + new_p = i`, `old_p < 50` and `new_p ≤ 25`, the old table is read at `old_p` only
and the offspring table at `new_p` only, and the offspring table is read only while
`new_p < 25` (with `new_p = 25` the test is true without reading either table), so the
old pool is never exhausted. Once all 25 offspring are placed every remaining slot is
filled from the old table, entry after entry of a table in descending score order; and at
the end `old_p ≥ 25`: at least 25 of the 50 slots were filled from the old population. -/
theorem merge_reads_in_tables {G : Type} (L : Lib G) (hL : L.Valid)
    (pop : List (List Int)) (hpop : IsPopulation popSize pop) (s : State)
    (hr : Reachable L pop s) (fuel : Nat) (g : G) (s' : State) (g' : G)
    (h : reproduce L fuel s g = some (s', g')) :
    ∃ t s1, reproduce.offspring L fuel s g = some t ∧
      EvaluatePop2 t.new_pop t.s = some s1 ∧
      (merge_population.sortTables L s1).fitness.length = popSize ∧
      (merge_population.sortTables L s1).fitness_off.length = popSize / 2 ∧
      (merge_population.sortTables L s1).fitness.Pairwise (fun a b => b.1 ≤ a.1) ∧
      (∀ (i : Nat) (m : MergeState), i < popSize →
        merge_population.atSlot t.new_pop (merge_population.sortTables L s1) i = some m →
        m.old_p + m.new_p = i ∧ m.old_p < popSize ∧ m.new_p ≤ popSize / 2 ∧
        ∃ old x src ch m1,
          merge_population.takeOld (merge_population.sortTables L s1).fitness m = some old ∧
          (old = false → m.new_p < popSize / 2) ∧
          merge_population.atSlot t.new_pop (merge_population.sortTables L s1) (i + 1)
            = some m1 ∧
          (if old = true then
            (merge_population.sortTables L s1).fitness[m.old_p]? = some (x, src) ∧
              (merge_population.sortTables L s1).chromosomes[src]? = some ch ∧
              m1.old_p = m.old_p + 1 ∧ m1.new_p = m.new_p
          else
            (merge_population.sortTables L s1).fitness_off[m.new_p]? = some (x, src) ∧
              t.new_pop[src]? = some ch ∧
              m1.old_p = m.old_p ∧ m1.new_p = m.new_p + 1) ∧
          s'.fitness[i]? = some (x, i) ∧ s'.chromosomes[i]? = some ch ∧
          (m.new_p = popSize / 2 → old = true ∧
            ∀ j : Nat, i + j < popSize →
              ∃ e row, (merge_population.sortTables L s1).fitness[m.old_p + j]? = some e ∧
                (merge_population.sortTables L s1).chromosomes[e.2]? = some row ∧
                s'.fitness[i + j]? = some (e.1, i + j) ∧
                s'.chromosomes[i + j]? = some row)) ∧
      ∃ mf, merge_population.atSlot t.new_pop (merge_population.sortTables L s1) popSize
          = some mf ∧
        mf.s.chromosomes = s'.chromosomes ∧ mf.s.fitness = s'.fitness ∧
        mf.old_p + mf.new_p = popSize ∧ mf.new_p ≤ popSize / 2 ∧ popSize / 2 ≤ mf.old_p := by
  obtain ⟨hinv, hco⟩ := reachable_coherent L hL pop hpop s hr
  obtain ⟨t, s1, sm, ht, he, hfill, rfl, _, hfl, hfo, hsf, _, _, _⟩ :=
    reproduce_step_merge L hL fuel s g s' g' hinv hco h
  have h25 : popSize / 2 = 25 := rfl
  have h50 : popSize = 50 := rfl
  refine ⟨t, s1, ht, he, hfl, hfo, hsf, fun i m hi hm => ?_, ?_⟩
  · obtain ⟨p1, p2, _⟩ := merge_atSlot_pointers t.new_pop _ i m hfo hm
    obtain ⟨old, x, src, ch, m1, h1, h2, h3, h4, h5⟩ :=
      merge_slot_outcome t.new_pop _ sm hfo hfill i hi m hm
    refine ⟨p1, by omega, p2, old, x, src, ch, m1, h1, fun hold => ?_, h2, h3, h4, h5,
      fun hex => ⟨?_, fun j hj => ?_⟩⟩
    · rcases merge_takeOld_spec _ m old h1 with ⟨_, ht⟩ | ⟨hle, _⟩
      · rw [hold] at ht
        exact Bool.noConfusion ht
      · omega
    · rw [merge_takeOld_exhausted _ m hex] at h1
      exact (Option.some.inj h1).symm
    · obtain ⟨_, e, row, _, _, _, q1, q2, q3, q4⟩ :=
        merge_old_only_tail t.new_pop _ sm hfo hfill i m hm hex j hj
      exact ⟨e, row, q1, q2, q3, q4⟩
  · rw [merge_fill_eq_atSlot, Option.map_eq_some'] at hfill
    obtain ⟨mf, hmf, rfl⟩ := hfill
    obtain ⟨p1, p2, _⟩ := merge_atSlot_pointers t.new_pop _ popSize mf hfo hmf
    exact ⟨mf, hmf, rfl, rfl, p1, p2, by omega⟩

theorem merge_reads_in_tables_witness :
    ∃ t s1, reproduce.offspring counterLib 8 exampleStart 0 = some t ∧
      EvaluatePop2 t.new_pop t.s = some s1 ∧
      ∃ mf, merge_population.atSlot t.new_pop (merge_population.sortTables counterLib s1)
          popSize = some mf ∧
        mf.s.chromosomes = exampleNext.1.chromosomes ∧ mf.s.fitness = exampleNext.1.fitness ∧
        mf.old_p + mf.new_p = popSize ∧ mf.new_p ≤ popSize / 2 ∧ popSize / 2 ≤ mf.old_p :=
  (merge_reads_in_tables counterLib counterLib_valid examplePop examplePop_isPopulation.1
    exampleStart (Reachable.init exampleStart exampleStart_eq) 8 0 exampleNext.1
    exampleNext.2 exampleNext_eq).imp fun _ ht => ht.imp fun _ hs =>
      ⟨hs.1, hs.2.1, hs.2.2.2.2.2.2⟩

theorem spec_round_pop {G : Type} (L : Lib G) (fuel : Nat) (both : Bool)
    (t t' : SpawnState G) (h : spec_round L fuel both t = some t') :
    t'.s.chromosomes = t.s.chromosomes := by
  unfold spec_round at h
  simp only [Option.bind_eq_some] at h
  obtain ⟨r1, _, r2, _, p1, _, p2, _, off, _, t1, ht1, hrest⟩ := h
  obtain ⟨_, _, _, _, _, e1⟩ := reproduce_place_spec L fuel _ _ _ ht1
  cases both with
  | true =>
    simp only [if_true] at hrest
    obtain ⟨_, _, _, _, _, e2⟩ := reproduce_place_spec L fuel _ _ _ hrest
    rw [e2, e1]
  | false =>
    simp only [Bool.false_eq_true, if_false, Option.some.injEq] at hrest
    subst hrest
    rw [e1]

theorem spec_rounds_pop {G : Type} (L : Lib G) (fuel : Nat) (j : Nat)
    (t t' : SpawnState G) (h : spec_rounds L fuel j t = some t') :
    t'.s.chromosomes = t.s.chromosomes := by
  induction j generalizing t with
  | zero =>
    simp only [spec_rounds, Option.some.injEq] at h
    subst h
    rfl
  | succ j ih =>
    simp only [spec_rounds, Option.bind_eq_some] at h
    obtain ⟨t1, ht1, hrest⟩ := h
    rw [ih t1 hrest, spec_round_pop L fuel true t t1 ht1]

/-- Claim C11, as amended. At every point during a `reproduce` step from a reachable state
the number of chromosome rows held in the storage of the step is at most
`popSize * 2 + popSize / 2 = 125`: it is 77 after every round of the spawning loop (the
population, the buffer and the two rows of `offsprings`), and it is 125 on entry to every
slot of the merge loop and at its end (the population, the buffer and the scratch copy
`chromosomes_copy`). -/
theorem rows_held_bound {G : Type} (L : Lib G) (hL : L.Valid)
    (pop : List (List Int)) (hpop : IsPopulation popSize pop) (s : State)
    (hr : Reachable L pop s) (fuel : Nat) (g : G) (s' : State) (g' : G)
    (h : reproduce L fuel s g = some (s', g')) :
    ∃ t s1, reproduce.offspring L fuel s g = some t ∧
      EvaluatePop2 t.new_pop t.s = some s1 ∧
      (∀ (k : Nat) (tk : SpawnState G), spec_rounds L fuel k ⟨L.uninit g, 0, s, g⟩ = some tk →
        reproduce.rowsHeld tk = 77 ∧ reproduce.rowsHeld tk ≤ popSize * 2 + popSize / 2) ∧
      (reproduce.rowsHeld t = 77 ∧ reproduce.rowsHeld t ≤ popSize * 2 + popSize / 2) ∧
      ∀ (i : Nat) (m : MergeState), i ≤ popSize →
        merge_population.atSlot t.new_pop (merge_population.sortTables L s1) i = some m →
        merge_population.rowsHeld t.new_pop (merge_population.sortTables L s1).chromosomes m
          = 125 ∧
        merge_population.rowsHeld t.new_pop (merge_population.sortTables L s1).chromosomes m
          ≤ popSize * 2 + popSize / 2 := by
  obtain ⟨hinv, hco⟩ := reachable_coherent L hL pop hpop s hr
  obtain ⟨t, s1, sm, ht, he, hfill, _, hlen, _, hfo, _, _, _, hchr⟩ :=
    reproduce_step_merge L hL fuel s g s' g' hinv hco h
  have hcl := hinv.chromosomes_length
  have h50 : popSize = 50 := rfl
  have hts := (reproduce_step_parts L hL fuel s g s' g' hinv hco h)
  have htchr : t.s.chromosomes = s.chromosomes := by
    obtain ⟨t', _, ht', _, _, _, _, _, _, _, _, e, _⟩ := hts
    rw [ht] at ht'
    rw [Option.some.inj ht']
    exact e
  refine ⟨t, s1, ht, he, fun k tk hk => ?_, ?_, fun i m hi hm => ?_⟩
  · have e1 := spec_rounds_pop L fuel k _ tk hk
    have e2 := (spec_rounds_count_frame L fuel k _ tk hk).2.1
    have e3 := (hL.uninit_shape g).1
    simp only at e1 e2
    unfold reproduce.rowsHeld
    rw [e1, e2, e3, hcl]
    exact ⟨rfl, by decide⟩
  · unfold reproduce.rowsHeld
    rw [htchr, hlen, hcl]
    exact ⟨rfl, by decide⟩
  · obtain ⟨_, _, _, p4, _⟩ := merge_atSlot_pointers t.new_pop _ i m hfo hm
    unfold merge_population.rowsHeld
    rw [p4, hchr, hlen, hcl]
    exact ⟨rfl, by decide⟩

theorem rows_held_bound_witness :
    ∃ t s1, reproduce.offspring counterLib 8 exampleStart 0 = some t ∧
      EvaluatePop2 t.new_pop t.s = some s1 ∧
      (reproduce.rowsHeld t = 77 ∧ reproduce.rowsHeld t ≤ popSize * 2 + popSize / 2) :=
  (rows_held_bound counterLib counterLib_valid examplePop examplePop_isPopulation.1
    exampleStart (Reachable.init exampleStart exampleStart_eq) 8 0 exampleNext.1
    exampleNext.2 exampleNext_eq).imp fun _ ht => ht.imp fun _ hs =>
      ⟨hs.1, hs.2.1, hs.2.2.2.1⟩

/-- Claim C11 fails as stated: in the first generation from `exampleStart`, on entry to slot
0 of the merge loop, the storage of the step holds 125 chromosome rows (the population of
50, the buffer of 25 and the scratch copy of 50), more than `popSize * 2 = 100`. -/
theorem rows_held_exceed_double :
    ∃ t s1, reproduce.offspring counterLib 8 exampleStart 0 = some t ∧
      EvaluatePop2 t.new_pop t.s = some s1 ∧
      merge_population.atSlot t.new_pop (merge_population.sortTables counterLib s1) 0
        = some ⟨merge_population.sortTables counterLib s1, 0, 0⟩ ∧
      merge_population.rowsHeld t.new_pop
        (merge_population.sortTables counterLib s1).chromosomes
        ⟨merge_population.sortTables counterLib s1, 0, 0⟩ = 125 ∧
      popSize * 2 < 125 := by
  have hr : Reachable counterLib examplePop exampleStart :=
    Reachable.init exampleStart exampleStart_eq
  obtain ⟨hinv, hco⟩ := reachable_coherent counterLib counterLib_valid examplePop
    examplePop_isPopulation.1 exampleStart hr
  obtain ⟨t, s1, sm, ht, he, hfill, _, hlen, _, hfo, _, _, _, hchr⟩ :=
    reproduce_step_merge counterLib counterLib_valid 8 exampleStart 0 exampleNext.1
      exampleNext.2 hinv hco exampleNext_eq
  refine ⟨t, s1, ht, he, rfl, ?_, by decide⟩
  unfold merge_population.rowsHeld
  rw [hchr, hlen, hinv.chromosomes_length]
  rfl

/-! ## The tie-reordering sort is a sort -/

theorem insertAfterTies_perm (a : Int × Nat) (l : List (Int × Nat)) :
    (insertAfterTies a l).Perm (a :: l) := by
  induction l with
  | nil => exact List.Perm.refl _
  | cons b l ih =>
    unfold insertAfterTies
    split
    · exact List.Perm.refl _
    · exact (List.Perm.cons b ih).trans (List.Perm.swap a b l)

theorem insertAfterTies_sorted (a : Int × Nat) (l : List (Int × Nat))
    (h : l.Pairwise (fun x y => y.1 ≤ x.1)) :
    (insertAfterTies a l).Pairwise (fun x y => y.1 ≤ x.1) := by
  induction l with
  | nil => simp [insertAfterTies]
  | cons b l ih =>
    unfold insertAfterTies
    rw [List.pairwise_cons] at h
    split
    · rename_i hba
      refine List.Pairwise.cons ?_ (List.Pairwise.cons h.1 h.2)
      intro y hy
      rcases List.mem_cons.mp hy with rfl | hy
      · omega
      · have := h.1 y hy
        omega
    · rename_i hba
      refine List.Pairwise.cons ?_ (ih h.2)
      intro y hy
      rcases List.mem_cons.mp ((insertAfterTies_perm a l).mem_iff.mp hy) with rfl | hy
      · omega
      · exact h.1 y hy

theorem tieReversingSort_perm (l : List (Int × Nat)) : (tieReversingSort l).Perm l := by
  induction l with
  | nil => exact List.Perm.refl _
  | cons a l ih => exact (insertAfterTies_perm a _).trans (List.Perm.cons a ih)

theorem tieReversingSort_sorted (l : List (Int × Nat)) :
    (tieReversingSort l).Pairwise (fun x y => y.1 ≤ x.1) := by
  induction l with
  | nil => simp [tieReversingSort]
  | cons a l ih => exact insertAfterTies_sorted a _ ih

theorem tieLib_valid : tieLib.Valid where
  floatDist_unit := counterLib_valid.floatDist_unit
  intDist_range := counterLib_valid.intDist_range
  sort_perm := tieReversingSort_perm
  sort_sorted := tieReversingSort_sorted
  uninit_shape := counterLib_valid.uninit_shape

/-! ## Skipping the sort -/

theorem sorted_perm_eq (l1 l2 : List Int) (hp : l1.Perm l2)
    (h1 : l1.Pairwise (fun a b => b ≤ a)) (h2 : l2.Pairwise (fun a b => b ≤ a)) : l1 = l2 := by
  have s1 : List.Sorted (fun a b : Int => a ≥ b) l1 := h1
  have s2 : List.Sorted (fun a b : Int => a ≥ b) l2 := h2
  exact List.eq_of_perm_of_sorted hp s1 s2

theorem eq_of_map_fst_snd (l1 l2 : List (Int × Nat))
    (h1 : l1.map Prod.fst = l2.map Prod.fst) (h2 : l1.map Prod.snd = l2.map Prod.snd) :
    l1 = l2 := by
  apply List.ext_getElem?
  intro j
  have a1 := congrArg (fun l => l[j]?) h1
  have a2 := congrArg (fun l => l[j]?) h2
  simp only [List.getElem?_map] at a1 a2
  cases hx : l1[j]? with
  | none =>
    rw [hx] at a1
    cases hy : l2[j]? with
    | none => rfl
    | some y => rw [hy] at a1; exact Option.noConfusion a1
  | some x =>
    rw [hx] at a1 a2
    cases hy : l2[j]? with
    | none => rw [hy] at a1; exact Option.noConfusion a1
    | some y =>
      rw [hy] at a1 a2
      have b1 : x.1 = y.1 := Option.some.inj a1
      have b2 : x.2 = y.2 := Option.some.inj a2
      rw [Prod.ext b1 b2]
/-- With a coherent, sorted old table (`gen ≠ 1`), `merge_population`, which skips the sort
of the old table, and the variant that re-sorts it produce the same fitness table, the
same `fit_best_`, `stuck`, `gen` and offspring table; and the same state altogether when
the sort leaves the sorted old table as it is. -/
theorem merge_resorting_agrees {G : Type} (L : Lib G) (hL : L.Valid)
    (new_pop : List (List Int)) (s : State) (hcl : s.chromosomes.length = popSize)
    (hfl : s.fitness.length = popSize) (hfo : s.fitness_off.length = popSize / 2)
    (hco : s.Coherent) (hg : s.gen ≠ 1) (hnp : new_pop.length = popSize / 2) :
    ∃ s1 a b, EvaluatePop2 new_pop s = some s1 ∧
      (merge_population.sortTables L s1).fitness = s.fitness ∧
      (merge_population.sortTables L s1).fitness.Pairwise (fun x y => y.1 ≤ x.1) ∧
      (merge_population.sortTables L s1).fitness_off.Pairwise (fun x y => y.1 ≤ x.1) ∧
      merge_population L new_pop s = some a ∧ spec_merge_resorting L new_pop s = some b ∧
      a.fitness = b.fitness ∧ a.fit_best_ = b.fit_best_ ∧ a.stuck = b.stuck ∧
      a.gen = b.gen ∧ a.fitness_off = b.fitness_off ∧
      (sort L s.fitness popSize = s.fitness → a = b) := by
  obtain ⟨a, hmerge⟩ := merge_population_total L hL new_pop s hcl hfl hfo hco hnp
  obtain ⟨s1, he, hfill, _, f2, f3, _, f5, f6, _⟩ :=
    merge_population_full L hL new_pop s a hfl hfo hco hmerge
  obtain ⟨hs1, hl1, _⟩ := EvaluatePop2_spec new_pop s s1 he
  obtain ⟨hno, _⟩ := EvaluatePop2_coherent new_pop s s1 hfo he
  have e1 : s1.fitness = s.fitness := by rw [hs1]
  have e2 : s1.chromosomes = s.chromosomes := by rw [hs1]
  have e3 : s1.gen = s.gen := by rw [hs1]
  have hfl1 : s1.fitness.length = popSize := by rw [e1]; exact hfl
  have hfo1 : s1.fitness_off.length = popSize / 2 := by rw [hl1]; exact hfo
  obtain ⟨_, _, _, _, _, t6, t7, t8, t9, t10, _, _⟩ :=
    sortTables_spec L hL s1 hfl1 hfo1 (by rw [e1, e3]; exact hco.sorted)
  have hpf := sort_perm L hL s1.fitness popSize hfl1
  have hpo := sort_perm L hL s1.fitness_off (popSize / 2) hfo1
  -- the re-sorting variant runs through
  obtain ⟨mb, hmb⟩ := merge_fill_total new_pop
    { s1 with fitness := sort L s1.fitness popSize,
              fitness_off := sort L s1.fitness_off (popSize / 2) }
    (by rw [← hcl, ← e2]) (hpf.length_eq.trans hfl1)
    (hpo.length_eq.trans hfo1)
    (fun e hmem => by
      have hmem' : e ∈ s.fitness := by rw [← e1]; exact hpf.subset hmem
      obtain ⟨i, hi, hie⟩ := List.getElem_of_mem hmem'
      obtain ⟨ch, hch, hft⟩ := hco.entries i (by rw [← hfl]; exact hi)
      rw [List.getElem?_eq_getElem hi, hie] at hft
      have : e = (computeFit ch, i) := Option.some.inj hft
      rw [this]
      exact ⟨ch, by rw [← hch, ← e2]⟩)
    (fun e hmem => by
      obtain ⟨ch, hch, _, _⟩ := hno e (hpo.subset hmem)
      exact ⟨ch, hch⟩)
    popSize (le_refl _)
  have hb : merge_population.fill new_pop
      { s1 with fitness := sort L s1.fitness popSize,
                fitness_off := sort L s1.fitness_off (popSize / 2) } = some mb.s := by
    rw [merge_fill_eq_atSlot, hmb]
    rfl
  have hspec : spec_merge_resorting L new_pop s = some mb.s := by
    unfold spec_merge_resorting
    rw [he, Option.some_bind]
    exact hb
  obtain ⟨a1, a2, _, a4, _, ⟨ea, hea, heaf⟩, a7, a8, _⟩ :=
    merge_fill_spec new_pop (merge_population.sortTables L s1) a
      (by rw [f3 hg]; exact hfl) f6 hfill
  obtain ⟨b1, b2, _, b4, _, ⟨eb, heb, hebf⟩, b7, b8, _⟩ :=
    merge_fill_spec new_pop _ mb.s (hpf.length_eq.trans hfl1)
      (hpo.length_eq.trans hfo1) hb
  have hscores : (merge_population.sortTables L s1).fitness.map Prod.fst
      = (sort L s1.fitness popSize).map Prod.fst := by
    apply sorted_perm_eq
    · rw [f3 hg, ← e1]
      exact (hpf.map _).symm
    · exact map_fst_pairwise _ f2
    · exact map_fst_pairwise _ (sort_sorted L hL s1.fitness popSize hfl1)
  have hfit : a.fitness = mb.s.fitness := by
    apply eq_of_map_fst_snd
    · rw [a1, b1, hscores, t6]
    · rw [a2, b2]
  have hbest : a.fit_best_ = mb.s.fit_best_ := by
    rw [← heaf, ← hebf]
    rw [hfit] at hea
    rw [Option.some.inj (hea.symm.trans heb)]
  refine ⟨s1, a, mb.s, he, f3 hg, f2, f5, hmerge, hspec, hfit, hbest, ?_, ?_, ?_, fun hid => ?_⟩
  · rw [a7, b7, t8, t9, hbest]
  · rw [a8, b8, t10]
  · rw [a4, b4, t6]
  · have hsame : merge_population.sortTables L s1
        = { s1 with fitness := sort L s1.fitness popSize,
                    fitness_off := sort L s1.fitness_off (popSize / 2) } := by
      have hg1 : ¬ s1.gen = 1 := by rw [e3]; exact hg
      have hid1 : sort L s1.fitness popSize = s1.fitness := by rw [e1]; exact hid
      unfold merge_population.sortTables
      dsimp only
      rw [if_neg hg1, hid1]
    rw [hsame, hb] at hfill
    exact (Option.some.inj hfill).symm

set_option maxRecDepth 1000000 in
theorem tieFirst_eq : reproduce tieLib 8 exampleStart 0 = some (tieFirst, 252) := by decide

set_option maxRecDepth 1000000 in
theorem tieSecond_eq : reproduce tieLib 8 tieFirst 252 = some (tieSecond, 510) := by decide

set_option maxRecDepth 1000000 in
theorem tieSpawn_eq : reproduce.offspring tieLib 8 tieSecond 510 = some tieSpawn := by
  have h : (reproduce.offspring tieLib 8 tieSecond 510).map
      (fun t => (t.new_pop, t.reproduce_count, t.s, t.g))
      = some (tieSpawn.new_pop, tieSpawn.reproduce_count, tieSpawn.s, tieSpawn.g) := by decide
  rw [Option.map_eq_some'] at h
  obtain ⟨t, ht, he⟩ := h
  rw [ht]
  simp only [Prod.mk.injEq] at he
  obtain ⟨h1, h2, h3, h4⟩ := he
  cases t
  simp only at h1 h2 h3 h4
  subst h1 h2 h3 h4
  rfl
set_option maxRecDepth 1000000 in
theorem tie_merges :
    (merge_population tieLib tieSpawn.new_pop tieSpawn.s).map
        (fun s => decide ([0, 0, 0, 0, 0, 1, 1, 3] ∈ s.chromosomes)) = some true ∧
    (spec_merge_resorting tieLib tieSpawn.new_pop tieSpawn.s).map
        (fun s => decide ([0, 0, 0, 0, 0, 1, 1, 3] ∈ s.chromosomes)) = some false := by
  decide

/-- Claim C18 fails as stated: with a sort that reorders entries of equal score, as
`std::sort` is free to do, the third generation from `exampleStart` (from the state
`tieSecond`, reached after two `reproduce` steps) keeps the row `[0, 0, 0, 0, 0, 1, 1, 3]`
in the population, while the merge that re-sorts the old table drops it: the two results
differ. -/
theorem resorting_changes_survivors :
    tieLib.Valid ∧ Reachable tieLib examplePop tieSecond ∧ tieSecond.gen ≠ 1 ∧
    reproduce.offspring tieLib 8 tieSecond 510 = some tieSpawn ∧
    (merge_population tieLib tieSpawn.new_pop tieSpawn.s).map
        (fun s => decide ([0, 0, 0, 0, 0, 1, 1, 3] ∈ s.chromosomes)) = some true ∧
    (spec_merge_resorting tieLib tieSpawn.new_pop tieSpawn.s).map
        (fun s => decide ([0, 0, 0, 0, 0, 1, 1, 3] ∈ s.chromosomes)) = some false :=
  ⟨tieLib_valid,
    Reachable.step 8 tieFirst 252 tieSecond 510
      (Reachable.step 8 exampleStart 0 tieFirst 252
        (Reachable.init exampleStart exampleStart_eq) tieFirst_eq) tieSecond_eq,
    by decide, tieSpawn_eq, tie_merges.1, tie_merges.2⟩

/-- Claim C18, as amended. In every state reached after at least one `reproduce` step
`gen ≠ 1` and the fitness table is sorted in non-increasing score order; therefore
skipping the sort of the old table still presents `merge_population` (for every buffer of
25 offspring, whatever `xover_point` is) with the old table as it is and two tables in
descending order, and the fitness table (scores and indices), `fit_best_`, `stuck`, `gen` and
the offspring table it produces are the same as if the old table were re-sorted on every
call; the whole result, rows included, is the same whenever the sort leaves the sorted old
table as it is. -/
theorem skipping_sort_keeps_scores {G : Type} (L : Lib G) (hL : L.Valid)
    (pop : List (List Int)) (hpop : IsPopulation popSize pop) (s : State)
    (hr : Reachable L pop s) (fuel : Nat) (g : G) (s' : State) (g' : G)
    (h : reproduce L fuel s g = some (s', g')) :
    s'.gen ≠ 1 ∧ s'.fitness.Pairwise (fun x y => y.1 ≤ x.1) ∧
    ∀ (x : Nat) (new_pop : List (List Int)), new_pop.length = popSize / 2 →
      ∃ s1 a b, EvaluatePop2 new_pop { s' with xover_point := x } = some s1 ∧
        (merge_population.sortTables L s1).fitness = s'.fitness ∧
        (merge_population.sortTables L s1).fitness.Pairwise (fun x y => y.1 ≤ x.1) ∧
        (merge_population.sortTables L s1).fitness_off.Pairwise (fun x y => y.1 ≤ x.1) ∧
        merge_population L new_pop { s' with xover_point := x } = some a ∧
        spec_merge_resorting L new_pop { s' with xover_point := x } = some b ∧
        a.fitness = b.fitness ∧ a.fit_best_ = b.fit_best_ ∧ a.stuck = b.stuck ∧
        a.gen = b.gen ∧ a.fitness_off = b.fitness_off ∧
        (sort L s'.fitness popSize = s'.fitness → a = b) := by
  obtain ⟨hinv, hco⟩ := reachable_coherent L hL pop hpop s hr
  obtain ⟨hinv', _, hgen, _⟩ := reproduce_step_spec L hL fuel s g s' g' hinv h
  obtain ⟨hco', hsorted⟩ := reproduce_step_coherent L hL fuel s g s' g' hinv hco h
  have hg : s'.gen ≠ 1 := by
    have := hinv.gen_pos
    omega
  refine ⟨hg, hsorted, fun x new_pop hnp => ?_⟩
  exact merge_resorting_agrees L hL new_pop { s' with xover_point := x }
    hinv'.chromosomes_length hinv'.fitness_length hinv'.fitness_off_length
    ⟨hco'.entries, hco'.sorted⟩ hg hnp

theorem skipping_sort_keeps_scores_witness :
    exampleNext.1.gen ≠ 1 ∧ exampleNext.1.fitness.Pairwise (fun x y => y.1 ≤ x.1) :=
  have h := skipping_sort_keeps_scores counterLib counterLib_valid examplePop
    examplePop_isPopulation.1 exampleStart (Reachable.init exampleStart exampleStart_eq) 8 0
    exampleNext.1 exampleNext.2 exampleNext_eq
  ⟨h.1, h.2.1⟩

end EightQueens
